import Mathlib

/-! DZSimulator: player loadout, input command counters and client-side prediction

A shallow embedding of

* `src/sim/Entities/Player.h` (the `Loadout` constructor and the
  `inputCmdActiveCount` dispatch),
* the client-side part of `DZSimApplication::tickEvent` in `src/main.cpp`
  (handling of the game input, pruning of acknowledged inputs, the prediction
  loop, the interpolation),
* `DZSimApplication::LoadBspMap`, `DZSimApplication::RefreshAvailableDisplays`,
  `DZSimApplication::UpdateGuiCsgoMapPaths` and the fullscreen display check of
  `tickEvent` in `src/main.cpp`,
* the loadout editor of `MenuWindow::DrawGameConfig` and the FPS limit slider in
  `src/gui/MenuWindow.cpp`, and
* the draw order and the colouring of the brush categories in
  `WorldRenderer::Draw` in `src/rendering/WorldRenderer.cpp`,

followed by the properties proved about them.

Conventions of the embedding:

* `sim::Clock::time_point` and `sim::Clock::duration` are counts of clock ticks,
  embedded as `Int` (signed overflow of the 64-bit tick count is not modelled).
* `std::vector` is `List`; an iterator into a vector is the `Nat` index of the
  element it points at, `end()` being the length of the list.
* `unsigned int` is embedded as an `Int` kept in `[0, 2^32)` by an explicit
  reduction modulo `2^32` after every arithmetic operation.
* `float` and `double` values are kept abstract: the code under study only moves
  them around, except for the handful of operations collected in `DoubleOps`
  and `FloatOps`. Where the value of a `float` matters (the interpolation
  phase), `float` is IEEE 754 binary32 with rounding to nearest, ties to even
  (`cpp.Binary32`).
-/

namespace sim

/-! ## `Player::Loadout` (src/sim/Entities/Player.h) -/

namespace Entities

/-- Enumerators of `Player::Loadout::Weapon`, in declaration order. `TOTAL_COUNT`
is the trailing enumerator that counts the weapons. -/
inductive Weapon
  | Fists
  | Knife
  | BumpMine
  | Taser
  | XM1014
  | TOTAL_COUNT
  deriving DecidableEq

/-- Enum value of a weapon (`Fists = 0`, then counting upwards). -/
def Weapon.toNat : Weapon → Nat
  | .Fists => 0
  | .Knife => 1
  | .BumpMine => 2
  | .Taser => 3
  | .XM1014 => 4
  | .TOTAL_COUNT => 5

/-- Type `Loadout::WeaponList`, a `Magnum::Math::BitVector`: the bits are held
as the binary digits of a natural number, bit `i` being digit `i`. -/
abbrev WeaponList := Nat

/-- Value `WeaponList{ Magnum::Math::ZeroInit }`: all bits cleared. -/
def WeaponList.zeroInit : WeaponList := 0

/-- Read access `bits[i]`. -/
def WeaponList.get (bits : WeaponList) (i : Nat) : Bool := Nat.testBit bits i

/-- Method `bits.set(i, value)`: sets or clears bit `i`, leaving the others. -/
def WeaponList.set (bits : WeaponList) (i : Nat) (value : Bool) : WeaponList :=
  if value then bits ||| (1 <<< i) else bits ^^^ (bits &&& (1 <<< i))

/-- Class `Player::Loadout`. -/
structure Loadout where
  active_weapon : Weapon
  non_active_weapons : WeaponList
  has_exojump : Bool
  deriving DecidableEq

/-- One iteration of the range-for loop in the `Loadout` constructor. -/
def Loadout.addNonActive (active : Weapon) (bits : WeaponList)
    (non_active_weapon : Weapon) : WeaponList :=
  if non_active_weapon ≠ active then
    WeaponList.set bits non_active_weapon.toNat true
  else bits

/-- Constructor `Loadout(bool has_exo, Weapon active, const std::vector<Weapon>&
non_active_list)`. -/
def Loadout.new (has_exo : Bool) (active : Weapon) (non_active_list : List Weapon) :
    Loadout :=
  { active_weapon := active
    non_active_weapons :=
      non_active_list.foldl (Loadout.addNonActive active) WeaponList.zeroInit
    has_exojump := has_exo }

end Entities

/-! ## `PlayerInputState::Command` and `Player` (src/sim/Entities/Player.h) -/

/-- Modelled from the spec: the enumerators of `PlayerInputState::Command`, whose
declaration (sim/PlayerInputState.h) is not among the sources. The data model
describes "an enumerated press/release pair per logical action (forward, back,
strafe-left, strafe-right, use, jump, duck, speed-modifier, primary-attack,
secondary-attack)"; the enumerator names are the ones used by src/main.cpp and
by the switch in `Player::inputCmdActiveCount`. -/
inductive PlayerInputState.Command
  | PLUS_FORWARD
  | MINUS_FORWARD
  | PLUS_BACK
  | MINUS_BACK
  | PLUS_MOVELEFT
  | MINUS_MOVELEFT
  | PLUS_MOVERIGHT
  | MINUS_MOVERIGHT
  | PLUS_USE
  | MINUS_USE
  | PLUS_JUMP
  | MINUS_JUMP
  | PLUS_DUCK
  | MINUS_DUCK
  | PLUS_SPEED
  | MINUS_SPEED
  | PLUS_ATTACK
  | MINUS_ATTACK
  | PLUS_ATTACK2
  | MINUS_ATTACK2
  deriving DecidableEq

/-- Modelled from the spec: the ten logical actions of the data model, each of
which owns one press/release pair of commands. -/
inductive PlayerInputState.Action
  | forward
  | back
  | moveleft
  | moveright
  | use
  | jump
  | duck
  | speed
  | attack
  | attack2
  deriving DecidableEq

open PlayerInputState in
/-- Modelled from the spec: the logical action a command belongs to, read off the
enumerator name (`PLUS_X` and `MINUS_X` form the pair of action `X`). -/
def PlayerInputState.Command.action : Command → Action
  | .PLUS_FORWARD => .forward
  | .MINUS_FORWARD => .forward
  | .PLUS_BACK => .back
  | .MINUS_BACK => .back
  | .PLUS_MOVELEFT => .moveleft
  | .MINUS_MOVELEFT => .moveleft
  | .PLUS_MOVERIGHT => .moveright
  | .MINUS_MOVERIGHT => .moveright
  | .PLUS_USE => .use
  | .MINUS_USE => .use
  | .PLUS_JUMP => .jump
  | .MINUS_JUMP => .jump
  | .PLUS_DUCK => .duck
  | .MINUS_DUCK => .duck
  | .PLUS_SPEED => .speed
  | .MINUS_SPEED => .speed
  | .PLUS_ATTACK => .attack
  | .MINUS_ATTACK => .attack
  | .PLUS_ATTACK2 => .attack2
  | .MINUS_ATTACK2 => .attack2

open PlayerInputState in
/-- Modelled from the spec: whether a command is the "press" (`PLUS_*`) half of
its pair; the "release" half is `MINUS_*`. -/
def PlayerInputState.Command.isPlus : Command → Bool
  | .PLUS_FORWARD => true
  | .PLUS_BACK => true
  | .PLUS_MOVELEFT => true
  | .PLUS_MOVERIGHT => true
  | .PLUS_USE => true
  | .PLUS_JUMP => true
  | .PLUS_DUCK => true
  | .PLUS_SPEED => true
  | .PLUS_ATTACK => true
  | .PLUS_ATTACK2 => true
  | _ => false

/-- A run-time value of the C++ type `PlayerInputState::Command`: either one of
the declared enumerators, or some other value of the underlying integer type,
which names no enumerator (obtainable only through a cast). -/
inductive PlayerInputState.CommandValue
  | enumerator (c : PlayerInputState.Command)
  | other (raw : Int)
  deriving DecidableEq

/-- Reduction of an integer to the range of `unsigned int`. -/
def u32 (x : Int) : Int := x % 4294967296

namespace Entities

/-- Class `Player`: the loadout, the cooldown time point and the ten
`unsigned int` press counters. -/
structure Player where
  loadout : Loadout
  next_primary_attack : Int
  inputCmdActiveCount_forward : Int
  inputCmdActiveCount_back : Int
  inputCmdActiveCount_moveleft : Int
  inputCmdActiveCount_moveright : Int
  inputCmdActiveCount_use : Int
  inputCmdActiveCount_jump : Int
  inputCmdActiveCount_duck : Int
  inputCmdActiveCount_speed : Int
  inputCmdActiveCount_attack : Int
  inputCmdActiveCount_attack2 : Int
  deriving DecidableEq

/-- Default member initialisers with `Player() = default`. -/
def Player.default : Player :=
  { loadout := Loadout.new false Weapon.XM1014 []
    next_primary_attack := 0
    inputCmdActiveCount_forward := 0
    inputCmdActiveCount_back := 0
    inputCmdActiveCount_moveleft := 0
    inputCmdActiveCount_moveright := 0
    inputCmdActiveCount_use := 0
    inputCmdActiveCount_jump := 0
    inputCmdActiveCount_duck := 0
    inputCmdActiveCount_speed := 0
    inputCmdActiveCount_attack := 0
    inputCmdActiveCount_attack2 := 0 }

/-- The `unsigned int&` results of `Player::inputCmdActiveCount`: a reference to
one of the ten counter members of the player it is called on. -/
inductive ActiveCountRef
  | inputCmdActiveCount_forward
  | inputCmdActiveCount_back
  | inputCmdActiveCount_moveleft
  | inputCmdActiveCount_moveright
  | inputCmdActiveCount_use
  | inputCmdActiveCount_jump
  | inputCmdActiveCount_duck
  | inputCmdActiveCount_speed
  | inputCmdActiveCount_attack
  | inputCmdActiveCount_attack2
  deriving DecidableEq

/-- Reading through a counter reference. -/
def Player.read (p : Player) : ActiveCountRef → Int
  | .inputCmdActiveCount_forward => p.inputCmdActiveCount_forward
  | .inputCmdActiveCount_back => p.inputCmdActiveCount_back
  | .inputCmdActiveCount_moveleft => p.inputCmdActiveCount_moveleft
  | .inputCmdActiveCount_moveright => p.inputCmdActiveCount_moveright
  | .inputCmdActiveCount_use => p.inputCmdActiveCount_use
  | .inputCmdActiveCount_jump => p.inputCmdActiveCount_jump
  | .inputCmdActiveCount_duck => p.inputCmdActiveCount_duck
  | .inputCmdActiveCount_speed => p.inputCmdActiveCount_speed
  | .inputCmdActiveCount_attack => p.inputCmdActiveCount_attack
  | .inputCmdActiveCount_attack2 => p.inputCmdActiveCount_attack2

/-- Assigning through a counter reference. -/
def Player.write (p : Player) (r : ActiveCountRef) (v : Int) : Player :=
  match r with
  | .inputCmdActiveCount_forward => { p with inputCmdActiveCount_forward := v }
  | .inputCmdActiveCount_back => { p with inputCmdActiveCount_back := v }
  | .inputCmdActiveCount_moveleft => { p with inputCmdActiveCount_moveleft := v }
  | .inputCmdActiveCount_moveright => { p with inputCmdActiveCount_moveright := v }
  | .inputCmdActiveCount_use => { p with inputCmdActiveCount_use := v }
  | .inputCmdActiveCount_jump => { p with inputCmdActiveCount_jump := v }
  | .inputCmdActiveCount_duck => { p with inputCmdActiveCount_duck := v }
  | .inputCmdActiveCount_speed => { p with inputCmdActiveCount_speed := v }
  | .inputCmdActiveCount_attack => { p with inputCmdActiveCount_attack := v }
  | .inputCmdActiveCount_attack2 => { p with inputCmdActiveCount_attack2 := v }

/-- The counter member that bears the name of a logical action
(`inputCmdActiveCount_X` for action `X`). -/
def ActiveCountRef.ofAction : PlayerInputState.Action → ActiveCountRef
  | .forward => .inputCmdActiveCount_forward
  | .back => .inputCmdActiveCount_back
  | .moveleft => .inputCmdActiveCount_moveleft
  | .moveright => .inputCmdActiveCount_moveright
  | .use => .inputCmdActiveCount_use
  | .jump => .inputCmdActiveCount_jump
  | .duck => .inputCmdActiveCount_duck
  | .speed => .inputCmdActiveCount_speed
  | .attack => .inputCmdActiveCount_attack
  | .attack2 => .inputCmdActiveCount_attack2

open PlayerInputState in
/-- Method `Player::inputCmdActiveCount(cmd)`: the switch over the command. A
value handled by no case falls out of the switch to the error message followed
by `std::terminate()`, embedded as `Except.error` with that message. -/
def Player.inputCmdActiveCount : CommandValue → Except String ActiveCountRef
  | .enumerator .PLUS_FORWARD => .ok .inputCmdActiveCount_forward
  | .enumerator .MINUS_FORWARD => .ok .inputCmdActiveCount_forward
  | .enumerator .PLUS_BACK => .ok .inputCmdActiveCount_back
  | .enumerator .MINUS_BACK => .ok .inputCmdActiveCount_back
  | .enumerator .PLUS_MOVELEFT => .ok .inputCmdActiveCount_moveleft
  | .enumerator .MINUS_MOVELEFT => .ok .inputCmdActiveCount_moveleft
  | .enumerator .PLUS_MOVERIGHT => .ok .inputCmdActiveCount_moveright
  | .enumerator .MINUS_MOVERIGHT => .ok .inputCmdActiveCount_moveright
  | .enumerator .PLUS_USE => .ok .inputCmdActiveCount_use
  | .enumerator .MINUS_USE => .ok .inputCmdActiveCount_use
  | .enumerator .PLUS_JUMP => .ok .inputCmdActiveCount_jump
  | .enumerator .MINUS_JUMP => .ok .inputCmdActiveCount_jump
  | .enumerator .PLUS_DUCK => .ok .inputCmdActiveCount_duck
  | .enumerator .MINUS_DUCK => .ok .inputCmdActiveCount_duck
  | .enumerator .PLUS_SPEED => .ok .inputCmdActiveCount_speed
  | .enumerator .MINUS_SPEED => .ok .inputCmdActiveCount_speed
  | .enumerator .PLUS_ATTACK => .ok .inputCmdActiveCount_attack
  | .enumerator .MINUS_ATTACK => .ok .inputCmdActiveCount_attack
  | .enumerator .PLUS_ATTACK2 => .ok .inputCmdActiveCount_attack2
  | .enumerator .MINUS_ATTACK2 => .ok .inputCmdActiveCount_attack2
  | _ => .error "[ERROR] Player::inputCmdActiveCount() Unknown cmd! Forgot a switch case?"

open PlayerInputState in
/-- Modelled from the spec: the effect of one input command on the player. The
code that applies commands (`WorldState::DoTimeStep`) is not among the sources;
the rule is the one of the data model, "a press increments a per-action
active-count, a release decrements it only if positive", repeated by the
comment above the counters in Player.h. The counter is selected with
`Player::inputCmdActiveCount`; the arithmetic is that of `unsigned int`. -/
def Player.applyCommand (p : Player) (cmd : Command) : Except String Player :=
  match Player.inputCmdActiveCount (.enumerator cmd) with
  | .error e => .error e
  | .ok r =>
    if cmd.isPlus then .ok (p.write r (u32 (p.read r + 1)))
    else if 0 < p.read r then .ok (p.write r (u32 (p.read r - 1)))
    else .ok p

open PlayerInputState in
/-- Modelled from the spec: a sequence of commands applied in order, starting
from player `p` (see `Player.applyCommand`). -/
def Player.applyCommands (p : Player) : List Command → Except String Player
  | [] => .ok p
  | cmd :: rest =>
    match p.applyCommand cmd with
    | .error e => .error e
    | .ok q => Player.applyCommands q rest

/-- The counters of a player are values of `unsigned int`. -/
def Player.CountsInRange (p : Player) : Prop :=
  ∀ r : ActiveCountRef, 0 ≤ p.read r ∧ p.read r < 4294967296

end Entities

end sim

/-! ## The standard algorithms used by `tickEvent` -/

namespace cpp

/-- Algorithm `std::find_if(first, last, pred)` on the elements of a vector `v`,
the iterators being indices: the index of the first element in `[first, last)`
that satisfies `pred`, and `last` if there is none. -/
def find_if {α : Type} (v : List α) (first last : Nat) (pred : α → Bool) : Nat :=
  first + List.findIdx pred ((v.drop first).take (last - first))

/-- Method `v.erase(first, last)` of `std::vector`: the vector without the
elements in `[first, last)`. -/
def erase {α : Type} (v : List α) (first last : Nat) : List α :=
  v.take first ++ v.drop last

/-- The elements of an iterator range `[first, last)` of `v`, in order. -/
def range {α : Type} (v : List α) (first last : Nat) : List α :=
  (v.drop first).take (last - first)

end cpp

/-! ## Client-side prediction in `DZSimApplication::tickEvent` (src/main.cpp) -/

namespace sim

/-- Modelled from the spec: struct `sim::PlayerInputState`, the "Frame Input" that
"bundles a timestamp, two view angles (pitch, yaw), and an ordered sequence of
Commands". Its declaration (sim/PlayerInputState.h) is not among the sources;
the member names are those used by src/main.cpp. `F` is the type `float`. -/
structure PlayerInputState (F : Type) where
  time : Int
  viewingAnglePitch : F
  viewingAngleYaw : F
  inputCommands : List PlayerInputState.Command

/-- Modelled from the spec: class `sim::WorldState`, the snapshot
"time, player, map of bump mines, latest_player_input_time". Its declaration
(sim/WorldState.h) is not among the sources; the player and the bump mines,
which `tickEvent` hands on without looking into them, are the component
`entities` of an arbitrary type `E`. -/
structure WorldState (E : Type) where
  time : Int
  entities : E
  latest_player_input_time : Int

/-- Conversion of `std::chrono::microseconds` to `sim::Clock::duration`. The clock
is declared in sim/Sim.h, which is not among the sources; the implicit conversion
in `tickEvent` compiles only if one microsecond is a whole number
`ticksPerMicrosecond` of clock ticks, and then multiplies by that number. -/
def Clock.fromMicroseconds (ticksPerMicrosecond : Int) (us : Int) : Int :=
  us * ticksPerMicrosecond

/-- Conversion `std::chrono::duration_cast<std::chrono::nanoseconds>` of a
`sim::Clock::duration`, for a clock of `ticksPerMicrosecond` ticks per
microsecond: integer arithmetic, truncating. -/
def Clock.toNanoseconds (ticksPerMicrosecond : Int) (d : Int) : Int :=
  (d * 1000).tdiv ticksPerMicrosecond

end sim

namespace DZSimApplication

open sim

/-- The operations on `double` evaluated by the prediction code: conversion of an
integer literal, `*`, `/` and the cast `(long long)`. -/
structure DoubleOps (D : Type) where
  ofInt : Int → D
  mul : D → D → D
  div : D → D → D
  toLongLong : D → Int

/-- The operations on `float` evaluated by the interpolation code: conversion of
a 64-bit count, the literal `0.0f`, `==` and `/`; the converted integer zero
compares equal to `0.0f`. -/
structure FloatOps (F : Type) where
  ofInt64 : Int → F
  zero : F
  eq : F → F → Bool
  div : F → F → F
  ofInt64_zero : eq (ofInt64 0) zero = true

/-- The statements of `tickEvent` that delete from `_prevGameInputs` the inputs
already processed by the server (`find_if` followed by `erase`). -/
def pruneProcessedInputs {F E : Type} (prevGameInputs : List (PlayerInputState F))
    (currentServerWorldState : WorldState E) : List (PlayerInputState F) :=
  let firstUnprocessedInputIt :=
    cpp.find_if prevGameInputs 0 prevGameInputs.length
      (fun pis => decide (pis.time > currentServerWorldState.latest_player_input_time))
  cpp.erase prevGameInputs 0 firstUnprocessedInputIt

/-- Record of one call `predictedWorldState.DoTimeStep(simStepSize,
playerInputBeginIt, playerInputEndIt)`: the time of the state it is called on,
its three arguments, and the time stamp given to the state after the call. -/
structure DoTimeStepCall (D : Type) where
  stateTime : Int
  dt : D
  inputs_begin : Nat
  inputs_end : Nat
  nextStateTime : Int

/-- The variables of the prediction loop, together with the record of the
`DoTimeStep` calls made so far. -/
structure PredictionState (D E : Type) where
  predictedWorldState : WorldState E
  playerInputBeginIt : Nat
  calls : List (DoTimeStepCall D)

/-- The variables of the prediction loop before its first iteration. -/
def PredictionState.init {D E : Type} (currentServerWorldState : WorldState E) :
    PredictionState D E :=
  { predictedWorldState := currentServerWorldState
    playerInputBeginIt := 0
    calls := [] }

/-- The body of the prediction loop. `DoTimeStep` (sim/WorldState.cpp, not among
the sources) is a parameter. -/
def predictionStep {D F E : Type}
    (DoTimeStep : WorldState E → D → List (PlayerInputState F) → WorldState E)
    (simStepSize : D) (serverFrameLength : Int)
    (prevGameInputs : List (PlayerInputState F))
    (s : PredictionState D E) : PredictionState D E :=
  let nextStateTime := s.predictedWorldState.time + serverFrameLength
  let playerInputEndIt :=
    cpp.find_if prevGameInputs s.playerInputBeginIt prevGameInputs.length
      (fun pis => decide (pis.time > nextStateTime))
  let stepped := DoTimeStep s.predictedWorldState simStepSize
    (cpp.range prevGameInputs s.playerInputBeginIt playerInputEndIt)
  { predictedWorldState := { stepped with time := nextStateTime }
    playerInputBeginIt := playerInputEndIt
    calls := s.calls ++
      [{ stateTime := s.predictedWorldState.time
         dt := simStepSize
         inputs_begin := s.playerInputBeginIt
         inputs_end := playerInputEndIt
         nextStateTime := nextStateTime }] }

/-- The prediction loop `while (predictedWorldState.time <= currentTime)`. The
loop need not end, so the number of iterations is bounded by `fuel`: the result
is `none` when the loop is still running after `fuel` iterations. -/
def predictionLoop {D F E : Type}
    (DoTimeStep : WorldState E → D → List (PlayerInputState F) → WorldState E)
    (simStepSize : D) (serverFrameLength : Int)
    (prevGameInputs : List (PlayerInputState F)) (currentTime : Int) :
    Nat → PredictionState D E → Option (PredictionState D E)
  | 0, s => if s.predictedWorldState.time ≤ currentTime then none else some s
  | fuel + 1, s =>
    if s.predictedWorldState.time ≤ currentTime then
      predictionLoop DoTimeStep simStepSize serverFrameLength prevGameInputs currentTime fuel
        (predictionStep DoTimeStep simStepSize serverFrameLength prevGameInputs s)
    else some s

/-- The prediction part of `tickEvent`: step size and frame length are computed
from the server's tick rate and time scale, then the loop runs from the latest
server world state. -/
def predict {D F E : Type} (ops : DoubleOps D) (ticksPerMicrosecond : Int)
    (DoTimeStep : WorldState E → D → List (PlayerInputState F) → WorldState E)
    (serverTickRate serverSimTimeScale : D)
    (currentServerWorldState : WorldState E)
    (prevGameInputs : List (PlayerInputState F)) (currentTime : Int) (fuel : Nat) :
    Option (PredictionState D E) :=
  let simStepSize := ops.div (ops.ofInt 1) serverTickRate
  let serverFrameLength := Clock.fromMicroseconds ticksPerMicrosecond
    (ops.toLongLong (ops.div (ops.ofInt 1000000) (ops.mul serverTickRate serverSimTimeScale)))
  predictionLoop DoTimeStep simStepSize serverFrameLength prevGameInputs currentTime fuel
    (PredictionState.init currentServerWorldState)

/-- Outcome of the interpolation part of `tickEvent`: the new
`_currentClientWorldState` and, if the quotient `interpStep_ns / interpRange_ns`
was evaluated, its two operands. -/
structure InterpolationOutcome (F E : Type) where
  currentClientWorldState : WorldState E
  quotient : Option (F × F)

/-- The interpolation part of `tickEvent`. `WorldState::Interpolate`
(sim/WorldState.cpp, not among the sources) is a parameter. -/
def interpolateClientWorldState {F E : Type} (ops : FloatOps F) (ticksPerMicrosecond : Int)
    (Interpolate : WorldState E → WorldState E → F → WorldState E)
    (currentClientWorldState predictedWorldState : WorldState E) (currentTime : Int) :
    InterpolationOutcome F E :=
  let interpRange := predictedWorldState.time - currentClientWorldState.time
  let interpStep := currentTime - currentClientWorldState.time
  let interpRange_ns := ops.ofInt64 (Clock.toNanoseconds ticksPerMicrosecond interpRange)
  let interpStep_ns := ops.ofInt64 (Clock.toNanoseconds ticksPerMicrosecond interpStep)
  if ops.eq interpRange_ns ops.zero then
    { currentClientWorldState := predictedWorldState
      quotient := none }
  else
    let phase := ops.div interpStep_ns interpRange_ns
    { currentClientWorldState := Interpolate currentClientWorldState predictedWorldState phase
      quotient := some (interpStep_ns, interpRange_ns) }

end DZSimApplication

/-! ## Invariants of the prediction loop -/

namespace DZSimApplication

open sim

/-- What the prediction loop maintains about the times: call number `k` is made
on a state of time `t0 + k * L`, which is not after `currentTime`, with the
step size `simStepSize`, and stamps the state with `t0 + (k + 1) * L`; the
state reached has the time `t0 + n * L` after `n` calls, and is the start state
as long as no call was made. -/
def TimesInv {D E : Type} (simStepSize : D) (serverFrameLength : Int) (currentTime : Int)
    (start : PredictionState D E) (s : PredictionState D E) : Prop :=
  s.predictedWorldState.time =
    start.predictedWorldState.time + s.calls.length * serverFrameLength ∧
  (s.calls = [] → s = start) ∧
  ∀ (k : Nat) (c : DoTimeStepCall D), s.calls[k]? = some c →
    c.stateTime = start.predictedWorldState.time + k * serverFrameLength ∧
    c.nextStateTime = c.stateTime + serverFrameLength ∧
    c.dt = simStepSize ∧
    c.stateTime ≤ currentTime

end DZSimApplication

/-! ## Sample data for the concrete runs -/

namespace DZSimApplication

namespace Examples

open sim

/-- Exact arithmetic on fractions `(numerator, denominator)` in the place of
`double`; the cast to `long long` truncates the quotient. -/
def fractionDoubleOps : DoubleOps (Int × Int) :=
  { ofInt := fun n => (n, 1)
    mul := fun a b => (a.1 * b.1, a.2 * b.2)
    div := fun a b => (a.1 * b.2, a.2 * b.1)
    toLongLong := fun a => a.1.tdiv a.2 }

/-- Exact arithmetic on fractions `(numerator, denominator)` in the place of
`float`. -/
def fractionFloatOps : FloatOps (Int × Int) :=
  { ofInt64 := fun n => (n, 1)
    zero := (0, 1)
    eq := fun a b => decide (a.1 * b.2 = b.1 * a.2)
    div := fun a b => (a.1 * b.2, a.2 * b.1)
    ofInt64_zero := rfl }

/-- A frame input sampled at time `t`, looking straight ahead, without commands. -/
def inputAt (t : Int) : PlayerInputState (Int × Int) :=
  { time := t
    viewingAnglePitch := (0, 1)
    viewingAngleYaw := (0, 1)
    inputCommands := [] }

/-- A buffer of seven frame inputs in chronological order. -/
def prevGameInputs : List (PlayerInputState (Int × Int)) :=
  [inputAt 8000, inputAt 9000, inputAt 9500, inputAt 12000, inputAt 15000, inputAt 15001,
    inputAt 30000]

/-- The inputs of `prevGameInputs` sampled after time 9000. -/
def unprocessedInputs : List (PlayerInputState (Int × Int)) :=
  [inputAt 9500, inputAt 12000, inputAt 15000, inputAt 15001, inputAt 30000]

/-- A server world state of time 10000 that has processed the inputs up to time
9000; its `entities` component counts the inputs applied so far. -/
def serverWorldState : WorldState Nat :=
  { time := 10000
    entities := 0
    latest_player_input_time := 9000 }

/-- A stand-in for `DoTimeStep` that counts the inputs it is given. -/
def countInputs (w : WorldState Nat) (_dt : Int × Int)
    (inputs : List (PlayerInputState (Int × Int))) : WorldState Nat :=
  { w with entities := w.entities + inputs.length }

/-- The outcome of the prediction from `serverWorldState` over `unprocessedInputs`
at current time 16000, tick rate 100, time scale 2 and a clock that ticks once
per microsecond (frame length 5000): two steps, the first over the inputs
0, 1, 2 and the second over the input 3. -/
def predicted : PredictionState (Int × Int) Nat :=
  { predictedWorldState :=
      { time := 20000
        entities := 4
        latest_player_input_time := 9000 }
    playerInputBeginIt := 4
    calls :=
      [{ stateTime := 10000
         dt := (1, 100)
         inputs_begin := 0
         inputs_end := 3
         nextStateTime := 15000 },
       { stateTime := 15000
         dt := (1, 100)
         inputs_begin := 3
         inputs_end := 4
         nextStateTime := 20000 }] }

/-- A client world state of time 12000. -/
def clientWorldState : WorldState Nat :=
  { time := 12000
    entities := 1
    latest_player_input_time := 9000 }

/-- A stand-in for `WorldState::Interpolate` that picks the nearer of the two
states. -/
def pickNearer (a b : WorldState Nat) (phase : Int × Int) : WorldState Nat :=
  if phase.1 * 2 < phase.2 then a else b

end Examples

end DZSimApplication

/-! ## Step size, frame length and the whole client-side update -/

namespace DZSimApplication

open sim

/-- The variable `simStepSize` of `tickEvent`: `1.0 / serverTickRate`, in seconds. -/
def simStepSize {D : Type} (ops : DoubleOps D) (serverTickRate : D) : D :=
  ops.div (ops.ofInt 1) serverTickRate

/-- The variable `serverFrameLength` of `tickEvent`:
`(long long)(1000000 / (serverTickRate * serverSimTimeScale))` microseconds, as
a number of clock ticks. -/
def serverFrameLength {D : Type} (ops : DoubleOps D) (ticksPerMicrosecond : Int)
    (serverTickRate serverSimTimeScale : D) : Int :=
  Clock.fromMicroseconds ticksPerMicrosecond
    (ops.toLongLong (ops.div (ops.ofInt 1000000) (ops.mul serverTickRate serverSimTimeScale)))

/-- The branch of `tickEvent` taken with `CLIENT_INTERPOLATION`: the prediction
from the latest server world state, followed by the interpolation between the
client world state and the predicted state, both at the same `currentTime`. -/
def predictAndInterpolate {D F E : Type} (dops : DoubleOps D) (fops : FloatOps F)
    (ticksPerMicrosecond : Int)
    (DoTimeStep : WorldState E → D → List (PlayerInputState F) → WorldState E)
    (Interpolate : WorldState E → WorldState E → F → WorldState E)
    (serverTickRate serverSimTimeScale : D)
    (currentServerWorldState : WorldState E)
    (prevGameInputs : List (PlayerInputState F))
    (currentClientWorldState : WorldState E) (currentTime : Int) (fuel : Nat) :
    Option (InterpolationOutcome F E) :=
  match predict dops ticksPerMicrosecond DoTimeStep serverTickRate serverSimTimeScale
      currentServerWorldState prevGameInputs currentTime fuel with
  | none => none
  | some s =>
    some (interpolateClientWorldState fops ticksPerMicrosecond Interpolate
      currentClientWorldState s.predictedWorldState currentTime)

end DZSimApplication

/-! ## The type `float` of the interpolation code: IEEE 754 binary32 -/

namespace cpp

/-- A finite value of the type `float` (IEEE 754 binary32): the number
`mant * 2 ^ exp`, where `mant` and `exp` are both 0 or `2 ^ 23 ≤ |mant| < 2 ^ 24`.
Infinities, NaN, the sign of zero and the bounds of the exponent are not part of
the model: the interpolation code converts 64-bit counts (of magnitude 0 or from
1 to `2 ^ 63`) and divides two such values after testing the divisor against
zero, so every value it computes is zero or a normal number (theorem
`div_ofInt64_normal`). -/
structure Binary32 where
  mant : Int
  exp : Int
  deriving DecidableEq, Repr

namespace Binary32

/-- The rational number that a `float` value stands for. -/
def toRat (x : Binary32) : ℚ := (x.mant : ℚ) * (2 : ℚ) ^ x.exp

/-- The value `0.0f`. -/
def zero : Binary32 := { mant := 0, exp := 0 }

/-- The value `1.0f`. -/
def one : Binary32 := { mant := 8388608, exp := -23 }

/-- The value of opposite sign. -/
def neg (x : Binary32) : Binary32 := { mant := -x.mant, exp := x.exp }

/-- The fraction `num / den` divided by `2 ^ e`, as a fraction of natural
numbers. -/
def scaled (num den : Nat) (e : Int) : Nat × Nat :=
  if 0 ≤ e then (num, den * 2 ^ e.toNat) else (num * 2 ^ (-e).toNat, den)

/-- The integer nearest to `num / den`; of two nearest integers the even one
(rounding mode "to nearest, ties to even"). -/
def roundHalfEven (num den : Nat) : Nat :=
  let q := num / den
  let r := num % den
  if den < 2 * r ∨ (2 * r = den ∧ q % 2 = 1) then q + 1 else q

/-- The number of binary digits of `n`, counted by halving `n` at most `fuel`
times. -/
def bitLengthAux : Nat → Nat → Nat
  | 0, _ => 0
  | fuel + 1, n => if n = 0 then 0 else bitLengthAux fuel (n / 2) + 1

/-- The number of binary digits of `n`. -/
def bitLength (n : Nat) : Nat := bitLengthAux n n

/-- The exponent `e` of the 24-bit significand of `num / den`, for positive `num`
and `den`: `2 ^ 23 ≤ (num / den) / 2 ^ e < 2 ^ 24`. It is the difference of the
numbers of digits less 24, or one more. -/
def exponentOf (num den : Nat) : Int :=
  let e1 : Int := (bitLength num : Int) - (bitLength den : Int) - 24
  if (scaled num den e1).1 < 16777216 * (scaled num den e1).2 then e1 else e1 + 1

/-- The `float` nearest to the positive fraction `num / den`: the significand is
rounded to 24 bits, ties to even. -/
def roundPos (num den : Nat) : Binary32 :=
  let e := exponentOf num den
  let m := roundHalfEven (scaled num den e).1 (scaled num den e).2
  if m = 16777216 then { mant := 8388608, exp := e + 1 } else { mant := m, exp := e }

/-- The `float` nearest to the fraction `num / den`, for positive `den`. -/
def round (num : Int) (den : Nat) : Binary32 :=
  if num = 0 then zero
  else if 0 < num then roundPos num.natAbs den
  else neg (roundPos num.natAbs den)

/-- Conversion of a 64-bit integer to `float`: the nearest `float`, ties to even
(the conversion of IEEE 754 in the default rounding mode). -/
def ofInt64 (n : Int) : Binary32 := round n 1

/-- Operator `/` of `float`, for a divisor that is not zero: the `float` nearest
to the quotient of the two values, ties to even (the operands are scaled to two
integers first; the division is evaluated in `float` precision). -/
def div (a b : Binary32) : Binary32 :=
  let e := min a.exp b.exp
  let num := a.mant * 2 ^ (a.exp - e).toNat
  let den := b.mant * 2 ^ (b.exp - e).toNat
  if 0 < den then round num den.natAbs else round (-num) den.natAbs

end Binary32

end cpp

namespace DZSimApplication

/-- The operations on `float` of the interpolation code in IEEE 754 binary32
arithmetic: conversion and division round to the nearest `float`, ties to even. -/
def binary32Ops : FloatOps cpp.Binary32 :=
  { ofInt64 := cpp.Binary32.ofInt64
    zero := cpp.Binary32.zero
    eq := fun a b => decide (a = b)
    div := cpp.Binary32.div
    ofInt64_zero := by decide }

end DZSimApplication

/-! ## Sample data in `float` arithmetic -/

namespace DZSimApplication

namespace Examples

open sim

/-- A frame input sampled at time `t`, with `float` view angles. -/
def floatInputAt (t : Int) : PlayerInputState cpp.Binary32 :=
  { time := t
    viewingAnglePitch := cpp.Binary32.zero
    viewingAngleYaw := cpp.Binary32.zero
    inputCommands := [] }

/-- The sample inputs `unprocessedInputs`, with `float` view angles. -/
def floatInputs : List (PlayerInputState cpp.Binary32) :=
  [floatInputAt 9500, floatInputAt 12000, floatInputAt 15000, floatInputAt 15001,
    floatInputAt 30000]

/-- A stand-in for `DoTimeStep` that counts the inputs it is given. -/
def countFloatInputs (w : WorldState Nat) (_dt : Int × Int)
    (inputs : List (PlayerInputState cpp.Binary32)) : WorldState Nat :=
  { w with entities := w.entities + inputs.length }

/-- A stand-in for `WorldState::Interpolate` that picks the nearer of the two
states. -/
def pickNearerFloat (a b : WorldState Nat) (phase : cpp.Binary32) : WorldState Nat :=
  if phase.toRat < 1 / 2 then a else b

/-- A world state of time `t` (in clock ticks); its `entities` component is a
`float`. -/
def stateAt (t : Int) : WorldState cpp.Binary32 :=
  { time := t
    entities := cpp.Binary32.zero
    latest_player_input_time := 0 }

/-- A stand-in for `WorldState::Interpolate` that stores the phase it is given in
the resulting state. -/
def recordPhase (_a b : WorldState cpp.Binary32) (phase : cpp.Binary32) :
    WorldState cpp.Binary32 :=
  { b with entities := phase }

end Examples

end DZSimApplication

/-! ## `DZSimApplication::LoadBspMap` (src/main.cpp) -/

namespace sim

/-- Modelled from the spec: the player of a world state ("position, velocity,
orientation, stance flags, ..."). `LoadBspMap` assigns the members `position`
and `angles`; the remaining members are the component `other`. -/
structure PlayerState (V R : Type) where
  position : V
  angles : V
  other : R

/-- Modelled from the spec: the entities of a world state, the player and the
map of bump mines. -/
structure WorldEntities (V R B : Type) where
  player : PlayerState V R
  bumpmines : B

end sim

namespace csgo_parsing

/-- Struct `BspMap::PlayerSpawn`, of which `LoadBspMap` reads `origin` and
`angles`. -/
structure PlayerSpawn (V : Type) where
  origin : V
  angles : V

/-- Class `BspMap`, of which `LoadBspMap` reads `player_spawns`. -/
structure BspMap (V : Type) where
  player_spawns : List (PlayerSpawn V)

/-- What a call `ParseBspMapFile(&_bsp_map, ...)` leaves behind (the function is
not among the sources): either a status with `successful()` true, its message
of warnings and the parsed map in `_bsp_map`, or a status with `successful()`
false, its error message and whatever `_bsp_map` holds then. -/
inductive ParseOutcome (V : Type)
  | parsed (desc_msg : String) (map : BspMap V)
  | failed (desc_msg : String) (left : Option (BspMap V))

end csgo_parsing

namespace DZSimApplication

open sim

/-- The members of the application that `LoadBspMap` reads or writes, together
with the record of the arguments of the `OverrideWorldState` calls made on
`_gameServer` and of the messages queued on the popup. -/
structure MapLoadState (V R B : Type) where
  bsp_map : Option (csgo_parsing.BspMap V)
  cam_pos : V
  cam_ang : V
  currentClientWorldState : WorldState (WorldEntities V R B)
  currentServerWorldState : WorldState (WorldEntities V R B)
  overrideWorldStateCalls : List (WorldState (WorldEntities V R B))
  popupErrors : List String
  popupWarnings : List String

/-- The parsing step of `LoadBspMap`: `none` when an embedded file is asked for
that is not in the list of resources, else the outcome of `ParseBspMapFile` on
the embedded content or on the file path. -/
def parseStep {V : Type} (resources : List String)
    (parseEmbedded parseFile : String → csgo_parsing.ParseOutcome V)
    (file_path : String) (load_from_embedded_files : Bool) :
    Option (csgo_parsing.ParseOutcome V) :=
  if load_from_embedded_files then
    if resources.any (fun res => res == file_path) then some (parseEmbedded file_path)
    else none
  else some (parseFile file_path)

/-- Method `LoadBspMap(file_path, load_from_embedded_files)`; `now` is the value
read from `sim::Clock::now()`. The calls on the world renderer and the asset
finder, which do not touch the members kept here, are left out. -/
def LoadBspMap {V R B : Type} (resources : List String)
    (parseEmbedded parseFile : String → csgo_parsing.ParseOutcome V) (now : Int)
    (file_path : String) (load_from_embedded_files : Bool) (st : MapLoadState V R B) :
    Bool × MapLoadState V R B :=
  let st1 := { st with bsp_map := none }
  match parseStep resources parseEmbedded parseFile file_path load_from_embedded_files with
  | none => (false, st1)
  | some (.failed desc_msg left) =>
    (false, { st1 with
      bsp_map := left
      popupErrors := st1.popupErrors ++ ["Failed to load the map:\n\n" ++ desc_msg] })
  | some (.parsed desc_msg map) =>
    let st2 := { st1 with
      bsp_map := some map
      popupWarnings :=
        if desc_msg.isEmpty then st1.popupWarnings else st1.popupWarnings ++ [desc_msg] }
    let st3 :=
      match map.player_spawns with
      | [] => st2
      | playerSpawn :: _ =>
        { st2 with
          cam_pos := playerSpawn.origin
          cam_ang := playerSpawn.angles
          currentClientWorldState :=
            { st2.currentClientWorldState with
              entities :=
                { st2.currentClientWorldState.entities with
                  player :=
                    { st2.currentClientWorldState.entities.player with
                      position := playerSpawn.origin
                      angles := playerSpawn.angles } } } }
    let client := { st3.currentClientWorldState with
      time := now
      latest_player_input_time := now }
    (true, { st3 with
      currentClientWorldState := client
      overrideWorldStateCalls := st3.overrideWorldStateCalls ++ [client]
      currentServerWorldState := client })

end DZSimApplication

/-! ## Sample data for loading a map -/

namespace DZSimApplication

namespace Examples

open sim

/-- A map with the two player spawns at `(100, 200, 64)` and `(0, 0, 0)`. -/
def spawnMap : csgo_parsing.BspMap (Int × Int × Int) :=
  { player_spawns :=
      [{ origin := (100, 200, 64), angles := (0, 90, 0) },
       { origin := (0, 0, 0), angles := (0, 0, 0) }] }

/-- A parser that succeeds without warnings on "maps/dz_blacksite.bsp", giving
`spawnMap`, and fails on every other path. -/
def parseSample (file_path : String) : csgo_parsing.ParseOutcome (Int × Int × Int) :=
  if file_path == "maps/dz_blacksite.bsp" then .parsed "" spawnMap
  else .failed "file not found" none

/-- A world state of time `t` with the player at the origin. -/
def worldAtOrigin (t : Int) : WorldState (WorldEntities (Int × Int × Int) Unit Unit) :=
  { time := t
    entities :=
      { player := { position := (0, 0, 0), angles := (0, 0, 0), other := () }
        bumpmines := () }
    latest_player_input_time := t }

/-- An application state before a map is loaded. -/
def mapLoadState : MapLoadState (Int × Int × Int) Unit Unit :=
  { bsp_map := none
    cam_pos := (0, 0, 0)
    cam_ang := (0, 0, 0)
    currentClientWorldState := worldAtOrigin 0
    currentServerWorldState := worldAtOrigin 0
    overrideWorldStateCalls := []
    popupErrors := []
    popupWarnings := [] }

end Examples

end DZSimApplication

/-! ## The loadout editor of `MenuWindow::DrawGameConfig` (src/gui/MenuWindow.cpp) -/

namespace gui

open sim.Entities

/-- What the user does to the loadout widgets during one frame: whether the
combo box of the held weapon is open (`BeginCombo` returns true), which of its
entries `Selectable` reports as clicked, and which checkboxes are pressed. -/
structure LoadoutEditorInput where
  exojump_pressed : Bool
  combo_open : Bool
  selectable_clicked : Weapon → Bool
  checkbox_pressed : Weapon → Bool

/-- Widget `ImGui::Checkbox(label, &v)`: the new value of `v`. A press flips the
value; inside `BeginDisabled()`/`EndDisabled()` the widget does not react. -/
def ImGui.Checkbox (disabled pressed : Bool) (v : Bool) : Bool :=
  if !disabled && pressed then !v else v

/-- The combo box "##ActiveWeaponCombo": the value of `loadout.active_weapon`
after it. The entries are visited in the order Knife, Bump Mine, Fists,
Zeus x27, XM1014, and each clicked entry is assigned. -/
def MenuWindow.activeWeaponCombo (inp : LoadoutEditorInput) (active_weapon : Weapon) :
    Weapon :=
  if inp.combo_open then
    let a1 := if inp.selectable_clicked Weapon.Knife then Weapon.Knife else active_weapon
    let a2 := if inp.selectable_clicked Weapon.BumpMine then Weapon.BumpMine else a1
    let a3 := if inp.selectable_clicked Weapon.Fists then Weapon.Fists else a2
    let a4 := if inp.selectable_clicked Weapon.Taser then Weapon.Taser else a3
    if inp.selectable_clicked Weapon.XM1014 then Weapon.XM1014 else a4
  else active_weapon

/-- One of the five checkboxes "...##nonactive" on the array `is_non_active`:
disabled when its weapon is the active one. -/
def MenuWindow.nonActiveCheckbox (inp : LoadoutEditorInput) (active_weapon : Weapon)
    (is_non_active : Nat → Bool) (w : Weapon) : Nat → Bool :=
  Function.update is_non_active w.toNat
    (ImGui.Checkbox (decide (active_weapon = w)) (inp.checkbox_pressed w)
      (is_non_active w.toNat))

/-- The array `is_non_active` after the five checkboxes, in the order Knife,
Bump Mine, Fists, Zeus x27, XM1014; it starts as the copy of the bits
`non_active_weapons[i]` for `i < TOTAL_COUNT`. -/
def MenuWindow.nonActiveCheckboxes (inp : LoadoutEditorInput) (active_weapon : Weapon)
    (non_active_weapons : WeaponList) : Nat → Bool :=
  let a0 : Nat → Bool := fun i =>
    if i < Weapon.TOTAL_COUNT.toNat then WeaponList.get non_active_weapons i else false
  let a1 := MenuWindow.nonActiveCheckbox inp active_weapon a0 Weapon.Knife
  let a2 := MenuWindow.nonActiveCheckbox inp active_weapon a1 Weapon.BumpMine
  let a3 := MenuWindow.nonActiveCheckbox inp active_weapon a2 Weapon.Fists
  let a4 := MenuWindow.nonActiveCheckbox inp active_weapon a3 Weapon.Taser
  MenuWindow.nonActiveCheckbox inp active_weapon a4 Weapon.XM1014

/-- The part of `MenuWindow::DrawGameConfig` under "Simulated player equipment":
the new value of `_gui_state.game_cfg.IN_loadout`. -/
def MenuWindow.DrawGameConfig_loadout (inp : LoadoutEditorInput) (loadout : Loadout) :
    Loadout :=
  let has_exojump := ImGui.Checkbox false inp.exojump_pressed loadout.has_exojump
  let active_weapon := MenuWindow.activeWeaponCombo inp loadout.active_weapon
  let bits := WeaponList.set loadout.non_active_weapons active_weapon.toNat false
  let is_non_active := MenuWindow.nonActiveCheckboxes inp active_weapon bits
  { active_weapon := active_weapon
    non_active_weapons :=
      (List.range Weapon.TOTAL_COUNT.toNat).foldl
        (fun b i => WeaponList.set b i (is_non_active i)) bits
    has_exojump := has_exojump }

end gui

/-! ## Game input handling in `DZSimApplication::tickEvent` (src/main.cpp) -/

namespace DZSimApplication

open sim

/-- Enum `UserInputMode`. -/
inductive UserInputMode
  | MENU
  | FIRST_PERSON
  deriving DecidableEq

/-- What one call of `tickEvent` reads from outside for the handling of the game
input: the clock reading taken at its start, whether a popup is visible,
whether Escape was pressed since the last tick, the camera angles after the
mouse handling, the world state that a successful `LoadBspMap` of this tick
assigns to `_currentServerWorldState` (if a map is loaded), and the world
states dequeued from the server. -/
structure TickEnv (F E : Type) where
  current_time : Int
  popup_visible : Bool
  esc_pressed : Bool
  cam_ang_pitch : F
  cam_ang_yaw : F
  loadedWorldState : Option (WorldState E)
  newServerWorldStates : List (WorldState E)

/-- The members of the application that the handling of the game input reads or
writes, together with the record of the arguments of the
`SendNewPlayerInput` calls made on `_gameServer`. -/
structure InputState (F E : Type) where
  user_input_mode : UserInputMode
  currentGameInput : PlayerInputState F
  prevGameInputs : List (PlayerInputState F)
  currentServerWorldState : WorldState E
  sentPlayerInputs : List (PlayerInputState F)

/-- The input mode after the mode handling of `tickEvent`, and the flag
`leaving_first_person_mode`. -/
def updateUserInputMode (popup_visible esc_pressed : Bool) (user_input_mode : UserInputMode) :
    UserInputMode × Bool :=
  if popup_visible then
    if user_input_mode ≠ UserInputMode.MENU then
      (UserInputMode.MENU, decide (user_input_mode = UserInputMode.FIRST_PERSON))
    else (user_input_mode, false)
  else if esc_pressed then
    if user_input_mode = UserInputMode.MENU then (UserInputMode.FIRST_PERSON, false)
    else if user_input_mode = UserInputMode.FIRST_PERSON then (UserInputMode.MENU, true)
    else (user_input_mode, false)
  else (user_input_mode, false)

/-- The frame input that `tickEvent` sends to the server and appends to
`_prevGameInputs`: `_currentGameInput` after the time stamp, the mode handling
and the view angles. `AllMinusCommands` is the list returned by
`sim::PlayerInputState::AllMinusCommands()` (not among the sources). -/
def frameInput {F E : Type} (AllMinusCommands : List PlayerInputState.Command)
    (env : TickEnv F E) (st : InputState F E) : PlayerInputState F :=
  let mode := updateUserInputMode env.popup_visible env.esc_pressed st.user_input_mode
  let commands1 :=
    if mode.1 ≠ UserInputMode.FIRST_PERSON then [] else st.currentGameInput.inputCommands
  let commands2 := if mode.2 then commands1 ++ AllMinusCommands else commands1
  { time := env.current_time
    viewingAnglePitch := env.cam_ang_pitch
    viewingAngleYaw := env.cam_ang_yaw
    inputCommands := commands2 }

/-- The latest server world state after the queue of new states was drained. -/
def latestServerWorldState {E : Type} (currentServerWorldState : WorldState E) :
    List (WorldState E) → WorldState E
  | [] => currentServerWorldState
  | front :: rest => latestServerWorldState front rest

/-- The handling of the game input in one call of `tickEvent`: time stamp, mode
handling, view angles, sending, buffering, clearing of the commands, draining
of the server's world states and pruning of the buffer. -/
def tickEventInput {F E : Type} (AllMinusCommands : List PlayerInputState.Command)
    (env : TickEnv F E) (st : InputState F E) : InputState F E :=
  let input := frameInput AllMinusCommands env st
  let serverAfterLoad :=
    match env.loadedWorldState with
    | some loaded => loaded
    | none => st.currentServerWorldState
  let server := latestServerWorldState serverAfterLoad env.newServerWorldStates
  { user_input_mode :=
      (updateUserInputMode env.popup_visible env.esc_pressed st.user_input_mode).1
    currentGameInput := { input with inputCommands := [] }
    prevGameInputs := pruneProcessedInputs (st.prevGameInputs ++ [input]) server
    currentServerWorldState := server
    sentPlayerInputs := st.sentPlayerInputs ++ [input] }

/-- The key and mouse callbacks that run between two ticks: each appends its
command to `_currentGameInput.inputCommands`. -/
def collectCommands {F E : Type} (commands : List PlayerInputState.Command)
    (st : InputState F E) : InputState F E :=
  { st with currentGameInput :=
      { st.currentGameInput with
        inputCommands := st.currentGameInput.inputCommands ++ commands } }

/-- A sequence of frames: before each tick the callbacks collect the commands of
the frame's key and mouse events. -/
def runFrames {F E : Type} (AllMinusCommands : List PlayerInputState.Command) :
    List (List PlayerInputState.Command × TickEnv F E) → InputState F E → InputState F E
  | [], st => st
  | (commands, env) :: rest, st =>
    runFrames AllMinusCommands rest
      (tickEventInput AllMinusCommands env (collectCommands commands st))

/-- The buffer is in time order and holds no input stamped after time `T`. -/
def BufferInv {F : Type} (T : Int) (buffer : List (PlayerInputState F)) : Prop :=
  List.Pairwise (fun a b => a.time ≤ b.time) buffer ∧ ∀ x, x ∈ buffer → x.time ≤ T

end DZSimApplication

/-! ## Sample data for the game input handling -/

namespace DZSimApplication

namespace Examples

open sim

/-- The ten release commands, in the place of the list returned by
`AllMinusCommands()`. -/
def allMinusCommands : List PlayerInputState.Command :=
  [.MINUS_FORWARD, .MINUS_BACK, .MINUS_MOVELEFT, .MINUS_MOVERIGHT, .MINUS_USE, .MINUS_JUMP,
    .MINUS_DUCK, .MINUS_SPEED, .MINUS_ATTACK, .MINUS_ATTACK2]

/-- An application in first-person mode with an empty buffer, whose callbacks have
collected a press of the jump key. -/
def firstPersonState : InputState (Int × Int) Nat :=
  { user_input_mode := UserInputMode.FIRST_PERSON
    currentGameInput :=
      { time := 0
        viewingAnglePitch := (0, 1)
        viewingAngleYaw := (0, 1)
        inputCommands := [.PLUS_JUMP] }
    prevGameInputs := []
    currentServerWorldState := { time := 0, entities := 0, latest_player_input_time := 0 }
    sentPlayerInputs := [] }

/-- A tick at clock reading `t` without popup, map load or news from the server. -/
def quietTick (t : Int) (esc_pressed : Bool) : TickEnv (Int × Int) Nat :=
  { current_time := t
    popup_visible := false
    esc_pressed := esc_pressed
    cam_ang_pitch := (0, 1)
    cam_ang_yaw := (90, 1)
    loadedWorldState := none
    newServerWorldStates := [] }

end Examples

end DZSimApplication

/-! ## `DZSimApplication::RefreshAvailableDisplays` (src/main.cpp) -/

namespace gui

/-- Struct `GuiState::VideoSettings::AvailableDisplay` (its declaration,
gui/GuiState.h, is not among the sources): the bounds `x`, `y`, `w`, `h` that
`RefreshAvailableDisplays` reads and writes. -/
structure AvailableDisplay where
  x : Int
  y : Int
  w : Int
  h : Int
  deriving DecidableEq

/-- The two members of `GuiState::VideoSettings` that `RefreshAvailableDisplays`
reads and writes. -/
structure VideoSettings where
  IN_selected_display_idx : Int
  OUT_available_displays : List AvailableDisplay
  deriving DecidableEq

end gui

/-- Struct `SDL_Rect`. -/
structure SDL_Rect where
  x : Int
  y : Int
  w : Int
  h : Int
  deriving DecidableEq

namespace DZSimApplication

open gui

/-- Whether the bounds of the previously selected display equal the bounds
reported by SDL (the four comparisons in the loop). -/
def sameBounds (prev_selected : AvailableDisplay) (disp_bounds : SDL_Rect) : Bool :=
  prev_selected.x == disp_bounds.x && prev_selected.y == disp_bounds.y &&
    prev_selected.w == disp_bounds.w && prev_selected.h == disp_bounds.h

/-- The display entered into the list for the bounds reported by SDL. -/
def displayOfBounds (disp_bounds : SDL_Rect) : AvailableDisplay :=
  { x := disp_bounds.x, y := disp_bounds.y, w := disp_bounds.w, h := disp_bounds.h }

/-- The body of the loop over the display indices. `SDL_GetDisplayBounds i` is
`none` when the call fails (non-zero result) and the bounds otherwise. -/
def refreshDisplay (SDL_GetDisplayBounds : Nat → Option SDL_Rect)
    (have_prev_selected : Bool) (prev_selected : AvailableDisplay)
    (vid : VideoSettings) (i : Nat) : VideoSettings :=
  match SDL_GetDisplayBounds i with
  | none => vid
  | some disp_bounds =>
    let idx :=
      if have_prev_selected && sameBounds prev_selected disp_bounds then
        (vid.OUT_available_displays.length : Int)
      else vid.IN_selected_display_idx
    { IN_selected_display_idx := idx
      OUT_available_displays := vid.OUT_available_displays ++ [displayOfBounds disp_bounds] }

/-- The variable `have_prev_selected`: the selected index is an index of the
list of displays. -/
def havePrevSelected (vid : VideoSettings) : Bool :=
  decide (vid.IN_selected_display_idx ≥ 0) &&
    decide (vid.IN_selected_display_idx < (vid.OUT_available_displays.length : Int))

/-- The variable `prev_selected`: the display selected before the call, and
`{ -1, -1, -1, -1 }` if there is none. -/
def prevSelected (vid : VideoSettings) : AvailableDisplay :=
  if havePrevSelected vid then
    vid.OUT_available_displays.getD vid.IN_selected_display_idx.toNat
      { x := -1, y := -1, w := -1, h := -1 }
  else { x := -1, y := -1, w := -1, h := -1 }

/-- The state of the video settings after the loop of `RefreshAvailableDisplays`
(before the special case for the previous index), for at least one display. -/
def refreshLoop (num_displays : Int) (SDL_GetDisplayBounds : Nat → Option SDL_Rect)
    (vid : VideoSettings) : VideoSettings :=
  (List.range num_displays.toNat).foldl
    (refreshDisplay SDL_GetDisplayBounds (havePrevSelected vid) (prevSelected vid))
    { IN_selected_display_idx := -1, OUT_available_displays := [] }

/-- The special case after the loop: when no display was selected by a bounds
match and the previous index is an index of the new list, that index is
selected again. -/
def selectPreviousIndex (prev_selected_idx : Int) (vid : VideoSettings) : VideoSettings :=
  if vid.IN_selected_display_idx = -1 then
    if prev_selected_idx ≥ 0 ∧
        prev_selected_idx < (vid.OUT_available_displays.length : Int) then
      { vid with IN_selected_display_idx := prev_selected_idx }
    else vid
  else vid

/-- Method `RefreshAvailableDisplays()`: the result and the video settings after
the call. `num_displays` is the result of `SDL_GetNumVideoDisplays()`. -/
def RefreshAvailableDisplays (num_displays : Int)
    (SDL_GetDisplayBounds : Nat → Option SDL_Rect) (vid : VideoSettings) :
    Bool × VideoSettings :=
  let prev_selected_idx := vid.IN_selected_display_idx
  if num_displays < 1 then
    (false, { IN_selected_display_idx := -1, OUT_available_displays := [] })
  else
    let vid2 := selectPreviousIndex prev_selected_idx
      (refreshLoop num_displays SDL_GetDisplayBounds vid)
    if vid2.OUT_available_displays.isEmpty then (false, vid2) else (true, vid2)

/-- The selected index is -1, or it was set by a bounds match: then a display
was selected before, and the index points at a display of the list with the
bounds of that display. -/
def SelectionInv (have_prev_selected : Bool) (prev_selected : AvailableDisplay)
    (vid : VideoSettings) : Prop :=
  vid.IN_selected_display_idx = -1 ∨
    (have_prev_selected = true ∧ 0 ≤ vid.IN_selected_display_idx ∧
      vid.OUT_available_displays[vid.IN_selected_display_idx.toNat]? = some prev_selected)

end DZSimApplication

/-! ## The fullscreen display check of `DZSimApplication::tickEvent` (src/main.cpp) -/

namespace cpp

/-- Conversion of an `int` to `size_t` (64 bits), as done by the usual arithmetic
conversions when an `int` is compared with a `size_t`. -/
def toSizeT (i : Int) : Int := i % 18446744073709551616

end cpp

namespace gui

/-- Enum `GuiState::VideoSettings::WindowMode` (its declaration, gui/GuiState.h,
is not among the sources): the two enumerators that `tickEvent` uses. -/
inductive WindowMode where
  | WINDOWED
  | FULLSCREEN_WINDOWED
  deriving DecidableEq, Repr

end gui

namespace DZSimApplication

open gui

/-- The condition under the comment "If a display is selected in the GUI":
`selected_display_idx >= 0 || selected_display_idx < available_displays.size()`.
The second operand compares an `int` with a `size_t`. -/
def displaySelectedGuard (selected_display_idx : Int)
    (available_displays : List AvailableDisplay) : Bool :=
  decide (selected_display_idx ≥ 0) ||
    decide (cpp.toSizeT selected_display_idx < (available_displays.length : Int))

/-- What the check of the display selection in `tickEvent` does with the list of
displays. -/
inductive FullscreenDisplayCheck where
  -- The element `available_displays[selected_display_idx]` is not read: the
  -- window is not in "Fullscreen Windowed" mode, or the guard does not pass.
  | notRead
  -- The element is read inside the vector; `moved` tells whether the window was
  -- moved to the selected display, and `cur_fullscreen_display` is the display
  -- remembered afterwards.
  | read (selected_display : AvailableDisplay) (moved : Bool)
      (cur_fullscreen_display : AvailableDisplay)
  -- The element is read outside the vector (undefined behaviour).
  | outOfBounds
  deriving DecidableEq

/-- The block "Check if user changed display selection setting while in
Fullscreen Windowed mode" of `tickEvent`. -/
def fullscreenDisplayCheck (cur_window_mode : WindowMode)
    (cur_fullscreen_display : AvailableDisplay) (vid : VideoSettings) :
    FullscreenDisplayCheck :=
  if cur_window_mode = WindowMode.FULLSCREEN_WINDOWED then
    if displaySelectedGuard vid.IN_selected_display_idx vid.OUT_available_displays then
      if vid.IN_selected_display_idx < 0 then FullscreenDisplayCheck.outOfBounds
      else
        match vid.OUT_available_displays[vid.IN_selected_display_idx.toNat]? with
        | none => FullscreenDisplayCheck.outOfBounds
        | some selected_display =>
          if cur_fullscreen_display.x != selected_display.x
              || cur_fullscreen_display.y != selected_display.y
              || cur_fullscreen_display.w != selected_display.w
              || cur_fullscreen_display.h != selected_display.h then
            FullscreenDisplayCheck.read selected_display true selected_display
          else FullscreenDisplayCheck.read selected_display false cur_fullscreen_display
    else FullscreenDisplayCheck.notRead
  else FullscreenDisplayCheck.notRead

namespace Examples

/-- Two displays side by side. -/
def twoDisplays : List AvailableDisplay :=
  [{ x := 0, y := 0, w := 1920, h := 1080 }, { x := 1920, y := 0, w := 1920, h := 1080 }]

end Examples

end DZSimApplication

/-! ## `DZSimApplication::UpdateGuiCsgoMapPaths` (src/main.cpp) -/

namespace gui

/-- The members of `GuiState::MapSelect` that `UpdateGuiCsgoMapPaths` writes. -/
structure MapSelect where
  OUT_csgo_path : String
  OUT_loadable_maps : List String
  OUT_num_highlighted_maps : Nat
  deriving DecidableEq

end gui

namespace cpp

/-- Method `StringView::contains(substring)`: the substring occurs somewhere in
the string. -/
def contains (s substring : String) : Bool :=
  s.toList.tails.any (fun t => substring.toList.isPrefixOf t)

end cpp

namespace DZSimApplication

open gui

/-- The first condition of the separation loop: the file name has at least two
characters, the first is `d` or `D` and the second is `z` or `Z`. A `std::string`
is embedded as a `String` and a `char` as a character of it. -/
def isDzFileName (file_name : String) : Bool :=
  match file_name.toList with
  | c0 :: c1 :: _ => (c0 == 'd' || c0 == 'D') && (c1 == 'z' || c1 == 'Z')
  | _ => false

/-- The second condition of the separation loop. -/
def isBumpFileName (file_name : String) : Bool :=
  cpp.contains file_name "bump" || cpp.contains file_name "Bump" ||
    cpp.contains file_name "BUMP"

/-- The three index vectors of `UpdateGuiCsgoMapPaths`. -/
structure MapIndices where
  dz_map_indices : List Nat
  bump_map_indices : List Nat
  other_map_indices : List Nat
  deriving DecidableEq

/-- The body of the separation loop for the index `i`. `fileName` is
`Corrade::Utility::Path::split(path).second()`. -/
def separateMapIndex (fileName : String → String) (mapFileList : List String)
    (acc : MapIndices) (i : Nat) : MapIndices :=
  let file_name := fileName (mapFileList.getD i "")
  if isDzFileName file_name then
    { acc with dz_map_indices := acc.dz_map_indices ++ [i] }
  else if isBumpFileName file_name then
    { acc with bump_map_indices := acc.bump_map_indices ++ [i] }
  else
    { acc with other_map_indices := acc.other_map_indices ++ [i] }

/-- One of the three loops that copy the paths of an index vector to the end of
`gui_path_list`. -/
def pushMapPaths (mapFileList : List String) (gui_path_list : List String)
    (indices : List Nat) : List String :=
  indices.foldl (fun l i => l ++ [mapFileList.getD i ""]) gui_path_list

/-- Method `UpdateGuiCsgoMapPaths()`. `mapFileList` is the result of
`AssetFinder::GetMapFileList()` and `csgoPath` that of `AssetFinder::GetCsgoPath()`. -/
def UpdateGuiCsgoMapPaths (fileName : String → String) (mapFileList : List String)
    (csgoPath : String) : MapSelect :=
  let total_map_count := mapFileList.length
  let indices := (List.range total_map_count).foldl
    (separateMapIndex fileName mapFileList)
    { dz_map_indices := [], bump_map_indices := [], other_map_indices := [] }
  let gui_path_list := pushMapPaths mapFileList [] indices.dz_map_indices
  let gui_path_list := pushMapPaths mapFileList gui_path_list indices.bump_map_indices
  let gui_path_list := pushMapPaths mapFileList gui_path_list indices.other_map_indices
  { OUT_csgo_path := csgoPath
    OUT_loadable_maps := gui_path_list
    OUT_num_highlighted_maps := indices.dz_map_indices.length }

namespace Examples

/-- Five maps in one directory. -/
def mapFiles : List String :=
  ["de_bumpy.bsp", "dz_blacksite.bsp", "xbump.bsp", "DZ_sirocco.bsp", "de_dust2.bsp"]

end Examples

end DZSimApplication

/-! ## The brush categories in `WorldRenderer::Draw` (src/rendering/WorldRenderer.cpp) -/

namespace csgo_parsing

namespace BrushSeparation

/-- Enum `BrushSeparation::Category` (its declaration,
csgo_parsing/BrushSeparation.h, is not among the sources): the enumerators in the
order of the list `bCategories` of rendering/WorldCreation.cpp, which is kept "in
the same order as the enum declaration". -/
inductive Category where
  | OTHER
  | SOLID
  | PLAYERCLIP
  | GRENADECLIP
  | LADDER
  | WATER
  | SKY
  deriving DecidableEq, Repr

end BrushSeparation

end csgo_parsing

namespace gui

/-- Enum `GuiState::VisualizationSettings::GeoVisMode` (its declaration,
gui/GuiState.h, is not among the sources): the four modes of the radio buttons
"Geometry Visualization Mode" of `MenuWindow`. -/
inductive GeoVisMode where
  | GLID_OF_SIMULATION
  | GLID_AT_SPECIFIC_SPEED
  | GLID_OF_CSGO_SESSION
  | GEO_TYPE
  deriving DecidableEq, Repr

/-- The colours of `GuiState::VisualizationSettings` that `WorldRenderer::Draw`
uses for the brush categories; `Col` is the type of a colour (`float[4]`). -/
structure BrushColors (Col : Type) where
  IN_col_sky : Col
  IN_col_ladders : Col
  IN_col_solid_other_brushes : Col
  IN_col_water : Col
  IN_col_player_clip : Col
  IN_col_grenade_clip : Col

namespace MenuWindow

end MenuWindow

end gui

namespace rendering

open csgo_parsing.BrushSeparation gui

namespace WorldRenderer

/-- The condition "Transparent things must be the last things being drawn!". -/
def isLastDrawn (b_cat : Category) : Bool :=
  b_cat == Category.WATER || b_cat == Category.GRENADECLIP ||
    b_cat == Category.PLAYERCLIP

/-- The two vectors filled by the loop over `brush_category_meshes`. -/
structure DrawOrderLists where
  brush_cat_draw_order : List Category
  last_drawn_brush_cats : List Category
  deriving DecidableEq

/-- The body of the loop over the entries `kv` of `brush_category_meshes`. -/
def sortBrushCategory {Mesh : Type} (acc : DrawOrderLists) (kv : Category × Mesh) :
    DrawOrderLists :=
  let b_cat := kv.1
  if isLastDrawn b_cat then
    { acc with last_drawn_brush_cats := acc.last_drawn_brush_cats ++ [b_cat] }
  else
    { acc with brush_cat_draw_order := acc.brush_cat_draw_order ++ [b_cat] }

/-- The part "Determine draw order of brush categories" of `Draw`: the final
value of `brush_cat_draw_order`. The map `brush_category_meshes` is given by the
list of its entries in iteration order. -/
def brushCatDrawOrder {Mesh : Type} (brush_category_meshes : List (Category × Mesh)) :
    List Category :=
  let acc := brush_category_meshes.foldl sortBrushCategory
    { brush_cat_draw_order := [], last_drawn_brush_cats := [] }
  acc.last_drawn_brush_cats.foldl (fun order b_cat => order ++ [b_cat])
    acc.brush_cat_draw_order

/-- The variable `glidability_vis_globally_disabled` of `Draw`. -/
def glidabilityVisGloballyDisabled (IN_geo_vis_mode : GeoVisMode) : Bool :=
  IN_geo_vis_mode != GeoVisMode.GLID_AT_SPECIFIC_SPEED &&
    IN_geo_vis_mode != GeoVisMode.GLID_OF_CSGO_SESSION

/-- The settings of the shader for the draw call of one brush category. -/
structure BrushDraw (Col : Type) where
  b_cat : Category
  override_color : Col
  color_override_enabled : Bool
  diffuse_lighting_enabled : Bool

/-- The switch "Determine override color"; `unknown_col` is the colour
`{ 1, 1, 1, 1 }` of the categories without a case. -/
def overrideColor {Col : Type} (cols : BrushColors Col) (unknown_col : Col)
    (b_cat : Category) : Col :=
  match b_cat with
  | Category.SKY => cols.IN_col_sky
  | Category.LADDER => cols.IN_col_ladders
  | Category.SOLID => cols.IN_col_solid_other_brushes
  | Category.WATER => cols.IN_col_water
  | Category.PLAYERCLIP => cols.IN_col_player_clip
  | Category.GRENADECLIP => cols.IN_col_grenade_clip
  | Category.OTHER => unknown_col

/-- The body of the loop "Draw brush categories" of `Draw`. -/
def drawBrushCategory {Col : Type} (IN_geo_vis_mode : GeoVisMode)
    (has_world_diffuse_lighting : Bool) (cols : BrushColors Col) (unknown_col : Col)
    (b_cat : Category) : BrushDraw Col :=
  let visualize_glidability :=
    if b_cat = Category.SOLID ∨ b_cat = Category.PLAYERCLIP then true else false
  let visualize_glidability :=
    if glidabilityVisGloballyDisabled IN_geo_vis_mode then false
    else visualize_glidability
  let has_brush_mesh_diffuse_lighting :=
    if b_cat = Category.SKY ∨ b_cat = Category.WATER then false
    else has_world_diffuse_lighting
  { b_cat := b_cat
    override_color := overrideColor cols unknown_col b_cat
    color_override_enabled := visualize_glidability == false
    diffuse_lighting_enabled := has_brush_mesh_diffuse_lighting }

end WorldRenderer

namespace Examples

open WorldRenderer

/-- A map with meshes of all seven brush categories, in the order of the enum;
the meshes are numbered. -/
def allCategoryMeshes : List (Category × Nat) :=
  [(Category.OTHER, 0), (Category.SOLID, 1), (Category.PLAYERCLIP, 2),
    (Category.GRENADECLIP, 3), (Category.LADDER, 4), (Category.WATER, 5),
    (Category.SKY, 6)]

end Examples

end rendering

/-! ## The FPS limit slider of `MenuWindow` (src/gui/MenuWindow.cpp) -/

namespace gui

namespace MenuWindow

/-- Constant `MIN_FPS_LIMIT`. -/
def MIN_FPS_LIMIT : Int := 10

/-- Constant `MAX_FPS_LIMIT`. -/
def MAX_FPS_LIMIT : Int := 500

/-- Constant `SLIDER_VAL_COUNT`: "FPS vals + Unlimited val". -/
def SLIDER_VAL_COUNT : Int := (MAX_FPS_LIMIT - MIN_FPS_LIMIT + 1) + 1

/-- The effect of the block "FPS limit setting" before the slider is drawn. -/
structure FpsLimitSetting where
  -- The setting `IN_min_loop_period` after the block.
  IN_min_loop_period : Int
  -- The variable `fps_unlimited` after the block.
  fps_unlimited : Bool
  -- Whether the branch `min_loop_period_ms == 0` was taken.
  zero_period_branch : Bool
  -- The number `real_max_fps` printed into the slider text, and `none` when
  -- the text is "No limit (GPU intensive)".
  real_max_fps : Option Int
  deriving DecidableEq

/-- The block "FPS limit setting" for the value `slider_val` of the slider (an
`int`). The block overwrites the setting `IN_min_loop_period` on every path, so
its value before the block is not an input. -/
def fpsLimitSetting (slider_val : Int) : FpsLimitSetting :=
  if slider_val ≥ 0 ∧ cpp.toSizeT slider_val < cpp.toSizeT (SLIDER_VAL_COUNT - 1) then
    let selected_max_fps := sim.u32 (slider_val + MIN_FPS_LIMIT)
    let min_loop_period_ms := sim.u32 (1000 / selected_max_fps)
    if min_loop_period_ms = 0 then
      { IN_min_loop_period := 0, fps_unlimited := true, zero_period_branch := true,
        real_max_fps := none }
    else
      { IN_min_loop_period := min_loop_period_ms, fps_unlimited := false,
        zero_period_branch := false,
        real_max_fps := some (sim.u32 (1000 / min_loop_period_ms)) }
  else
    { IN_min_loop_period := 0, fps_unlimited := true, zero_period_branch := false,
      real_max_fps := none }

/-- The initial value of the static variable `slider_val`. -/
def initialSliderVal (cur_min_loop_period : Int) : Int :=
  if cur_min_loop_period = 0 then SLIDER_VAL_COUNT - 1
  else Int.tdiv 1000 cur_min_loop_period - MIN_FPS_LIMIT

end MenuWindow

end gui

/-! ## Properties -/

namespace sim

namespace Entities

theorem WeaponList.get_set_true (bits : WeaponList) (i j : Nat) :
    WeaponList.get (WeaponList.set bits i true) j = (WeaponList.get bits j || decide (i = j)) := by
  simp [WeaponList.get, WeaponList.set, Nat.testBit_or, Nat.one_shiftLeft, Nat.testBit_two_pow]

theorem Weapon.toNat_injective (v w : Weapon) (h : v.toNat = w.toNat) : v = w := by
  cases v <;> cases w <;> simp [Weapon.toNat] at h <;> rfl

theorem Loadout.foldl_addNonActive_get (active : Weapon) (l : List Weapon) :
    ∀ (bits : WeaponList) (i : Nat),
      WeaponList.get (l.foldl (Loadout.addNonActive active) bits) i = true ↔
        (WeaponList.get bits i = true ∨ ∃ w, w ∈ l ∧ w ≠ active ∧ w.toNat = i) := by
  induction l with
  | nil => intro bits i; simp
  | cons v vs ih =>
    intro bits i
    rw [List.foldl_cons, ih]
    by_cases hv : v = active
    · subst hv
      simp [Loadout.addNonActive]
    · simp only [Loadout.addNonActive, ne_eq, hv, not_false_eq_true, if_true,
        WeaponList.get_set_true, Bool.or_eq_true, decide_eq_true_eq, List.mem_cons]
      constructor
      · rintro ((h | h) | ⟨w, hw, hne, hi⟩)
        · exact Or.inl h
        · exact Or.inr ⟨v, Or.inl rfl, hv, h⟩
        · exact Or.inr ⟨w, Or.inr hw, hne, hi⟩
      · rintro (h | ⟨w, hw | hw, hne, hi⟩)
        · exact Or.inl (Or.inl h)
        · subst hw; exact Or.inl (Or.inr hi)
        · exact Or.inr ⟨w, hw, hne, hi⟩

/-- C1: for every `has_exo`, every active weapon and every list of weapons, bit
`w` of `non_active_weapons` of the constructed `Loadout` is set exactly when `w`
occurs in the list and differs from the active weapon; the bit of the active
weapon is never set; no bit is set that is not the enum value of such a listed
weapon; and the two other members are the constructor arguments. -/
theorem Loadout_new_non_active_weapons (has_exo : Bool) (active : Weapon)
    (non_active_list : List Weapon) :
    (∀ w : Weapon,
      WeaponList.get (Loadout.new has_exo active non_active_list).non_active_weapons w.toNat
          = true ↔ (w ∈ non_active_list ∧ w ≠ active)) ∧
    WeaponList.get (Loadout.new has_exo active non_active_list).non_active_weapons
      (Loadout.new has_exo active non_active_list).active_weapon.toNat = false ∧
    (∀ i : Nat,
      WeaponList.get (Loadout.new has_exo active non_active_list).non_active_weapons i = true →
        ∃ w, w ∈ non_active_list ∧ w ≠ active ∧ w.toNat = i) ∧
    (Loadout.new has_exo active non_active_list).active_weapon = active ∧
    (Loadout.new has_exo active non_active_list).has_exojump = has_exo := by
  have key : ∀ i : Nat,
      WeaponList.get (Loadout.new has_exo active non_active_list).non_active_weapons i = true ↔
        ∃ w, w ∈ non_active_list ∧ w ≠ active ∧ w.toNat = i := by
    intro i
    show WeaponList.get (non_active_list.foldl (Loadout.addNonActive active)
      WeaponList.zeroInit) i = true ↔ _
    rw [Loadout.foldl_addNonActive_get]
    simp [WeaponList.zeroInit, WeaponList.get]
  refine ⟨?_, ?_, ?_, rfl, rfl⟩
  · intro w
    rw [key]
    constructor
    · rintro ⟨v, hv, hne, hi⟩
      have := Weapon.toNat_injective v w hi
      subst this
      exact ⟨hv, hne⟩
    · rintro ⟨hw, hne⟩
      exact ⟨w, hw, hne, rfl⟩
  · cases hb : WeaponList.get (Loadout.new has_exo active non_active_list).non_active_weapons
        (Loadout.new has_exo active non_active_list).active_weapon.toNat with
    | false => rfl
    | true =>
      obtain ⟨v, _, hne, hi⟩ := (key _).mp hb
      exact absurd (Weapon.toNat_injective v active hi) hne
  · intro i hi
    exact (key i).mp hi

end Entities

end sim

/-! ### The standard algorithms -/

namespace cpp

theorem find_if_end {α : Type} (v : List α) (first : Nat) (pred : α → Bool) :
    find_if v first v.length pred = first + List.findIdx pred (v.drop first) := by
  unfold find_if
  rw [List.take_of_length_le (by simp)]

end cpp

/-! ### Pruning of acknowledged inputs -/

namespace DZSimApplication

open sim

theorem drop_findIdx_eq_filter {F : Type} (T : Int) (v : List (PlayerInputState F))
    (hsorted : List.Pairwise (fun a b => a.time ≤ b.time) v) :
    v.drop (List.findIdx (fun pis => decide (pis.time > T)) v) =
      v.filter (fun pis => decide (T < pis.time)) := by
  induction v with
  | nil => rfl
  | cons x xs ih =>
    rw [List.pairwise_cons] at hsorted
    rw [List.findIdx_cons]
    by_cases hx : T < x.time
    · have hall : ∀ a ∈ xs, (fun pis : PlayerInputState F => decide (T < pis.time)) a = true := by
        intro a ha
        have := hsorted.1 a ha
        simp only [decide_eq_true_eq]
        omega
      simp only [gt_iff_lt, hx, decide_True, cond_true, List.drop_zero, List.filter_cons_of_pos]
      rw [List.filter_eq_self.mpr hall]
    · simp only [gt_iff_lt, hx, decide_False, cond_false, List.drop_succ_cons, Bool.false_eq_true,
        not_false_eq_true, List.filter_cons_of_neg]
      exact ih hsorted.2

/-- C2: if `_prevGameInputs` is in non-decreasing time order, then after the
`find_if`/`erase` step the buffer consists of exactly the inputs whose time is
strictly greater than `latest_player_input_time` of the current server world
state, in their original order. -/
theorem pruneProcessedInputs_eq_filter {F E : Type}
    (prevGameInputs : List (PlayerInputState F)) (currentServerWorldState : WorldState E)
    (hsorted : List.Pairwise (fun a b => a.time ≤ b.time) prevGameInputs) :
    pruneProcessedInputs prevGameInputs currentServerWorldState =
      prevGameInputs.filter
        (fun pis => decide (currentServerWorldState.latest_player_input_time < pis.time)) := by
  unfold pruneProcessedInputs cpp.erase
  simp only [cpp.find_if_end, List.drop_zero, Nat.zero_add, List.take_zero, List.nil_append]
  exact drop_findIdx_eq_filter _ prevGameInputs hsorted

/-- Witness for C2: the sample buffer is in time order, and pruning it against a
server state that has processed the inputs up to time 9000 leaves the five
inputs after that time. -/
theorem pruneProcessedInputs_eq_filter_witness :
    List.Pairwise (fun a b => a.time ≤ b.time) Examples.prevGameInputs ∧
    pruneProcessedInputs Examples.prevGameInputs Examples.serverWorldState =
      Examples.unprocessedInputs :=
  ⟨by decide,
    (pruneProcessedInputs_eq_filter Examples.prevGameInputs Examples.serverWorldState
      (by decide)).trans rfl⟩

end DZSimApplication

/-! ### The prediction loop -/

namespace DZSimApplication

open sim

theorem predictionLoop_invariant {D F E : Type}
    (DoTimeStep : WorldState E → D → List (PlayerInputState F) → WorldState E)
    (simStepSize : D) (serverFrameLength : Int)
    (prevGameInputs : List (PlayerInputState F)) (currentTime : Int)
    (Inv : PredictionState D E → Prop)
    (hstep : ∀ s, s.predictedWorldState.time ≤ currentTime → Inv s →
      Inv (predictionStep DoTimeStep simStepSize serverFrameLength prevGameInputs s)) :
    ∀ (fuel : Nat) (s final : PredictionState D E), Inv s →
      predictionLoop DoTimeStep simStepSize serverFrameLength prevGameInputs currentTime fuel s
        = some final →
      Inv final ∧ currentTime < final.predictedWorldState.time := by
  intro fuel
  induction fuel with
  | zero =>
    intro s final hs h
    unfold predictionLoop at h
    split at h
    · cases h
    · cases h
      exact ⟨hs, by omega⟩
  | succ n ih =>
    intro s final hs h
    unfold predictionLoop at h
    split at h
    · rename_i hc
      exact ih _ final (hstep s hc hs) h
    · cases h
      exact ⟨hs, by omega⟩

theorem predictionLoop_terminates {D F E : Type}
    (DoTimeStep : WorldState E → D → List (PlayerInputState F) → WorldState E)
    (simStepSize : D) (serverFrameLength : Int)
    (prevGameInputs : List (PlayerInputState F)) (currentTime : Int) :
    ∀ (fuel : Nat) (s : PredictionState D E),
      currentTime - s.predictedWorldState.time < fuel * serverFrameLength →
      ∃ final, predictionLoop DoTimeStep simStepSize serverFrameLength prevGameInputs
        currentTime fuel s = some final := by
  intro fuel
  induction fuel with
  | zero =>
    intro s h
    unfold predictionLoop
    have : ¬ s.predictedWorldState.time ≤ currentTime := by
      simp only [Nat.cast_zero, zero_mul] at h
      omega
    exact ⟨s, by simp only [this, if_false]⟩
  | succ n ih =>
    intro s h
    unfold predictionLoop
    by_cases hc : s.predictedWorldState.time ≤ currentTime
    · simp only [hc, if_true]
      apply ih
      show currentTime - (s.predictedWorldState.time + serverFrameLength) < _
      push_cast at h
      linarith
    · exact ⟨s, by simp only [hc, if_false]⟩

theorem timesInv_step {D F E : Type}
    (DoTimeStep : WorldState E → D → List (PlayerInputState F) → WorldState E)
    (simStepSize : D) (serverFrameLength : Int)
    (prevGameInputs : List (PlayerInputState F)) (currentTime : Int)
    (start s : PredictionState D E)
    (hc : s.predictedWorldState.time ≤ currentTime)
    (hs : TimesInv simStepSize serverFrameLength currentTime start s) :
    TimesInv simStepSize serverFrameLength currentTime start
      (predictionStep DoTimeStep simStepSize serverFrameLength prevGameInputs s) := by
  obtain ⟨h1, _, h3⟩ := hs
  refine ⟨?_, ?_, ?_⟩
  · simp only [predictionStep, List.length_append, List.length_singleton]
    push_cast
    rw [h1]
    ring
  · intro h
    simp [predictionStep] at h
  · intro k c hk
    simp only [predictionStep] at hk
    by_cases hlt : k < s.calls.length
    · rw [List.getElem?_append_left hlt] at hk
      exact h3 k c hk
    · rw [List.getElem?_append_right (by omega)] at hk
      have hk0 : k - s.calls.length = 0 := by
        by_contra hne
        rw [List.getElem?_eq_none (by simp; omega)] at hk
        cases hk
      rw [hk0] at hk
      simp only [List.getElem?_cons_zero, Option.some.injEq] at hk
      have hkl : k = s.calls.length := by omega
      subst hk
      subst hkl
      exact ⟨h1, rfl, rfl, hc⟩

theorem timesInv_init {D E : Type} (simStepSize : D) (serverFrameLength : Int)
    (currentTime : Int) (start : PredictionState D E) (h : start.calls = []) :
    TimesInv simStepSize serverFrameLength currentTime start start := by
  refine ⟨by simp [h], fun _ => rfl, ?_⟩
  intro k c hk
  rw [h] at hk
  simp at hk

theorem predictionLoop_timesInv {D F E : Type}
    (DoTimeStep : WorldState E → D → List (PlayerInputState F) → WorldState E)
    (simStepSize : D) (serverFrameLength : Int)
    (prevGameInputs : List (PlayerInputState F)) (currentTime : Int)
    (currentServerWorldState : WorldState E) (fuel : Nat) (final : PredictionState D E)
    (h : predictionLoop DoTimeStep simStepSize serverFrameLength prevGameInputs currentTime fuel
      (PredictionState.init currentServerWorldState) = some final) :
    TimesInv simStepSize serverFrameLength currentTime
      (PredictionState.init currentServerWorldState) final ∧
    currentTime < final.predictedWorldState.time :=
  predictionLoop_invariant DoTimeStep simStepSize serverFrameLength prevGameInputs currentTime
    (TimesInv simStepSize serverFrameLength currentTime
      (PredictionState.init currentServerWorldState))
    (fun s hc hs => timesInv_step DoTimeStep simStepSize serverFrameLength prevGameInputs
      currentTime _ s hc hs)
    fuel _ final (timesInv_init _ _ _ _ rfl) h

/-- C3: when the prediction loop finishes, the predicted time is strictly greater
than `currentTime`; it is `t0 + n * L` for the number `n` of steps run, the
server state's time `t0` and the frame length `L`, while `t0 + j * L` is not
after `currentTime` for every `j < n` (so it is the first tick boundary after
`currentTime`), and the last step, if there is one, started from a state whose
time was not after `currentTime`. If the server state's time is already after
`currentTime`, the loop finishes without a step and the predicted state is the
server state. For a positive frame length the loop does finish. -/
theorem predictionLoop_postcondition {D F E : Type}
    (DoTimeStep : WorldState E → D → List (PlayerInputState F) → WorldState E)
    (simStepSize : D) (serverFrameLength : Int)
    (prevGameInputs : List (PlayerInputState F)) (currentTime : Int)
    (currentServerWorldState : WorldState E) :
    (∀ (fuel : Nat) (final : PredictionState D E),
      predictionLoop DoTimeStep simStepSize serverFrameLength prevGameInputs currentTime fuel
        (PredictionState.init currentServerWorldState) = some final →
      currentTime < final.predictedWorldState.time ∧
      final.predictedWorldState.time =
        currentServerWorldState.time + final.calls.length * serverFrameLength ∧
      (∀ j : Nat, j < final.calls.length →
        currentServerWorldState.time + j * serverFrameLength ≤ currentTime) ∧
      (∀ last : DoTimeStepCall D, final.calls.getLast? = some last →
        last.stateTime ≤ currentTime ∧
        last.nextStateTime = final.predictedWorldState.time)) ∧
    (currentTime < currentServerWorldState.time →
      ∀ fuel : Nat, ∃ final : PredictionState D E,
        predictionLoop DoTimeStep simStepSize serverFrameLength prevGameInputs currentTime fuel
          (PredictionState.init currentServerWorldState) = some final ∧
        final.calls = [] ∧ final.predictedWorldState = currentServerWorldState) ∧
    (0 < serverFrameLength →
      ∃ (fuel : Nat) (final : PredictionState D E),
        predictionLoop DoTimeStep simStepSize serverFrameLength prevGameInputs currentTime fuel
          (PredictionState.init currentServerWorldState) = some final) := by
  refine ⟨?_, ?_, ?_⟩
  · intro fuel final h
    obtain ⟨⟨h1, _, h3⟩, hgt⟩ := predictionLoop_timesInv DoTimeStep simStepSize
      serverFrameLength prevGameInputs currentTime currentServerWorldState fuel final h
    have h1' : final.predictedWorldState.time =
        currentServerWorldState.time + final.calls.length * serverFrameLength := h1
    refine ⟨hgt, h1', ?_, ?_⟩
    · intro j hj
      obtain ⟨hc1, _, _, hc4⟩ := h3 j _ (List.getElem?_eq_getElem hj)
      rw [hc1] at hc4
      exact hc4
    · intro last hlast
      rw [List.getLast?_eq_getElem?] at hlast
      obtain ⟨hc1, hc2, _, hc4⟩ := h3 _ last hlast
      refine ⟨hc4, ?_⟩
      have hlen : 0 < final.calls.length := by
        by_contra hn
        rw [List.getElem?_eq_none (by omega)] at hlast
        cases hlast
      rw [hc2, hc1, h1']
      have hcast : ((final.calls.length - 1 : Nat) : Int) = (final.calls.length : Int) - 1 := by
        omega
      rw [hcast]
      show currentServerWorldState.time + _ + _ = _
      ring
  · intro hlt fuel
    refine ⟨PredictionState.init currentServerWorldState, ?_, rfl, rfl⟩
    have hn : ¬ (PredictionState.init currentServerWorldState :
        PredictionState D E).predictedWorldState.time
        ≤ currentTime := by
      show ¬ currentServerWorldState.time ≤ currentTime
      omega
    cases fuel with
    | zero => unfold predictionLoop; simp only [hn, if_false]
    | succ n => unfold predictionLoop; simp only [hn, if_false]
  · intro hpos
    refine ⟨(currentTime - currentServerWorldState.time).toNat + 1, ?_⟩
    apply predictionLoop_terminates
    show currentTime - currentServerWorldState.time < _
    have h1 : currentTime - currentServerWorldState.time ≤
        ((currentTime - currentServerWorldState.time).toNat : Int) := Int.self_le_toNat _
    have h2 : (((currentTime - currentServerWorldState.time).toNat + 1 : Nat) : Int) ≤
        (((currentTime - currentServerWorldState.time).toNat + 1 : Nat) : Int) *
          serverFrameLength := by
      have h3 : (0 : Int) ≤ (((currentTime - currentServerWorldState.time).toNat + 1 : Nat) : Int) :=
        Int.ofNat_nonneg _
      nlinarith
    push_cast at h2 ⊢
    linarith

/-- Witness for C3: the sample prediction at current time 16000 finishes after two
steps at time 20000; at current time 9000, before the server state's time, it
finishes at once with the server state; and the frame length 5000 being
positive, the loop finishes. -/
theorem predictionLoop_postcondition_witness :
    predictionLoop Examples.countInputs (1, 100) 5000 Examples.unprocessedInputs 16000 5
      (PredictionState.init Examples.serverWorldState) = some Examples.predicted ∧
    (16000 < Examples.predicted.predictedWorldState.time ∧
      Examples.predicted.predictedWorldState.time =
        Examples.serverWorldState.time + Examples.predicted.calls.length * 5000) ∧
    (∀ fuel : Nat, ∃ final : PredictionState (Int × Int) Nat,
      predictionLoop Examples.countInputs (1, 100) 5000 Examples.unprocessedInputs 9000 fuel
        (PredictionState.init Examples.serverWorldState) = some final ∧
      final.calls = [] ∧ final.predictedWorldState = Examples.serverWorldState) ∧
    (∃ (fuel : Nat) (final : PredictionState (Int × Int) Nat),
      predictionLoop Examples.countInputs (1, 100) 5000 Examples.unprocessedInputs 16000 fuel
        (PredictionState.init Examples.serverWorldState) = some final) :=
  ⟨rfl,
    ⟨((predictionLoop_postcondition Examples.countInputs (1, 100) 5000
        Examples.unprocessedInputs 16000 Examples.serverWorldState).1 5 Examples.predicted
        rfl).1,
      ((predictionLoop_postcondition Examples.countInputs (1, 100) 5000
        Examples.unprocessedInputs 16000 Examples.serverWorldState).1 5 Examples.predicted
        rfl).2.1⟩,
    (predictionLoop_postcondition Examples.countInputs (1, 100) 5000
      Examples.unprocessedInputs 9000 Examples.serverWorldState).2.1 (by decide),
    (predictionLoop_postcondition Examples.countInputs (1, 100) 5000
      Examples.unprocessedInputs 16000 Examples.serverWorldState).2.2 (by decide)⟩

/-- C4: every `DoTimeStep` call of the prediction receives the step size
`1.0 / serverTickRate`, whatever the time scale and the current time are; the
time scale enters only the amount by which each step advances the time stamp of
the predicted state, `(long long)(1000000 / (serverTickRate * serverSimTimeScale))`
microseconds. -/
theorem predict_step_size {D F E : Type} (ops : DoubleOps D) (ticksPerMicrosecond : Int)
    (DoTimeStep : WorldState E → D → List (PlayerInputState F) → WorldState E)
    (serverTickRate serverSimTimeScale : D)
    (currentServerWorldState : WorldState E)
    (prevGameInputs : List (PlayerInputState F)) (currentTime : Int) (fuel : Nat)
    (final : PredictionState D E)
    (h : predict ops ticksPerMicrosecond DoTimeStep serverTickRate serverSimTimeScale
      currentServerWorldState prevGameInputs currentTime fuel = some final) :
    (∀ c : DoTimeStepCall D, c ∈ final.calls →
      c.dt = ops.div (ops.ofInt 1) serverTickRate ∧
      c.nextStateTime - c.stateTime = Clock.fromMicroseconds ticksPerMicrosecond
        (ops.toLongLong
          (ops.div (ops.ofInt 1000000) (ops.mul serverTickRate serverSimTimeScale)))) ∧
    final.predictedWorldState.time = currentServerWorldState.time +
      final.calls.length * Clock.fromMicroseconds ticksPerMicrosecond
        (ops.toLongLong
          (ops.div (ops.ofInt 1000000) (ops.mul serverTickRate serverSimTimeScale))) := by
  obtain ⟨⟨h1, _, h3⟩, _⟩ := predictionLoop_timesInv DoTimeStep _ _ prevGameInputs currentTime
    currentServerWorldState fuel final h
  refine ⟨?_, h1⟩
  intro c hc
  obtain ⟨k, hk⟩ := List.getElem?_of_mem hc
  obtain ⟨_, hc2, hc3, _⟩ := h3 k c hk
  exact ⟨hc3, by rw [hc2]; ring⟩

/-- Witness for C4: with tick rate 100 and time scale 2 both steps of the sample
prediction get the step size 1/100, and each advances the time stamp by 5000
microseconds. -/
theorem predict_step_size_witness :
    predict Examples.fractionDoubleOps 1 Examples.countInputs (100, 1) (2, 1)
      Examples.serverWorldState Examples.unprocessedInputs 16000 5 = some Examples.predicted ∧
    (∀ c : DoTimeStepCall (Int × Int), c ∈ Examples.predicted.calls →
      c.dt = (1, 100) ∧ c.nextStateTime - c.stateTime = 5000) ∧
    Examples.predicted.predictedWorldState.time =
      Examples.serverWorldState.time + Examples.predicted.calls.length * 5000 :=
  ⟨rfl,
    predict_step_size Examples.fractionDoubleOps 1 Examples.countInputs (100, 1) (2, 1)
      Examples.serverWorldState Examples.unprocessedInputs 16000 5 Examples.predicted rfl⟩

end DZSimApplication

/-! ### The input ranges of the prediction steps -/

namespace cpp

end cpp

namespace DZSimApplication

open sim

end DZSimApplication

/-! ### Inputs deferred to a later prediction step -/

namespace DZSimApplication

open sim

end DZSimApplication

namespace DZSimApplication

open sim

/-- C7: if the predicted state's time equals the time of the previously
displayed client state, the quotient is not evaluated and the new client world
state is exactly the predicted state; whenever the quotient
`interpStep_ns / interpRange_ns` is evaluated, the two times differ and the
divisor, the converted interval between them, does not compare equal to
`0.0f`. -/
theorem interpolation_division_guard {F E : Type} (ops : FloatOps F)
    (ticksPerMicrosecond : Int)
    (Interpolate : WorldState E → WorldState E → F → WorldState E)
    (currentClientWorldState predictedWorldState : WorldState E) (currentTime : Int) :
    (predictedWorldState.time = currentClientWorldState.time →
      (interpolateClientWorldState ops ticksPerMicrosecond Interpolate
        currentClientWorldState predictedWorldState currentTime).currentClientWorldState
          = predictedWorldState ∧
      (interpolateClientWorldState ops ticksPerMicrosecond Interpolate
        currentClientWorldState predictedWorldState currentTime).quotient = none) ∧
    (∀ a b : F,
      (interpolateClientWorldState ops ticksPerMicrosecond Interpolate
        currentClientWorldState predictedWorldState currentTime).quotient = some (a, b) →
      predictedWorldState.time ≠ currentClientWorldState.time ∧
      ops.eq b ops.zero = false ∧
      b = ops.ofInt64 (Clock.toNanoseconds ticksPerMicrosecond
        (predictedWorldState.time - currentClientWorldState.time)) ∧
      a = ops.ofInt64 (Clock.toNanoseconds ticksPerMicrosecond
        (currentTime - currentClientWorldState.time))) := by
  have hzero : predictedWorldState.time = currentClientWorldState.time →
      ops.eq (ops.ofInt64 (Clock.toNanoseconds ticksPerMicrosecond
        (predictedWorldState.time - currentClientWorldState.time))) ops.zero = true := by
    intro heq
    rw [heq, sub_self]
    simp only [Clock.toNanoseconds, zero_mul, Int.zero_tdiv]
    exact ops.ofInt64_zero
  constructor
  · intro heq
    simp only [interpolateClientWorldState, hzero heq, if_true, and_self]
  · intro a b hq
    unfold interpolateClientWorldState at hq
    by_cases hz : ops.eq (ops.ofInt64 (Clock.toNanoseconds ticksPerMicrosecond
        (predictedWorldState.time - currentClientWorldState.time))) ops.zero = true
    · simp only [hz, if_true] at hq
      cases hq
    · simp only [hz, if_false, Option.some.injEq, Prod.mk.injEq, Bool.false_eq_true] at hq
      obtain ⟨ha, hb⟩ := hq
      refine ⟨fun heq => hz (hzero heq), ?_, hb.symm, ha.symm⟩
      rw [← hb]
      simpa using hz

/-- Witness for C7: interpolating towards a predicted state of the same time as
the client state gives the predicted state without a division; from the sample
client state of time 12000 towards the predicted state of time 20000 at current
time 16000 the quotient 4000000 / 8000000 is evaluated, and the times differ. -/
theorem interpolation_division_guard_witness :
    ((interpolateClientWorldState Examples.fractionFloatOps 1 Examples.pickNearer
        Examples.predicted.predictedWorldState Examples.predicted.predictedWorldState
        16000).currentClientWorldState = Examples.predicted.predictedWorldState ∧
      (interpolateClientWorldState Examples.fractionFloatOps 1 Examples.pickNearer
        Examples.predicted.predictedWorldState Examples.predicted.predictedWorldState
        16000).quotient = none) ∧
    (interpolateClientWorldState Examples.fractionFloatOps 1 Examples.pickNearer
        Examples.clientWorldState Examples.predicted.predictedWorldState
        16000).quotient = some ((4000000, 1), (8000000, 1)) ∧
    Examples.predicted.predictedWorldState.time ≠ Examples.clientWorldState.time :=
  ⟨(interpolation_division_guard Examples.fractionFloatOps 1 Examples.pickNearer
      Examples.predicted.predictedWorldState Examples.predicted.predictedWorldState
      16000).1 rfl,
    rfl,
    ((interpolation_division_guard Examples.fractionFloatOps 1 Examples.pickNearer
      Examples.clientWorldState Examples.predicted.predictedWorldState
      16000).2 (4000000, 1) (8000000, 1) rfl).1⟩

end DZSimApplication

/-! ### Input command counters -/

namespace sim

namespace Entities

open PlayerInputState

theorem Player.read_write (p : Player) (r s : ActiveCountRef) (v : Int) :
    (p.write r v).read s = if r = s then v else p.read s := by
  cases r <;> cases s <;> rfl

theorem Player.inputCmdActiveCount_enumerator (cmd : Command) :
    Player.inputCmdActiveCount (.enumerator cmd) = .ok (ActiveCountRef.ofAction cmd.action) := by
  cases cmd <;> rfl

theorem Player.default_countsInRange : Player.default.CountsInRange := by
  intro r
  cases r <;> decide

theorem Player.applyCommand_spec (p : Player) (hp : p.CountsInRange) (cmd : Command) :
    ∃ q, p.applyCommand cmd = .ok q ∧ q.CountsInRange ∧
      (∀ r : ActiveCountRef, q.read r ≤ p.read r + 1) ∧
      (cmd.isPlus = false → ∀ r : ActiveCountRef,
        q.read r ≤ p.read r ∧ p.read r - 1 ≤ q.read r ∧
        (Player.inputCmdActiveCount (.enumerator cmd) = .ok r →
          q.read r = if 0 < p.read r then p.read r - 1 else 0)) := by
  unfold Player.applyCommand
  rw [Player.inputCmdActiveCount_enumerator]
  generalize ActiveCountRef.ofAction cmd.action = t
  have ht := hp t
  by_cases hplus : cmd.isPlus = true
  · refine ⟨p.write t (u32 (p.read t + 1)), by simp only [hplus, if_true], ?_, ?_, ?_⟩
    · intro r
      rw [Player.read_write]
      have hr := hp r
      split
      · unfold u32; omega
      · exact hr
    · intro r
      rw [Player.read_write]
      split
      · rename_i htr
        subst htr
        unfold u32; omega
      · omega
    · intro h; rw [h] at hplus; exact absurd hplus (by decide)
  · by_cases hpos : 0 < p.read t
    · refine ⟨p.write t (u32 (p.read t - 1)), by simp only [hplus, hpos, if_true]; rfl, ?_, ?_, ?_⟩
      · intro r
        rw [Player.read_write]
        have hr := hp r
        split
        · unfold u32; omega
        · exact hr
      · intro r
        rw [Player.read_write]
        split
        · rename_i htr
          subst htr
          unfold u32; omega
        · omega
      · intro _ r
        rw [Player.read_write]
        by_cases hrt : t = r
        · subst hrt
          simp only [if_true, hpos]
          unfold u32
          refine ⟨by omega, by omega, fun _ => by omega⟩
        · simp only [hrt, if_false]
          refine ⟨le_refl _, by omega, fun h => ?_⟩
          exact absurd (Except.ok.inj h) hrt
    · refine ⟨p, by simp only [hplus, hpos, if_false]; rfl, hp, fun r => by omega, ?_⟩
      intro _ r
      have hr := hp r
      refine ⟨le_refl _, by omega, fun h => ?_⟩
      have hrt : t = r := Except.ok.inj h
      subst hrt
      simp only [hpos, if_false]
      omega

theorem Player.applyCommands_ok (cmds : List Command) :
    ∀ p : Player, p.CountsInRange →
      ∃ q, Player.applyCommands p cmds = .ok q ∧ q.CountsInRange ∧
        ∀ r : ActiveCountRef, q.read r ≤ p.read r + cmds.length := by
  induction cmds with
  | nil => intro p hp; exact ⟨p, rfl, hp, fun r => by simp⟩
  | cons cmd rest ih =>
    intro p hp
    obtain ⟨q, hq, hqr, hq1, _⟩ := Player.applyCommand_spec p hp cmd
    obtain ⟨q', hq', hqr', hqn⟩ := ih q hqr
    refine ⟨q', ?_, hqr', ?_⟩
    · simp only [Player.applyCommands, hq, hq']
    · intro r
      have h1 := hq1 r
      have h2 := hqn r
      simp only [List.length_cons]
      push_cast
      omega

/-- C8: starting from a default player and applying any finite sequence of
press/release commands under the documented rule, the commands are all
dispatched (no termination), every counter stays a value in `[0, 2^32)` that
is at most the number of commands applied, and a following release command
never wraps a counter below zero: it leaves every counter at most as large as
before, the addressed counter becomes exactly `count - 1` when `count > 0` and
stays `0` otherwise. In particular `[PLUS_JUMP, MINUS_JUMP, MINUS_JUMP]` leaves
`inputCmdActiveCount_jump` at 0. -/
theorem Player_active_count_never_below_zero (cmds : List Command) :
    (∃ p, Player.applyCommands Player.default cmds = .ok p ∧
      (∀ r : ActiveCountRef,
        0 ≤ p.read r ∧ p.read r < 4294967296 ∧ p.read r ≤ cmds.length) ∧
      ∀ cmd : Command, ∃ q, p.applyCommand cmd = .ok q ∧
        (∀ r : ActiveCountRef, 0 ≤ q.read r ∧ q.read r < 4294967296) ∧
        (cmd.isPlus = false → ∀ r : ActiveCountRef,
          q.read r ≤ p.read r ∧ p.read r - 1 ≤ q.read r ∧
          (Player.inputCmdActiveCount (.enumerator cmd) = .ok r →
            q.read r = if 0 < p.read r then p.read r - 1 else 0))) ∧
    (∃ p, Player.applyCommands Player.default
        [Command.PLUS_JUMP, Command.MINUS_JUMP, Command.MINUS_JUMP] = .ok p ∧
      p.inputCmdActiveCount_jump = 0) := by
  constructor
  · obtain ⟨p, hp, hpr, hlen⟩ := Player.applyCommands_ok cmds Player.default
      Player.default_countsInRange
    refine ⟨p, hp, fun r => ⟨(hpr r).1, (hpr r).2, ?_⟩, fun cmd => ?_⟩
    · have h0 : Player.default.read r = 0 := by cases r <;> rfl
      have := hlen r
      omega
    · obtain ⟨q, hq, hqr, _, hminus⟩ := Player.applyCommand_spec p hpr cmd
      exact ⟨q, hq, hqr, hminus⟩
  · exact ⟨Player.default, rfl, rfl⟩

/-- Witness for C8 on the sequence `[PLUS_JUMP, PLUS_JUMP, MINUS_JUMP]` followed by
a further `MINUS_JUMP`: the jump counter is 1 and the release brings it to 0. -/
theorem Player_active_count_never_below_zero_witness :
    ∃ p, Player.applyCommands Player.default
        [Command.PLUS_JUMP, Command.PLUS_JUMP, Command.MINUS_JUMP] = .ok p ∧
      p.read .inputCmdActiveCount_jump = 1 ∧
      ∃ q, p.applyCommand Command.MINUS_JUMP = .ok q ∧
        q.read .inputCmdActiveCount_jump = 0 := by
  obtain ⟨p, hp, _, hstep⟩ := (Player_active_count_never_below_zero
    [Command.PLUS_JUMP, Command.PLUS_JUMP, Command.MINUS_JUMP]).1
  have hp1 : p.read .inputCmdActiveCount_jump = 1 := by
    have h : Player.applyCommands Player.default
        [Command.PLUS_JUMP, Command.PLUS_JUMP, Command.MINUS_JUMP] =
        .ok (Player.default.write .inputCmdActiveCount_jump 1) := rfl
    rw [h] at hp
    rw [← Except.ok.inj hp]
    rfl
  obtain ⟨q, hq, _, hminus⟩ := hstep Command.MINUS_JUMP
  refine ⟨p, hp, hp1, q, hq, ?_⟩
  have h := (hminus rfl .inputCmdActiveCount_jump).2.2 rfl
  rw [h, hp1]
  rfl

/-- C9: for each of the ten logical actions `X`, `inputCmdActiveCount(PLUS_X)` and
`inputCmdActiveCount(MINUS_X)` return a reference to the same counter, the member
`inputCmdActiveCount_X`; commands of two different actions get two different
counters, and two different counters are separate storage (an assignment
through one is not seen through the other). -/
theorem Player_inputCmdActiveCount_dispatch :
    (Player.inputCmdActiveCount (.enumerator .PLUS_FORWARD) = .ok .inputCmdActiveCount_forward ∧
      Player.inputCmdActiveCount (.enumerator .MINUS_FORWARD) = .ok .inputCmdActiveCount_forward) ∧
    (Player.inputCmdActiveCount (.enumerator .PLUS_BACK) = .ok .inputCmdActiveCount_back ∧
      Player.inputCmdActiveCount (.enumerator .MINUS_BACK) = .ok .inputCmdActiveCount_back) ∧
    (Player.inputCmdActiveCount (.enumerator .PLUS_MOVELEFT) = .ok .inputCmdActiveCount_moveleft ∧
      Player.inputCmdActiveCount (.enumerator .MINUS_MOVELEFT) = .ok .inputCmdActiveCount_moveleft) ∧
    (Player.inputCmdActiveCount (.enumerator .PLUS_MOVERIGHT) = .ok .inputCmdActiveCount_moveright ∧
      Player.inputCmdActiveCount (.enumerator .MINUS_MOVERIGHT) = .ok .inputCmdActiveCount_moveright) ∧
    (Player.inputCmdActiveCount (.enumerator .PLUS_USE) = .ok .inputCmdActiveCount_use ∧
      Player.inputCmdActiveCount (.enumerator .MINUS_USE) = .ok .inputCmdActiveCount_use) ∧
    (Player.inputCmdActiveCount (.enumerator .PLUS_JUMP) = .ok .inputCmdActiveCount_jump ∧
      Player.inputCmdActiveCount (.enumerator .MINUS_JUMP) = .ok .inputCmdActiveCount_jump) ∧
    (Player.inputCmdActiveCount (.enumerator .PLUS_DUCK) = .ok .inputCmdActiveCount_duck ∧
      Player.inputCmdActiveCount (.enumerator .MINUS_DUCK) = .ok .inputCmdActiveCount_duck) ∧
    (Player.inputCmdActiveCount (.enumerator .PLUS_SPEED) = .ok .inputCmdActiveCount_speed ∧
      Player.inputCmdActiveCount (.enumerator .MINUS_SPEED) = .ok .inputCmdActiveCount_speed) ∧
    (Player.inputCmdActiveCount (.enumerator .PLUS_ATTACK) = .ok .inputCmdActiveCount_attack ∧
      Player.inputCmdActiveCount (.enumerator .MINUS_ATTACK) = .ok .inputCmdActiveCount_attack) ∧
    (Player.inputCmdActiveCount (.enumerator .PLUS_ATTACK2) = .ok .inputCmdActiveCount_attack2 ∧
      Player.inputCmdActiveCount (.enumerator .MINUS_ATTACK2) = .ok .inputCmdActiveCount_attack2) ∧
    (∀ (c d : Command) (r s : ActiveCountRef),
      Player.inputCmdActiveCount (.enumerator c) = .ok r →
      Player.inputCmdActiveCount (.enumerator d) = .ok s →
      (r = s ↔ c.action = d.action)) ∧
    (∀ (p : Player) (r s : ActiveCountRef) (v : Int),
      (p.write r v).read r = v ∧ (r ≠ s → (p.write r v).read s = p.read s)) := by
  refine ⟨⟨rfl, rfl⟩, ⟨rfl, rfl⟩, ⟨rfl, rfl⟩, ⟨rfl, rfl⟩, ⟨rfl, rfl⟩, ⟨rfl, rfl⟩, ⟨rfl, rfl⟩,
    ⟨rfl, rfl⟩, ⟨rfl, rfl⟩, ⟨rfl, rfl⟩, ?_, ?_⟩
  · intro c d r s hc hd
    rw [Player.inputCmdActiveCount_enumerator] at hc hd
    rw [← Except.ok.inj hc, ← Except.ok.inj hd]
    generalize c.action = a
    generalize d.action = b
    cases a <;> cases b <;> decide
  · intro p r s v
    rw [Player.read_write, Player.read_write]
    exact ⟨by simp, fun h => by simp [h]⟩

/-- Witness for C9: `PLUS_JUMP` and `MINUS_DUCK` belong to different actions and are
dispatched to different counters; writing the jump counter leaves the duck
counter as it was. -/
theorem Player_inputCmdActiveCount_dispatch_witness :
    (ActiveCountRef.inputCmdActiveCount_jump = ActiveCountRef.inputCmdActiveCount_duck ↔
      Command.PLUS_JUMP.action = Command.MINUS_DUCK.action) ∧
    ((Player.default.write .inputCmdActiveCount_jump 7).read .inputCmdActiveCount_duck =
      Player.default.read .inputCmdActiveCount_duck) :=
  ⟨Player_inputCmdActiveCount_dispatch.2.2.2.2.2.2.2.2.2.2.1 Command.PLUS_JUMP Command.MINUS_DUCK
      .inputCmdActiveCount_jump .inputCmdActiveCount_duck rfl rfl,
    (Player_inputCmdActiveCount_dispatch.2.2.2.2.2.2.2.2.2.2.2 Player.default
      .inputCmdActiveCount_jump .inputCmdActiveCount_duck 7).2 (by decide)⟩

/-- C10: every one of the twenty enumerators of `PlayerInputState::Command` is
handled by a case of the switch, so `inputCmdActiveCount` returns a counter
reference for it; the "Unknown cmd" branch with `std::terminate` is taken
exactly by the values that are no enumerator. -/
theorem Player_inputCmdActiveCount_exhaustive :
    (∀ c : Command, ∃ r, Player.inputCmdActiveCount (.enumerator c) = .ok r) ∧
    (∀ (v : CommandValue) (e : String), Player.inputCmdActiveCount v = .error e →
      ∃ raw, v = .other raw) ∧
    (∀ raw : Int, ∃ e, Player.inputCmdActiveCount (.other raw) = .error e) := by
  refine ⟨fun c => ⟨_, Player.inputCmdActiveCount_enumerator c⟩, ?_, fun raw => ⟨_, rfl⟩⟩
  intro v e h
  cases v with
  | enumerator c =>
    rw [Player.inputCmdActiveCount_enumerator] at h
    cases h
  | other raw => exact ⟨raw, rfl⟩

/-- Witness for C10: the value `other 20` reaches the terminating branch, and it is
no enumerator. -/
theorem Player_inputCmdActiveCount_exhaustive_witness :
    Player.inputCmdActiveCount (.other 20) =
      .error "[ERROR] Player::inputCmdActiveCount() Unknown cmd! Forgot a switch case?" ∧
    ∃ raw, CommandValue.other 20 = CommandValue.other raw :=
  ⟨rfl, Player_inputCmdActiveCount_exhaustive.2.1 (.other 20) _ rfl⟩

end Entities

end sim

/-! ### Number of prediction steps and determinism -/

namespace DZSimApplication

open sim

theorem predict_eq_predictionLoop {D F E : Type} (ops : DoubleOps D)
    (ticksPerMicrosecond : Int)
    (DoTimeStep : WorldState E → D → List (PlayerInputState F) → WorldState E)
    (serverTickRate serverSimTimeScale : D) (currentServerWorldState : WorldState E)
    (prevGameInputs : List (PlayerInputState F)) (currentTime : Int) (fuel : Nat) :
    predict ops ticksPerMicrosecond DoTimeStep serverTickRate serverSimTimeScale
      currentServerWorldState prevGameInputs currentTime fuel =
    predictionLoop DoTimeStep (simStepSize ops serverTickRate)
      (serverFrameLength ops ticksPerMicrosecond serverTickRate serverSimTimeScale)
      prevGameInputs currentTime fuel (PredictionState.init currentServerWorldState) :=
  rfl

theorem predictionLoop_eq_iterate {D F E : Type}
    (DoTimeStep : WorldState E → D → List (PlayerInputState F) → WorldState E)
    (simStepSize : D) (serverFrameLength : Int)
    (prevGameInputs : List (PlayerInputState F)) (currentTime : Int) :
    ∀ (fuel : Nat) (s final : PredictionState D E),
      predictionLoop DoTimeStep simStepSize serverFrameLength prevGameInputs currentTime fuel s
        = some final →
      ∃ n : Nat, final.calls.length = s.calls.length + n ∧
        final = (predictionStep DoTimeStep simStepSize serverFrameLength prevGameInputs)^[n] s := by
  intro fuel
  induction fuel with
  | zero =>
    intro s final h
    unfold predictionLoop at h
    split at h
    · cases h
    · cases h
      exact ⟨0, rfl, rfl⟩
  | succ m ih =>
    intro s final h
    unfold predictionLoop at h
    split at h
    · obtain ⟨n, hlen, hfin⟩ := ih _ final h
      refine ⟨n + 1, ?_, ?_⟩
      · rw [hlen]
        simp only [predictionStep, List.length_append, List.length_singleton]
        omega
      · rw [Function.iterate_succ_apply]
        exact hfin
    · cases h
      exact ⟨0, rfl, rfl⟩

theorem predictionLoop_step_count {D F E : Type}
    (DoTimeStep : WorldState E → D → List (PlayerInputState F) → WorldState E)
    (simStepSize : D) (serverFrameLength : Int)
    (prevGameInputs : List (PlayerInputState F)) (currentTime : Int)
    (currentServerWorldState : WorldState E) (fuel : Nat) (final : PredictionState D E)
    (h : predictionLoop DoTimeStep simStepSize serverFrameLength prevGameInputs currentTime fuel
      (PredictionState.init currentServerWorldState) = some final)
    (n : Nat)
    (hlo : currentServerWorldState.time + n * serverFrameLength ≤ currentTime)
    (hhi : currentTime < currentServerWorldState.time + (n + 1) * serverFrameLength) :
    final.calls.length = n + 1 := by
  obtain ⟨⟨h1, _, h3⟩, hgt⟩ := predictionLoop_timesInv DoTimeStep simStepSize
    serverFrameLength prevGameInputs currentTime currentServerWorldState fuel final h
  have h1' : final.predictedWorldState.time =
      currentServerWorldState.time + final.calls.length * serverFrameLength := h1
  have hL : 0 < serverFrameLength := by linarith
  rcases Nat.lt_trichotomy final.calls.length (n + 1) with hlt | heq | hgt'
  · exfalso
    have hle : (final.calls.length : Int) ≤ n := by omega
    have := mul_le_mul_of_nonneg_right hle (le_of_lt hL)
    linarith
  · exact heq
  · exfalso
    obtain ⟨hc1, _, _, hc4⟩ := h3 (n + 1) _ (List.getElem?_eq_getElem hgt')
    rw [hc1] at hc4
    have hc4' : currentServerWorldState.time + ((n : Int) + 1) * serverFrameLength
        ≤ currentTime := by
      have e : (PredictionState.init currentServerWorldState :
          PredictionState D E).predictedWorldState.time = currentServerWorldState.time := rfl
      rw [e] at hc4
      push_cast at hc4
      exact hc4
    linarith

/-- C11: with `DoTimeStep` a function of its arguments, two predictions from the
same snapshot, buffer, tick rate and time scale at two current times that lie
in the same tick interval `[t0 + n * L, t0 + (n + 1) * L)` finish in the same
state, after the same `n + 1` steps with the same arguments, and both do
finish. -/
theorem predict_deterministic_within_tick {D F E : Type} (ops : DoubleOps D)
    (ticksPerMicrosecond : Int)
    (DoTimeStep : WorldState E → D → List (PlayerInputState F) → WorldState E)
    (serverTickRate serverSimTimeScale : D) (currentServerWorldState : WorldState E)
    (prevGameInputs : List (PlayerInputState F)) (currentTime1 currentTime2 : Int) (n : Nat)
    (hlo1 : currentServerWorldState.time +
      n * serverFrameLength ops ticksPerMicrosecond serverTickRate serverSimTimeScale
        ≤ currentTime1)
    (hhi1 : currentTime1 < currentServerWorldState.time +
      (n + 1) * serverFrameLength ops ticksPerMicrosecond serverTickRate serverSimTimeScale)
    (hlo2 : currentServerWorldState.time +
      n * serverFrameLength ops ticksPerMicrosecond serverTickRate serverSimTimeScale
        ≤ currentTime2)
    (hhi2 : currentTime2 < currentServerWorldState.time +
      (n + 1) * serverFrameLength ops ticksPerMicrosecond serverTickRate serverSimTimeScale) :
    (∀ (fuel1 fuel2 : Nat) (final1 final2 : PredictionState D E),
      predict ops ticksPerMicrosecond DoTimeStep serverTickRate serverSimTimeScale
        currentServerWorldState prevGameInputs currentTime1 fuel1 = some final1 →
      predict ops ticksPerMicrosecond DoTimeStep serverTickRate serverSimTimeScale
        currentServerWorldState prevGameInputs currentTime2 fuel2 = some final2 →
      final1 = final2 ∧ final1.calls.length = n + 1) ∧
    (∃ (fuel : Nat) (final : PredictionState D E),
      predict ops ticksPerMicrosecond DoTimeStep serverTickRate serverSimTimeScale
        currentServerWorldState prevGameInputs currentTime1 fuel = some final ∧
      predict ops ticksPerMicrosecond DoTimeStep serverTickRate serverSimTimeScale
        currentServerWorldState prevGameInputs currentTime2 fuel = some final) := by
  have key : ∀ (currentTime : Int) (fuel : Nat) (final : PredictionState D E),
      currentServerWorldState.time +
        n * serverFrameLength ops ticksPerMicrosecond serverTickRate serverSimTimeScale
          ≤ currentTime →
      currentTime < currentServerWorldState.time +
        (n + 1) * serverFrameLength ops ticksPerMicrosecond serverTickRate serverSimTimeScale →
      predict ops ticksPerMicrosecond DoTimeStep serverTickRate serverSimTimeScale
        currentServerWorldState prevGameInputs currentTime fuel = some final →
      final.calls.length = n + 1 ∧
      final = (predictionStep DoTimeStep (simStepSize ops serverTickRate)
        (serverFrameLength ops ticksPerMicrosecond serverTickRate serverSimTimeScale)
        prevGameInputs)^[n + 1] (PredictionState.init currentServerWorldState) := by
    intro currentTime fuel final hlo hhi h
    rw [predict_eq_predictionLoop] at h
    have hcount := predictionLoop_step_count DoTimeStep _ _ prevGameInputs currentTime
      currentServerWorldState fuel final h n hlo hhi
    obtain ⟨m, hlen, hfin⟩ := predictionLoop_eq_iterate DoTimeStep _ _ prevGameInputs
      currentTime fuel _ final h
    have hm : m = n + 1 := by
      have e : (PredictionState.init currentServerWorldState :
          PredictionState D E).calls.length = 0 := rfl
      omega
    subst hm
    exact ⟨hcount, hfin⟩
  have hL : 0 < serverFrameLength ops ticksPerMicrosecond serverTickRate serverSimTimeScale := by
    linarith
  have hterm : ∀ currentTime : Int, ∃ (fuel : Nat), ∀ fuel' : Nat, fuel ≤ fuel' →
      ∃ final : PredictionState D E,
        predict ops ticksPerMicrosecond DoTimeStep serverTickRate serverSimTimeScale
          currentServerWorldState prevGameInputs currentTime fuel' = some final := by
    intro currentTime
    refine ⟨(currentTime - currentServerWorldState.time).toNat + 1, ?_⟩
    intro fuel' hf
    rw [predict_eq_predictionLoop]
    apply predictionLoop_terminates
    show currentTime - currentServerWorldState.time < _
    have h1 : currentTime - currentServerWorldState.time ≤
        ((currentTime - currentServerWorldState.time).toNat : Int) := Int.self_le_toNat _
    have h2 : ((currentTime - currentServerWorldState.time).toNat : Int) + 1 ≤ (fuel' : Int) := by
      omega
    have h3 : (fuel' : Int) * 1 ≤ (fuel' : Int) *
        serverFrameLength ops ticksPerMicrosecond serverTickRate serverSimTimeScale :=
      mul_le_mul_of_nonneg_left (by omega) (by omega)
    linarith
  constructor
  · intro fuel1 fuel2 final1 final2 h1 h2
    obtain ⟨c1, e1⟩ := key currentTime1 fuel1 final1 hlo1 hhi1 h1
    obtain ⟨_, e2⟩ := key currentTime2 fuel2 final2 hlo2 hhi2 h2
    exact ⟨e1.trans e2.symm, c1⟩
  · obtain ⟨f1, hf1⟩ := hterm currentTime1
    obtain ⟨f2, hf2⟩ := hterm currentTime2
    obtain ⟨final1, h1⟩ := hf1 (max f1 f2) (le_max_left _ _)
    obtain ⟨final2, h2⟩ := hf2 (max f1 f2) (le_max_right _ _)
    obtain ⟨_, e1⟩ := key currentTime1 _ final1 hlo1 hhi1 h1
    obtain ⟨_, e2⟩ := key currentTime2 _ final2 hlo2 hhi2 h2
    refine ⟨max f1 f2, final1, h1, ?_⟩
    rw [h2, e2, ← e1]

/-- Witness for C11: the current times 16000 and 19999 lie in the same tick interval
`[15000, 20000)` of the sample prediction, and both predictions end in the
sample outcome after two steps. -/
theorem predict_deterministic_within_tick_witness :
    predict Examples.fractionDoubleOps 1 Examples.countInputs (100, 1) (2, 1)
      Examples.serverWorldState Examples.unprocessedInputs 16000 5 = some Examples.predicted ∧
    predict Examples.fractionDoubleOps 1 Examples.countInputs (100, 1) (2, 1)
      Examples.serverWorldState Examples.unprocessedInputs 19999 5 = some Examples.predicted ∧
    Examples.predicted.calls.length = 1 + 1 :=
  ⟨rfl, rfl,
    ((predict_deterministic_within_tick Examples.fractionDoubleOps 1 Examples.countInputs
      (100, 1) (2, 1) Examples.serverWorldState Examples.unprocessedInputs 16000 19999 1
      (by decide) (by decide) (by decide) (by decide)).1 5 5 Examples.predicted
      Examples.predicted rfl rfl).2⟩

theorem predictionLoop_of_future {D F E : Type}
    (DoTimeStep : WorldState E → D → List (PlayerInputState F) → WorldState E)
    (simStepSize : D) (serverFrameLength : Int)
    (prevGameInputs : List (PlayerInputState F)) (currentTime : Int)
    (s : PredictionState D E) (h : currentTime < s.predictedWorldState.time) (fuel : Nat) :
    predictionLoop DoTimeStep simStepSize serverFrameLength prevGameInputs currentTime fuel s
      = some s := by
  have hn : ¬ s.predictedWorldState.time ≤ currentTime := by omega
  cases fuel with
  | zero => unfold predictionLoop; simp only [hn, if_false]
  | succ n => unfold predictionLoop; simp only [hn, if_false]

/-- C15: if the frame length `(long long)(1000000 / (tickRate * timeScale))`
microseconds is positive (for a clock with a positive number of ticks per
microsecond), the prediction loop terminates, and it runs exactly
`floor((currentTime - t0) / L) + 1` steps when the snapshot time `t0` is not
after `currentTime`, and no step otherwise. -/
theorem predict_terminates_with_step_count {D F E : Type} (ops : DoubleOps D)
    (ticksPerMicrosecond : Int)
    (DoTimeStep : WorldState E → D → List (PlayerInputState F) → WorldState E)
    (serverTickRate serverSimTimeScale : D) (currentServerWorldState : WorldState E)
    (prevGameInputs : List (PlayerInputState F)) (currentTime : Int)
    (hticks : 0 < ticksPerMicrosecond)
    (hpos : 0 < ops.toLongLong
      (ops.div (ops.ofInt 1000000) (ops.mul serverTickRate serverSimTimeScale))) :
    (∃ (fuel : Nat) (final : PredictionState D E),
      predict ops ticksPerMicrosecond DoTimeStep serverTickRate serverSimTimeScale
        currentServerWorldState prevGameInputs currentTime fuel = some final) ∧
    (∀ (fuel : Nat) (final : PredictionState D E),
      predict ops ticksPerMicrosecond DoTimeStep serverTickRate serverSimTimeScale
        currentServerWorldState prevGameInputs currentTime fuel = some final →
      final.calls.length =
        if currentServerWorldState.time ≤ currentTime then
          ((currentTime - currentServerWorldState.time) /
            serverFrameLength ops ticksPerMicrosecond serverTickRate serverSimTimeScale).toNat + 1
        else 0) := by
  have hL : 0 < serverFrameLength ops ticksPerMicrosecond serverTickRate serverSimTimeScale :=
    mul_pos hpos hticks
  constructor
  · refine ⟨(currentTime - currentServerWorldState.time).toNat + 1, ?_⟩
    rw [predict_eq_predictionLoop]
    apply predictionLoop_terminates
    show currentTime - currentServerWorldState.time < _
    have h1 : currentTime - currentServerWorldState.time ≤
        ((currentTime - currentServerWorldState.time).toNat : Int) := Int.self_le_toNat _
    have h3 : (((currentTime - currentServerWorldState.time).toNat + 1 : Nat) : Int) * 1 ≤
        (((currentTime - currentServerWorldState.time).toNat + 1 : Nat) : Int) *
        serverFrameLength ops ticksPerMicrosecond serverTickRate serverSimTimeScale :=
      mul_le_mul_of_nonneg_left (by omega) (by omega)
    push_cast at h3 ⊢
    linarith
  · intro fuel final h
    rw [predict_eq_predictionLoop] at h
    by_cases hle : currentServerWorldState.time ≤ currentTime
    · simp only [hle, if_true]
      have hq : 0 ≤ (currentTime - currentServerWorldState.time) /
          serverFrameLength ops ticksPerMicrosecond serverTickRate serverSimTimeScale :=
        Int.ediv_nonneg (by omega) (le_of_lt hL)
      have hcast : ((((currentTime - currentServerWorldState.time) /
          serverFrameLength ops ticksPerMicrosecond serverTickRate serverSimTimeScale).toNat :
            Nat) : Int) = (currentTime - currentServerWorldState.time) /
          serverFrameLength ops ticksPerMicrosecond serverTickRate serverSimTimeScale :=
        Int.toNat_of_nonneg hq
      apply predictionLoop_step_count DoTimeStep _ _ prevGameInputs currentTime
        currentServerWorldState fuel final h
      · rw [hcast]
        have := Int.ediv_mul_le (currentTime - currentServerWorldState.time) (ne_of_gt hL)
        linarith
      · rw [hcast]
        have := Int.lt_ediv_add_one_mul_self (currentTime - currentServerWorldState.time) hL
        linarith
    · simp only [hle, if_false]
      rw [predictionLoop_of_future DoTimeStep _ _ prevGameInputs currentTime _
        (by show currentTime < currentServerWorldState.time; omega) fuel] at h
      cases h
      rfl

/-- Witness for C15: the sample prediction has the frame length 5000 and runs
`(16000 - 10000) / 5000 + 1 = 2` steps. -/
theorem predict_terminates_with_step_count_witness :
    predict Examples.fractionDoubleOps 1 Examples.countInputs (100, 1) (2, 1)
      Examples.serverWorldState Examples.unprocessedInputs 16000 5 = some Examples.predicted ∧
    Examples.predicted.calls.length =
      if Examples.serverWorldState.time ≤ 16000 then
        ((16000 - Examples.serverWorldState.time) /
          serverFrameLength Examples.fractionDoubleOps 1 (100, 1) (2, 1)).toNat + 1
      else 0 :=
  ⟨rfl,
    (predict_terminates_with_step_count Examples.fractionDoubleOps 1 Examples.countInputs
      (100, 1) (2, 1) Examples.serverWorldState Examples.unprocessedInputs 16000
      (by decide) (by decide)).2 5 Examples.predicted rfl⟩

end DZSimApplication

/-! ### Rounding to `float` -/

namespace cpp

namespace Binary32

theorem toRat_zero : toRat zero = 0 := by
  simp [toRat, zero]

theorem toRat_one : toRat one = 1 := by
  simp only [toRat, one]
  norm_num [zpow_neg]

theorem toRat_neg (x : Binary32) : toRat (neg x) = -toRat x := by
  simp [toRat, neg]

theorem scaled_snd_pos (num den : Nat) (e : Int) (hd : 0 < den) :
    0 < (scaled num den e).2 := by
  unfold scaled
  split
  · exact Nat.mul_pos hd (Nat.pow_pos (by decide))
  · exact hd

theorem scaled_ratio (num den : Nat) (e : Int) (hd : 0 < den) :
    ((scaled num den e).1 : ℚ) / ((scaled num den e).2 : ℚ) =
      (num : ℚ) / (den : ℚ) / (2 : ℚ) ^ e := by
  have hdq : (den : ℚ) ≠ 0 := by exact_mod_cast (Nat.ne_of_gt hd)
  unfold scaled
  split
  · rename_i h
    have he : (2 : ℚ) ^ e = (2 : ℚ) ^ e.toNat := by
      rw [← zpow_natCast, Int.toNat_of_nonneg h]
    rw [he]
    push_cast
    rw [div_div]
  · rename_i h
    have hneg : 0 ≤ -e := by omega
    have he : (2 : ℚ) ^ e = ((2 : ℚ) ^ (-e).toNat)⁻¹ := by
      rw [← zpow_natCast, Int.toNat_of_nonneg hneg, zpow_neg, inv_inv]
    rw [he]
    push_cast
    field_simp

theorem scaled_lt_iff (num den : Nat) (e : Int) (k : Nat) (hd : 0 < den) :
    (scaled num den e).1 < k * (scaled num den e).2 ↔
      (num : ℚ) / (den : ℚ) < (k : ℚ) * (2 : ℚ) ^ e := by
  have hpos : (0 : ℚ) < ((scaled num den e).2 : ℚ) := by
    exact_mod_cast scaled_snd_pos num den e hd
  have h2 : (0 : ℚ) < (2 : ℚ) ^ e := zpow_pos (by norm_num) e
  rw [← div_lt_iff₀ h2, ← scaled_ratio num den e hd, div_lt_iff₀ hpos]
  exact_mod_cast Iff.rfl

theorem scaled_le_iff (num den : Nat) (e : Int) (k : Nat) (hd : 0 < den) :
    k * (scaled num den e).2 ≤ (scaled num den e).1 ↔
      (k : ℚ) * (2 : ℚ) ^ e ≤ (num : ℚ) / (den : ℚ) := by
  have h := scaled_lt_iff num den e k hd
  constructor
  · intro hle
    by_contra hc
    exact absurd (h.mpr (not_le.mp hc)) (Nat.not_lt.mpr hle)
  · intro hle
    by_contra hc
    exact absurd (h.mp (Nat.not_le.mp hc)) (not_lt.mpr hle)

theorem bitLengthAux_zero (fuel : Nat) : bitLengthAux fuel 0 = 0 := by
  cases fuel <;> simp [bitLengthAux]

theorem bitLengthAux_spec (fuel n : Nat) (h : n ≤ fuel) :
    n < 2 ^ bitLengthAux fuel n ∧ (0 < n → 2 ^ bitLengthAux fuel n ≤ 2 * n) := by
  induction fuel generalizing n with
  | zero =>
    have hn : n = 0 := by omega
    subst hn
    simp [bitLengthAux]
  | succ fuel ih =>
    by_cases hn : n = 0
    · subst hn
      simp [bitLengthAux]
    · obtain ⟨h1, h2⟩ := ih (n / 2) (by omega)
      simp only [bitLengthAux, if_neg hn, Nat.pow_succ]
      by_cases hhalf : n / 2 = 0
      · rw [hhalf, bitLengthAux_zero] at h1 h2 ⊢
        simp only [Nat.pow_zero] at h1 h2 ⊢
        omega
      · have h3 := h2 (by omega)
        omega

/-- A positive number lies between the two powers of two given by its number of
digits. -/
theorem bitLength_bounds (n : Nat) (hn : 0 < n) :
    (2 : ℚ) ^ ((bitLength n : Int) - 1) ≤ (n : ℚ) ∧
      (n : ℚ) < (2 : ℚ) ^ ((bitLength n : Int) - 1 + 1) := by
  obtain ⟨h1, h2⟩ := bitLengthAux_spec n n (le_refl n)
  have h3 := h2 hn
  have h1q : (n : ℚ) < (2 : ℚ) ^ (bitLength n : Int) := by
    rw [zpow_natCast]
    exact_mod_cast h1
  have h3q : (2 : ℚ) ^ (bitLength n : Int) ≤ 2 * (n : ℚ) := by
    rw [zpow_natCast]
    exact_mod_cast h3
  constructor
  · rw [zpow_sub₀ (by norm_num : (2 : ℚ) ≠ 0), zpow_one, div_le_iff₀ (by norm_num)]
    linarith
  · rw [sub_add_cancel]
    exact h1q

/-- The exponent chosen for a positive fraction brackets the fraction between two
consecutive powers of two. -/
theorem exponentOf_spec (num den : Nat) (hn : 0 < num) (hd : 0 < den) :
    (2 : ℚ) ^ (exponentOf num den + 23) ≤ (num : ℚ) / (den : ℚ) ∧
      (num : ℚ) / (den : ℚ) < (2 : ℚ) ^ (exponentOf num den + 24) := by
  obtain ⟨hn1, hn2⟩ := bitLength_bounds num hn
  obtain ⟨hd1, hd2⟩ := bitLength_bounds den hd
  have hdq : (0 : ℚ) < (den : ℚ) := by exact_mod_cast hd
  have hnq : (0 : ℚ) < (num : ℚ) := by exact_mod_cast hn
  have two : (0 : ℚ) < 2 := by norm_num
  have two0 : (2 : ℚ) ≠ 0 := by norm_num
  have hlo : (2 : ℚ) ^ ((bitLength num : Int) - (bitLength den : Int) - 24 + 23) ≤
      (num : ℚ) / (den : ℚ) := by
    have e : (bitLength num : Int) - (bitLength den : Int) - 24 + 23 =
        ((bitLength num : Int) - 1) - ((bitLength den : Int) - 1 + 1) := by ring
    rw [e, zpow_sub₀ two0, div_le_div_iff₀ (zpow_pos two _) hdq]
    exact mul_le_mul hn1 (le_of_lt hd2) (le_of_lt hdq) (le_of_lt hnq)
  have hhi : (num : ℚ) / (den : ℚ) <
      (2 : ℚ) ^ ((bitLength num : Int) - (bitLength den : Int) - 24 + 1 + 24) := by
    have e : (bitLength num : Int) - (bitLength den : Int) - 24 + 1 + 24 =
        ((bitLength num : Int) - 1 + 1) - ((bitLength den : Int) - 1) := by ring
    rw [e, zpow_sub₀ two0, div_lt_div_iff₀ hdq (zpow_pos two _)]
    exact mul_lt_mul hn2 hd1 (zpow_pos two _) (le_of_lt (zpow_pos two _))
  have hk : ((16777216 : Nat) : ℚ) = (2 : ℚ) ^ (24 : Int) := by norm_num
  unfold exponentOf
  simp only []
  split
  · rename_i h
    rw [scaled_lt_iff num den _ 16777216 hd, hk, ← zpow_add₀ two0] at h
    refine ⟨hlo, ?_⟩
    rw [add_comm] at h
    exact h
  · rename_i h
    rw [scaled_lt_iff num den _ 16777216 hd, hk, ← zpow_add₀ two0, not_lt] at h
    refine ⟨?_, hhi⟩
    have e : (bitLength num : Int) - (bitLength den : Int) - 24 + 1 + 23 =
        24 + ((bitLength num : Int) - (bitLength den : Int) - 24) := by ring
    rw [e]
    exact h

theorem roundHalfEven_ge (n d : Nat) : n / d ≤ roundHalfEven n d := by
  unfold roundHalfEven
  simp only []
  split <;> omega

theorem roundHalfEven_le (n d : Nat) : roundHalfEven n d ≤ n / d + 1 := by
  unfold roundHalfEven
  simp only []
  split <;> omega

/-- Rounding to the nearest integer is monotone in the numerator. -/
theorem roundHalfEven_mono (n n' d : Nat) (h : n ≤ n') :
    roundHalfEven n d ≤ roundHalfEven n' d := by
  have hq : n / d ≤ n' / d := Nat.div_le_div_right h
  rcases Nat.lt_or_eq_of_le hq with hlt | heq
  · exact Nat.le_trans (roundHalfEven_le n d)
      (Nat.le_trans hlt (roundHalfEven_ge n' d))
  · have h1 := Nat.div_add_mod n d
    have h2 := Nat.div_add_mod n' d
    have hr : n % d ≤ n' % d := by
      rw [← heq] at h2
      omega
    unfold roundHalfEven
    simp only []
    rw [← heq]
    split
    · rename_i hc
      have hc' : d < 2 * (n' % d) ∨ (2 * (n' % d) = d ∧ n / d % 2 = 1) := by
        rcases hc with hc | ⟨hc, hodd⟩
        · left; omega
        · rcases Nat.lt_or_eq_of_le hr with hlt | he
          · left; omega
          · right; exact ⟨by omega, hodd⟩
      rw [if_pos hc']
    · split <;> omega

/-- A whole number is its own rounding. -/
theorem roundHalfEven_mul (q d : Nat) (hd : 0 < d) : roundHalfEven (q * d) d = q := by
  unfold roundHalfEven
  simp only [Nat.mul_div_cancel _ hd, Nat.mul_mod_left]
  rw [if_neg]
  omega

/-- The significand of a positive fraction lies between `2 ^ 23` and `2 ^ 24`. -/
theorem significand_bounds (num den : Nat) (hn : 0 < num) (hd : 0 < den) :
    8388608 ≤ roundHalfEven (scaled num den (exponentOf num den)).1
        (scaled num den (exponentOf num den)).2 ∧
      roundHalfEven (scaled num den (exponentOf num den)).1
        (scaled num den (exponentOf num den)).2 ≤ 16777216 := by
  obtain ⟨hlo, hhi⟩ := exponentOf_spec num den hn hd
  have two0 : (2 : ℚ) ≠ 0 := by norm_num
  have hpos := scaled_snd_pos num den (exponentOf num den) hd
  have h1 : 8388608 * (scaled num den (exponentOf num den)).2 ≤
      (scaled num den (exponentOf num den)).1 := by
    rw [scaled_le_iff num den _ 8388608 hd]
    have hk : ((8388608 : Nat) : ℚ) = (2 : ℚ) ^ (23 : Int) := by norm_num
    rw [hk, ← zpow_add₀ two0, add_comm]
    exact hlo
  have h2 : (scaled num den (exponentOf num den)).1 <
      16777216 * (scaled num den (exponentOf num den)).2 := by
    rw [scaled_lt_iff num den _ 16777216 hd]
    have hk : ((16777216 : Nat) : ℚ) = (2 : ℚ) ^ (24 : Int) := by norm_num
    rw [hk, ← zpow_add₀ two0, add_comm]
    exact hhi
  constructor
  · exact Nat.le_trans ((Nat.le_div_iff_mul_le hpos).mpr h1) (roundHalfEven_ge _ _)
  · have h3 : (scaled num den (exponentOf num den)).1 /
        (scaled num den (exponentOf num den)).2 < 16777216 :=
      (Nat.div_lt_iff_lt_mul hpos).mpr h2
    exact Nat.le_trans (roundHalfEven_le _ _) h3

/-- The value of the rounded fraction is the rounded significand times the power
of two of the exponent. -/
theorem toRat_roundPos (num den : Nat) :
    toRat (roundPos num den) =
      (roundHalfEven (scaled num den (exponentOf num den)).1
        (scaled num den (exponentOf num den)).2 : ℚ) * (2 : ℚ) ^ exponentOf num den := by
  unfold roundPos
  simp only []
  split
  · rename_i h
    rw [h]
    simp only [toRat]
    rw [zpow_add₀ (by norm_num : (2 : ℚ) ≠ 0)]
    push_cast
    ring
  · simp only [toRat]
    push_cast
    rfl

/-- The rounded value of a positive fraction lies between the same two powers of
two as the fraction. -/
theorem roundPos_bounds (num den : Nat) (hn : 0 < num) (hd : 0 < den) :
    (2 : ℚ) ^ (exponentOf num den + 23) ≤ toRat (roundPos num den) ∧
      toRat (roundPos num den) ≤ (2 : ℚ) ^ (exponentOf num den + 24) := by
  obtain ⟨h1, h2⟩ := significand_bounds num den hn hd
  have two0 : (2 : ℚ) ≠ 0 := by norm_num
  have hp : (0 : ℚ) < (2 : ℚ) ^ exponentOf num den := zpow_pos (by norm_num) _
  rw [toRat_roundPos, zpow_add₀ two0, zpow_add₀ two0, mul_comm _ ((2 : ℚ) ^ (23 : Int)),
    mul_comm _ ((2 : ℚ) ^ (24 : Int))]
  constructor
  · apply mul_le_mul_of_nonneg_right _ (le_of_lt hp)
    have : ((8388608 : Nat) : ℚ) ≤ _ := Nat.cast_le.mpr h1
    norm_num at this ⊢
    exact this
  · apply mul_le_mul_of_nonneg_right _ (le_of_lt hp)
    have : _ ≤ ((16777216 : Nat) : ℚ) := Nat.cast_le.mpr h2
    norm_num at this ⊢
    exact this

theorem roundPos_pos (num den : Nat) (hn : 0 < num) (hd : 0 < den) :
    0 < toRat (roundPos num den) :=
  lt_of_lt_of_le (zpow_pos (by norm_num) _) (roundPos_bounds num den hn hd).1

/-- A fraction that is at least 1 is rounded to a value that is at least 1. -/
theorem one_le_roundPos (num den : Nat) (hd : 0 < den) (h : den ≤ num) :
    1 ≤ toRat (roundPos num den) := by
  have hn : 0 < num := Nat.lt_of_lt_of_le hd h
  obtain ⟨_, hhi⟩ := exponentOf_spec num den hn hd
  have hdq : (0 : ℚ) < (den : ℚ) := by exact_mod_cast hd
  have hx : (1 : ℚ) ≤ (num : ℚ) / (den : ℚ) := by
    rw [le_div_iff₀ hdq, one_mul]
    exact_mod_cast h
  have h1 : (2 : ℚ) ^ (0 : Int) < (2 : ℚ) ^ (exponentOf num den + 24) := by
    rw [zpow_zero]
    exact lt_of_le_of_lt hx hhi
  have he : 0 < exponentOf num den + 24 :=
    (zpow_lt_zpow_iff_right₀ (by norm_num : (1 : ℚ) < 2)).mp h1
  have h2 : (2 : ℚ) ^ (0 : Int) ≤ (2 : ℚ) ^ (exponentOf num den + 23) :=
    zpow_le_zpow_right₀ (by norm_num) (by omega)
  rw [zpow_zero] at h2
  exact le_trans h2 (roundPos_bounds num den hn hd).1

/-- A positive fraction that is at most 1 is rounded to a value that is at most
1. -/
theorem roundPos_le_one (num den : Nat) (hn : 0 < num) (h : num ≤ den) :
    toRat (roundPos num den) ≤ 1 := by
  have hd : 0 < den := Nat.lt_of_lt_of_le hn h
  obtain ⟨hlo, _⟩ := exponentOf_spec num den hn hd
  have hdq : (0 : ℚ) < (den : ℚ) := by exact_mod_cast hd
  have hx : (num : ℚ) / (den : ℚ) ≤ 1 := by
    rw [div_le_iff₀ hdq, one_mul]
    exact_mod_cast h
  have h1 : (2 : ℚ) ^ (exponentOf num den + 23) ≤ (2 : ℚ) ^ (0 : Int) := by
    rw [zpow_zero]
    exact le_trans hlo hx
  have he : exponentOf num den + 23 ≤ 0 :=
    (zpow_le_zpow_iff_right₀ (by norm_num : (1 : ℚ) < 2)).mp h1
  rcases lt_or_eq_of_le he with hlt | heq
  · have h2 : (2 : ℚ) ^ (exponentOf num den + 24) ≤ (2 : ℚ) ^ (0 : Int) :=
      zpow_le_zpow_right₀ (by norm_num) (by omega)
    rw [zpow_zero] at h2
    exact le_trans (roundPos_bounds num den hn hd).2 h2
  · have hx1 : (1 : ℚ) ≤ (num : ℚ) / (den : ℚ) := by
      rw [heq, zpow_zero] at hlo
      exact hlo
    have hge : den ≤ num := by
      rw [le_div_iff₀ hdq, one_mul] at hx1
      exact_mod_cast hx1
    have hnd : num = den := Nat.le_antisymm h hge
    have hexp : exponentOf num den = -23 := by omega
    rw [toRat_roundPos, hexp, hnd]
    have hs : scaled den den (-23) = (den * 2 ^ 23, den) := by
      simp [scaled]
    rw [hs]
    simp only []
    rw [Nat.mul_comm den (2 ^ 23), roundHalfEven_mul _ _ hd]
    norm_num [zpow_neg]

/-- The conversion of a positive integer to `float` is monotone. -/
theorem roundPos_mono (a b : Nat) (ha : 0 < a) (h : a ≤ b) :
    toRat (roundPos a 1) ≤ toRat (roundPos b 1) := by
  have hb : 0 < b := Nat.lt_of_lt_of_le ha h
  obtain ⟨halo, _⟩ := exponentOf_spec a 1 ha Nat.one_pos
  obtain ⟨_, hbhi⟩ := exponentOf_spec b 1 hb Nat.one_pos
  have hab : ((a : ℚ) / ((1 : Nat) : ℚ)) ≤ ((b : ℚ) / ((1 : Nat) : ℚ)) := by
    simp only [Nat.cast_one, div_one]
    exact_mod_cast h
  have h1 : (2 : ℚ) ^ (exponentOf a 1 + 23) < (2 : ℚ) ^ (exponentOf b 1 + 24) :=
    lt_of_le_of_lt halo (lt_of_le_of_lt hab hbhi)
  have he : exponentOf a 1 + 23 < exponentOf b 1 + 24 :=
    (zpow_lt_zpow_iff_right₀ (by norm_num : (1 : ℚ) < 2)).mp h1
  rcases lt_or_eq_of_le (by omega : exponentOf a 1 ≤ exponentOf b 1) with hlt | heq
  · have h2 : (2 : ℚ) ^ (exponentOf a 1 + 24) ≤ (2 : ℚ) ^ (exponentOf b 1 + 23) :=
      zpow_le_zpow_right₀ (by norm_num) (by omega)
    exact le_trans (roundPos_bounds a 1 ha Nat.one_pos).2
      (le_trans h2 (roundPos_bounds b 1 hb Nat.one_pos).1)
  · rw [toRat_roundPos, toRat_roundPos, heq]
    apply mul_le_mul_of_nonneg_right _ (le_of_lt (zpow_pos (by norm_num) _))
    have hsnd : (scaled a 1 (exponentOf b 1)).2 = (scaled b 1 (exponentOf b 1)).2 := by
      unfold scaled
      split <;> rfl
    have hfst : (scaled a 1 (exponentOf b 1)).1 ≤ (scaled b 1 (exponentOf b 1)).1 := by
      unfold scaled
      split
      · exact h
      · exact Nat.mul_le_mul_right _ h
    rw [hsnd]
    exact_mod_cast roundHalfEven_mono _ _ _ hfst

theorem round_of_pos (num : Int) (den : Nat) (h : 0 < num) :
    round num den = roundPos num.natAbs den := by
  unfold round
  rw [if_neg (by omega), if_pos h]

theorem round_of_neg (num : Int) (den : Nat) (h : num < 0) :
    round num den = neg (roundPos num.natAbs den) := by
  unfold round
  rw [if_neg (by omega), if_neg (by omega)]

/-- Rounding keeps a fraction between 0 and 1 there, a negative fraction negative
and a fraction that is at least 1 at least 1. -/
theorem round_range (num : Int) (den : Nat) (hd : 0 < den) :
    (0 ≤ num → num ≤ (den : Int) →
      0 ≤ toRat (round num den) ∧ toRat (round num den) ≤ 1) ∧
    (num < 0 → toRat (round num den) < 0) ∧
    ((den : Int) ≤ num → 1 ≤ toRat (round num den)) := by
  refine ⟨?_, ?_, ?_⟩
  · intro h0 hle
    rcases lt_or_eq_of_le h0 with hpos | hz
    · rw [round_of_pos num den hpos]
      have hn : 0 < num.natAbs := by omega
      exact ⟨le_of_lt (roundPos_pos _ _ hn hd), roundPos_le_one _ _ hn (by omega)⟩
    · rw [← hz]
      simp [round, toRat_zero]
  · intro hneg
    rw [round_of_neg num den hneg, toRat_neg]
    have hn : 0 < num.natAbs := by omega
    have := roundPos_pos _ _ hn hd
    linarith
  · intro hle
    have hpos : 0 < num := by omega
    rw [round_of_pos num den hpos]
    exact one_le_roundPos _ _ hd (by omega)

theorem ofInt64_zero_eq : ofInt64 0 = zero := rfl

/-- A positive count converts to a value that is at least 1. -/
theorem one_le_ofInt64 (n : Int) (h : 0 < n) : 1 ≤ toRat (ofInt64 n) :=
  (round_range n 1 Nat.one_pos).2.2 (by omega)

theorem ofInt64_neg (n : Int) (h : 0 < n) : ofInt64 (-n) = neg (ofInt64 n) := by
  unfold ofInt64
  rw [round_of_neg (-n) 1 (by omega), round_of_pos n 1 h, Int.natAbs_neg]

/-- A negative count converts to a value that is at most -1. -/
theorem ofInt64_le_neg_one (n : Int) (h : n < 0) : toRat (ofInt64 n) ≤ -1 := by
  have h1 := ofInt64_neg (-n) (by omega)
  rw [neg_neg] at h1
  rw [h1, toRat_neg]
  have h2 := one_le_ofInt64 (-n) (by omega)
  linarith

/-- Only the count 0 converts to `0.0f`. -/
theorem ofInt64_eq_zero_iff (n : Int) : ofInt64 n = zero ↔ n = 0 := by
  constructor
  · intro h
    by_contra hne
    have hz : toRat (ofInt64 n) = 0 := by rw [h, toRat_zero]
    rcases lt_or_gt_of_ne hne with hneg | hpos
    · have h1 := ofInt64_le_neg_one n hneg
      linarith
    · have h1 := one_le_ofInt64 n hpos
      linarith
  · intro h
    rw [h]
    rfl

/-- A count that is not 0 converts to a value that is not zero. -/
theorem toRat_ofInt64_ne_zero (n : Int) (hn : n ≠ 0) : toRat (ofInt64 n) ≠ 0 := by
  intro h
  rcases lt_or_gt_of_ne hn with hneg | hpos
  · have h1 := ofInt64_le_neg_one n hneg
    linarith
  · have h1 := one_le_ofInt64 n hpos
    linarith

/-- The conversion of counts to `float` is monotone on the counts that are not
negative. -/
theorem ofInt64_mono_of_nonneg (a b : Int) (ha : 0 ≤ a) (h : a ≤ b) :
    toRat (ofInt64 a) ≤ toRat (ofInt64 b) := by
  rcases lt_or_eq_of_le ha with hpos | hz
  · have hb : 0 < b := by omega
    unfold ofInt64
    rw [round_of_pos a 1 hpos, round_of_pos b 1 hb]
    exact roundPos_mono _ _ (by omega) (by omega)
  · rw [← hz, ofInt64_zero_eq, toRat_zero]
    rcases lt_or_eq_of_le (le_trans ha h) with hb | hb
    · have := one_le_ofInt64 b hb
      linarith
    · rw [← hb, ofInt64_zero_eq, toRat_zero]

/-- The conversion of counts to `float` is monotone on the negative counts. -/
theorem ofInt64_mono_of_neg (a b : Int) (hb : b < 0) (h : a ≤ b) :
    toRat (ofInt64 a) ≤ toRat (ofInt64 b) := by
  have h1 := ofInt64_neg (-a) (by omega)
  have h2 := ofInt64_neg (-b) (by omega)
  rw [neg_neg] at h1 h2
  rw [h1, h2, toRat_neg, toRat_neg]
  have := ofInt64_mono_of_nonneg (-b) (-a) (by omega) (by omega)
  linarith

/-- The two integers that `div` rounds the quotient of are the values of the
operands, both multiplied by the same power of two. -/
theorem div_operand (x : Binary32) (e : Int) (he : e ≤ x.exp) :
    ((x.mant * 2 ^ (x.exp - e).toNat : Int) : ℚ) = toRat x * (2 : ℚ) ^ (-e) := by
  have h : ((2 : ℚ) ^ (x.exp - e).toNat) = (2 : ℚ) ^ (x.exp - e) := by
    rw [← zpow_natCast, Int.toNat_of_nonneg (by omega)]
  push_cast
  rw [h, toRat, mul_assoc, ← zpow_add₀ (by norm_num : (2 : ℚ) ≠ 0)]
  congr 2

/-- The quotient of a value between 0 and a positive divisor lies between 0 and
1; the quotient of a negative value and a positive divisor is negative; the
quotient of two negative values, the dividend not above the divisor, is at least
1. -/
theorem div_range (a b : Binary32) :
    (0 ≤ toRat a → toRat a ≤ toRat b → 0 < toRat b →
      0 ≤ toRat (div a b) ∧ toRat (div a b) ≤ 1) ∧
    (toRat a < 0 → 0 < toRat b → toRat (div a b) < 0) ∧
    (toRat a ≤ toRat b → toRat b < 0 → 1 ≤ toRat (div a b)) := by
  have hp : (0 : ℚ) < (2 : ℚ) ^ (-(min a.exp b.exp)) := zpow_pos (by norm_num) _
  have ha := div_operand a (min a.exp b.exp) (min_le_left _ _)
  have hb := div_operand b (min a.exp b.exp) (min_le_right _ _)
  unfold div
  simp only []
  generalize a.mant * 2 ^ (a.exp - min a.exp b.exp).toNat = num at ha ⊢
  generalize b.mant * 2 ^ (b.exp - min a.exp b.exp).toNat = den at hb ⊢
  refine ⟨?_, ?_, ?_⟩
  · intro h0 hle hbpos
    have hden : 0 < den := by
      have h : (0 : ℚ) < (den : ℚ) := by rw [hb]; exact mul_pos hbpos hp
      exact_mod_cast h
    have hn0 : 0 ≤ num := by
      have h : (0 : ℚ) ≤ (num : ℚ) := by rw [ha]; exact mul_nonneg h0 (le_of_lt hp)
      exact_mod_cast h
    have hnd : num ≤ den := by
      have h : (num : ℚ) ≤ (den : ℚ) := by
        rw [ha, hb]
        exact mul_le_mul_of_nonneg_right hle (le_of_lt hp)
      exact_mod_cast h
    rw [if_pos hden]
    exact (round_range num den.natAbs (by omega)).1 hn0 (by omega)
  · intro haneg hbpos
    have hden : 0 < den := by
      have h : (0 : ℚ) < (den : ℚ) := by rw [hb]; exact mul_pos hbpos hp
      exact_mod_cast h
    have hn0 : num < 0 := by
      have h : (num : ℚ) < 0 := by rw [ha]; exact mul_neg_of_neg_of_pos haneg hp
      exact_mod_cast h
    rw [if_pos hden]
    exact (round_range num den.natAbs (by omega)).2.1 hn0
  · intro hle hbneg
    have hden : den < 0 := by
      have h : (den : ℚ) < 0 := by rw [hb]; exact mul_neg_of_neg_of_pos hbneg hp
      exact_mod_cast h
    have hnd : num ≤ den := by
      have h : (num : ℚ) ≤ (den : ℚ) := by
        rw [ha, hb]
        exact mul_le_mul_of_nonneg_right hle (le_of_lt hp)
      exact_mod_cast h
    rw [if_neg (by omega)]
    exact (round_range (-num) den.natAbs (by omega)).2.2 (by omega)

/-- The rounded significand is at most one half away from the fraction. -/
theorem roundHalfEven_nearest (n d : Nat) (hd : 0 < d) :
    |((roundHalfEven n d : Nat) : ℚ) - (n : ℚ) / (d : ℚ)| ≤ 1 / 2 := by
  have hdq : (0 : ℚ) < (d : ℚ) := by exact_mod_cast hd
  have hdiv : (n : ℚ) = (d : ℚ) * ((n / d : Nat) : ℚ) + ((n % d : Nat) : ℚ) := by
    exact_mod_cast (Nat.div_add_mod n d).symm
  have hfrac : (n : ℚ) / (d : ℚ) = ((n / d : Nat) : ℚ) + ((n % d : Nat) : ℚ) / (d : ℚ) := by
    conv_lhs => rw [hdiv]
    rw [add_div, mul_div_cancel_left₀ _ (ne_of_gt hdq)]
  have hr0 : (0 : ℚ) ≤ ((n % d : Nat) : ℚ) / (d : ℚ) :=
    div_nonneg (Nat.cast_nonneg _) (le_of_lt hdq)
  rw [abs_le, hfrac]
  unfold roundHalfEven
  simp only []
  split
  · rename_i hc
    have h2 : d ≤ 2 * (n % d) := by
      rcases hc with h | ⟨h, _⟩ <;> omega
    have h2q : (d : ℚ) ≤ 2 * ((n % d : Nat) : ℚ) := by exact_mod_cast h2
    have hhalf : (1 : ℚ) / 2 ≤ ((n % d : Nat) : ℚ) / (d : ℚ) := by
      rw [le_div_iff₀ hdq]
      linarith
    have hlt : ((n % d : Nat) : ℚ) / (d : ℚ) < 1 := by
      rw [div_lt_one hdq]
      exact_mod_cast Nat.mod_lt n hd
    push_cast
    constructor <;> linarith
  · rename_i hc
    have h2 : 2 * (n % d) ≤ d := by
      by_contra hlt
      exact hc (Or.inl (by omega))
    have h2q : 2 * ((n % d : Nat) : ℚ) ≤ (d : ℚ) := by exact_mod_cast h2
    have hhalf : ((n % d : Nat) : ℚ) / (d : ℚ) ≤ 1 / 2 := by
      rw [div_le_iff₀ hdq]
      linarith
    constructor <;> linarith

/-- Of two nearest integers the even one is taken. -/
theorem roundHalfEven_tie (n d : Nat) (h : 2 * (n % d) = d) :
    roundHalfEven n d % 2 = 0 := by
  unfold roundHalfEven
  simp only []
  split
  · rename_i hc
    rcases hc with hc | ⟨_, hodd⟩ <;> omega
  · rename_i hc
    have : ¬ (n / d % 2 = 1) := fun hodd => hc (Or.inr ⟨h, hodd⟩)
    omega

/-- The rounded positive fraction is a normal number: its significand has 24
bits. Its exponent is the exponent of the fraction, or one more when the
significand was rounded up to `2 ^ 24`. -/
theorem roundPos_normal (num den : Nat) (hn : 0 < num) (hd : 0 < den) :
    8388608 ≤ (roundPos num den).mant ∧ (roundPos num den).mant < 16777216 ∧
      exponentOf num den ≤ (roundPos num den).exp ∧
      (roundPos num den).exp ≤ exponentOf num den + 1 := by
  obtain ⟨h1, h2⟩ := significand_bounds num den hn hd
  unfold roundPos
  simp only []
  split
  · simp
  · rename_i hne
    simp only []
    omega

/-- The rounded positive fraction is at most half a unit in the last place away
from the fraction. -/
theorem roundPos_nearest (num den : Nat) (hn : 0 < num) (hd : 0 < den) :
    |toRat (roundPos num den) - (num : ℚ) / (den : ℚ)| ≤
      (2 : ℚ) ^ (roundPos num den).exp / 2 := by
  have hp : (0 : ℚ) < (2 : ℚ) ^ exponentOf num den := zpow_pos (by norm_num) _
  have hs := scaled_ratio num den (exponentOf num den) hd
  have hx : (num : ℚ) / (den : ℚ) =
      ((scaled num den (exponentOf num den)).1 : ℚ) /
        ((scaled num den (exponentOf num den)).2 : ℚ) * (2 : ℚ) ^ exponentOf num den := by
    rw [hs, div_mul_cancel₀ _ (ne_of_gt hp)]
  have hnear := roundHalfEven_nearest (scaled num den (exponentOf num den)).1
    (scaled num den (exponentOf num den)).2 (scaled_snd_pos num den _ hd)
  have hle : (2 : ℚ) ^ exponentOf num den ≤ (2 : ℚ) ^ (roundPos num den).exp :=
    zpow_le_zpow_right₀ (by norm_num) (roundPos_normal num den hn hd).2.2.1
  rw [toRat_roundPos, hx, ← sub_mul, abs_mul, abs_of_pos hp]
  calc _ ≤ 1 / 2 * (2 : ℚ) ^ exponentOf num den :=
        mul_le_mul_of_nonneg_right hnear (le_of_lt hp)
    _ ≤ (2 : ℚ) ^ (roundPos num den).exp / 2 := by linarith

/-- The rounded fraction is zero, or a normal number with a significand of 24
bits. -/
theorem round_normal (num : Int) (den : Nat) (hd : 0 < den) :
    (num = 0 ∧ round num den = zero) ∨
      (num ≠ 0 ∧ 8388608 ≤ (round num den).mant.natAbs ∧
        (round num den).mant.natAbs < 16777216 ∧
        exponentOf num.natAbs den ≤ (round num den).exp ∧
        (round num den).exp ≤ exponentOf num.natAbs den + 1) := by
  by_cases h0 : num = 0
  · left
    exact ⟨h0, by simp [round, h0]⟩
  · right
    have hn : 0 < num.natAbs := by omega
    obtain ⟨h1, h2, h3, h4⟩ := roundPos_normal num.natAbs den hn hd
    rcases lt_or_gt_of_ne h0 with hneg | hpos
    · rw [round_of_neg num den hneg]
      simp only [neg]
      exact ⟨h0, by omega, by omega, h3, h4⟩
    · rw [round_of_pos num den hpos]
      exact ⟨h0, by omega, by omega, h3, h4⟩

/-- The rounded fraction is at most half a unit in the last place away from the
fraction. -/
theorem round_nearest (num : Int) (den : Nat) (hd : 0 < den) :
    |toRat (round num den) - (num : ℚ) / (den : ℚ)| ≤ (2 : ℚ) ^ (round num den).exp / 2 := by
  by_cases h0 : num = 0
  · have hz : round num den = zero := by simp [round, h0]
    rw [hz, toRat_zero, h0]
    simp [zero]
  · have hn : 0 < num.natAbs := by omega
    have hnear := roundPos_nearest num.natAbs den hn hd
    rcases lt_or_gt_of_ne h0 with hneg | hpos
    · rw [round_of_neg num den hneg, toRat_neg]
      have hc : (num : ℚ) = -((num.natAbs : Nat) : ℚ) := by
        rw [Nat.cast_natAbs, abs_of_neg hneg]
        push_cast
        ring
      rw [hc, neg_div, ← neg_sub', abs_neg]
      exact hnear
    · rw [round_of_pos num den hpos]
      have hc : (num : ℚ) = ((num.natAbs : Nat) : ℚ) := by
        rw [Nat.cast_natAbs, abs_of_pos hpos]
      rw [hc]
      exact hnear

/-- The converted count is at most half a unit in the last place away from the
count. -/
theorem ofInt64_nearest (n : Int) :
    |toRat (ofInt64 n) - (n : ℚ)| ≤ (2 : ℚ) ^ (ofInt64 n).exp / 2 := by
  have h := round_nearest n 1 Nat.one_pos
  simpa [ofInt64] using h

/-- The quotient computed by `div` is at most half a unit in the last place away
from the quotient of the two values. -/
theorem div_nearest (a b : Binary32) (hb : toRat b ≠ 0) :
    |toRat (div a b) - toRat a / toRat b| ≤ (2 : ℚ) ^ (div a b).exp / 2 := by
  have hp : (0 : ℚ) < (2 : ℚ) ^ (-(min a.exp b.exp)) := zpow_pos (by norm_num) _
  have ha := div_operand a (min a.exp b.exp) (min_le_left _ _)
  have hbo := div_operand b (min a.exp b.exp) (min_le_right _ _)
  have hq : toRat a / toRat b =
      ((a.mant * 2 ^ (a.exp - min a.exp b.exp).toNat : Int) : ℚ) /
        ((b.mant * 2 ^ (b.exp - min a.exp b.exp).toNat : Int) : ℚ) := by
    rw [ha, hbo, mul_div_mul_right _ _ (ne_of_gt hp)]
  rw [hq]
  have hden0 : ((b.mant * 2 ^ (b.exp - min a.exp b.exp).toNat : Int) : ℚ) ≠ 0 := by
    rw [hbo]
    exact mul_ne_zero hb (ne_of_gt hp)
  unfold div
  simp only []
  generalize a.mant * 2 ^ (a.exp - min a.exp b.exp).toNat = num at hden0 ⊢
  generalize b.mant * 2 ^ (b.exp - min a.exp b.exp).toNat = den at hden0 ⊢
  have hd0 : den ≠ 0 := by exact_mod_cast hden0
  split
  · rename_i hpos
    have h := round_nearest num den.natAbs (by omega)
    have hc : ((den.natAbs : Nat) : ℚ) = (den : ℚ) := by
      rw [Nat.cast_natAbs, abs_of_pos hpos]
    rw [hc] at h
    exact h
  · rename_i hpos
    have h := round_nearest (-num) den.natAbs (by omega)
    have hc : ((den.natAbs : Nat) : ℚ) = -(den : ℚ) := by
      rw [Nat.cast_natAbs, abs_of_neg (by omega : den < 0)]
      push_cast
      ring
    rw [hc] at h
    push_cast at h
    rw [neg_div_neg_eq] at h
    exact h

/-- The exponent of a rounded fraction that lies between two powers of two. -/
theorem round_exp_bounds (num : Int) (den : Nat) (hd : 0 < den) (h0 : num ≠ 0)
    (lo hi : Int) (hlo : (2 : ℚ) ^ lo ≤ ((num.natAbs : Nat) : ℚ) / (den : ℚ))
    (hhi : ((num.natAbs : Nat) : ℚ) / (den : ℚ) ≤ (2 : ℚ) ^ hi) :
    8388608 ≤ (round num den).mant.natAbs ∧ (round num den).mant.natAbs < 16777216 ∧
      lo - 23 ≤ (round num den).exp ∧ (round num den).exp ≤ hi - 22 := by
  have hn : 0 < num.natAbs := by omega
  obtain ⟨h1, h2⟩ := exponentOf_spec num.natAbs den hn hd
  have he1 : exponentOf num.natAbs den + 23 ≤ hi :=
    (zpow_le_zpow_iff_right₀ (by norm_num : (1 : ℚ) < 2)).mp (le_trans h1 hhi)
  have he2 : lo < exponentOf num.natAbs den + 24 :=
    (zpow_lt_zpow_iff_right₀ (by norm_num : (1 : ℚ) < 2)).mp (lt_of_le_of_lt hlo h2)
  rcases round_normal num den hd with ⟨hz, _⟩ | ⟨_, h3, h4, h5, h6⟩
  · exact absurd hz h0
  · exact ⟨h3, h4, by omega, by omega⟩

/-- The conversion of a 64-bit count that is not 0 is a normal number of
magnitude 1 to `2 ^ 63`. -/
theorem ofInt64_normal (n : Int) (hn : n ≠ 0) (hlo : -9223372036854775808 ≤ n)
    (hhi : n ≤ 9223372036854775808) :
    8388608 ≤ (ofInt64 n).mant.natAbs ∧ (ofInt64 n).mant.natAbs < 16777216 ∧
      -23 ≤ (ofInt64 n).exp ∧ (ofInt64 n).exp ≤ 41 ∧
      1 ≤ |toRat (ofInt64 n)| ∧ |toRat (ofInt64 n)| ≤ (2 : ℚ) ^ (63 : Int) := by
  have habs : (1 : ℚ) ≤ ((n.natAbs : Nat) : ℚ) ∧
      ((n.natAbs : Nat) : ℚ) ≤ (2 : ℚ) ^ (63 : Int) := by
    constructor
    · exact_mod_cast (by omega : 1 ≤ n.natAbs)
    · have h : n.natAbs ≤ 9223372036854775808 := by omega
      have hq : ((n.natAbs : Nat) : ℚ) ≤ ((9223372036854775808 : Nat) : ℚ) :=
        Nat.cast_le.mpr h
      norm_num at hq ⊢
      exact hq
  obtain ⟨h1, h2, h3', h4'⟩ := round_exp_bounds n 1 Nat.one_pos hn 0 63
    (by simpa using habs.1) (by simpa using habs.2)
  have hmax : toRat (ofInt64 9223372036854775808) = (2 : ℚ) ^ (63 : Int) := by
    have h : ofInt64 9223372036854775808 = { mant := 8388608, exp := 40 } := by decide
    rw [h]
    norm_num [toRat]
  have h3 : -23 ≤ (ofInt64 n).exp := by
    show -23 ≤ (round n 1).exp
    omega
  have h4 : (ofInt64 n).exp ≤ 41 := by
    show (round n 1).exp ≤ 41
    omega
  refine ⟨h1, h2, h3, h4, ?_⟩
  rcases lt_or_gt_of_ne hn with hneg | hpos
  · have hlow := ofInt64_le_neg_one n hneg
    have hup := ofInt64_mono_of_nonneg (-n) 9223372036854775808 (by omega) (by omega)
    have hnn := ofInt64_neg (-n) (by omega)
    rw [neg_neg] at hnn
    rw [hnn, toRat_neg] at hlow ⊢
    rw [abs_neg, abs_of_pos (by linarith)]
    exact ⟨by linarith, by rw [← hmax]; exact hup⟩
  · have hlow := one_le_ofInt64 n hpos
    have hup := ofInt64_mono_of_nonneg n 9223372036854775808 (by omega) hhi
    rw [abs_of_pos (by linarith)]
    exact ⟨hlow, by rw [← hmax]; exact hup⟩

/-- The quotient of two values whose ratio lies between two powers of two is a
normal number; its exponent is bounded by the exponents of the two powers. -/
theorem div_normal (a b : Binary32) (ha : toRat a ≠ 0) (hb : toRat b ≠ 0) (lo hi : Int)
    (hlo : (2 : ℚ) ^ lo ≤ |toRat a| / |toRat b|)
    (hhi : |toRat a| / |toRat b| ≤ (2 : ℚ) ^ hi) :
    8388608 ≤ (div a b).mant.natAbs ∧ (div a b).mant.natAbs < 16777216 ∧
      lo - 23 ≤ (div a b).exp ∧ (div a b).exp ≤ hi - 22 := by
  have hp : (0 : ℚ) < (2 : ℚ) ^ (-(min a.exp b.exp)) := zpow_pos (by norm_num) _
  have hao := div_operand a (min a.exp b.exp) (min_le_left _ _)
  have hbo := div_operand b (min a.exp b.exp) (min_le_right _ _)
  have hq : |toRat a| / |toRat b| =
      |((a.mant * 2 ^ (a.exp - min a.exp b.exp).toNat : Int) : ℚ)| /
        |((b.mant * 2 ^ (b.exp - min a.exp b.exp).toNat : Int) : ℚ)| := by
    rw [hao, hbo, abs_mul, abs_mul, mul_div_mul_right _ _ (ne_of_gt (abs_pos.mpr (ne_of_gt hp)))]
  rw [hq] at hlo hhi
  have hnum0 : ((a.mant * 2 ^ (a.exp - min a.exp b.exp).toNat : Int) : ℚ) ≠ 0 := by
    rw [hao]
    exact mul_ne_zero ha (ne_of_gt hp)
  have hden0 : ((b.mant * 2 ^ (b.exp - min a.exp b.exp).toNat : Int) : ℚ) ≠ 0 := by
    rw [hbo]
    exact mul_ne_zero hb (ne_of_gt hp)
  unfold div
  simp only []
  generalize a.mant * 2 ^ (a.exp - min a.exp b.exp).toNat = num at hnum0 hlo hhi ⊢
  generalize b.mant * 2 ^ (b.exp - min a.exp b.exp).toNat = den at hden0 hlo hhi ⊢
  have hn0 : num ≠ 0 := by exact_mod_cast hnum0
  have hd0 : den ≠ 0 := by exact_mod_cast hden0
  have hcn : ((num.natAbs : Nat) : ℚ) = |(num : ℚ)| := by
    rw [Nat.cast_natAbs]
    push_cast
    rfl
  have hcd : ((den.natAbs : Nat) : ℚ) = |(den : ℚ)| := by
    rw [Nat.cast_natAbs]
    push_cast
    rfl
  split
  · exact round_exp_bounds num den.natAbs (by omega) hn0 lo hi (by rw [hcn, hcd]; exact hlo)
      (by rw [hcn, hcd]; exact hhi)
  · exact round_exp_bounds (-num) den.natAbs (by omega) (by omega) lo hi
      (by rw [Int.natAbs_neg, hcn, hcd]; exact hlo)
      (by rw [Int.natAbs_neg, hcn, hcd]; exact hhi)

/-- The values computed by the interpolation code are normal numbers of binary32:
for two 64-bit counts that are not 0, the two converted counts and their
quotient have a significand of 24 bits and an exponent inside the range of
binary32 (from -149 to 104 for a significand scaled to an integer). -/
theorem div_ofInt64_normal (s r : Int) (hs : s ≠ 0) (hr : r ≠ 0)
    (hslo : -9223372036854775808 ≤ s) (hshi : s ≤ 9223372036854775807)
    (hrlo : -9223372036854775808 ≤ r) (hrhi : r ≤ 9223372036854775807) :
    (8388608 ≤ (ofInt64 s).mant.natAbs ∧ (ofInt64 s).mant.natAbs < 16777216 ∧
      -149 ≤ (ofInt64 s).exp ∧ (ofInt64 s).exp ≤ 104) ∧
    (8388608 ≤ (ofInt64 r).mant.natAbs ∧ (ofInt64 r).mant.natAbs < 16777216 ∧
      -149 ≤ (ofInt64 r).exp ∧ (ofInt64 r).exp ≤ 104) ∧
    (8388608 ≤ (div (ofInt64 s) (ofInt64 r)).mant.natAbs ∧
      (div (ofInt64 s) (ofInt64 r)).mant.natAbs < 16777216 ∧
      -149 ≤ (div (ofInt64 s) (ofInt64 r)).exp ∧
      (div (ofInt64 s) (ofInt64 r)).exp ≤ 104) := by
  obtain ⟨s1, s2, s3, s4, s5, s6⟩ := ofInt64_normal s hs hslo (by omega)
  obtain ⟨r1, r2, r3, r4, r5, r6⟩ := ofInt64_normal r hr hrlo (by omega)
  have hsa : toRat (ofInt64 s) ≠ 0 := fun h => by
    rw [h, abs_zero] at s5
    linarith
  have hra : toRat (ofInt64 r) ≠ 0 := fun h => by
    rw [h, abs_zero] at r5
    linarith
  have hrpos : (0 : ℚ) < |toRat (ofInt64 r)| := by linarith
  have h63 : (0 : ℚ) < (2 : ℚ) ^ (63 : Int) := zpow_pos (by norm_num) _
  have hlo : (2 : ℚ) ^ (-63 : Int) ≤ |toRat (ofInt64 s)| / |toRat (ofInt64 r)| := by
    rw [zpow_neg, le_div_iff₀ hrpos, inv_mul_le_iff₀ h63]
    calc |toRat (ofInt64 r)| ≤ (2 : ℚ) ^ (63 : Int) := r6
      _ = (2 : ℚ) ^ (63 : Int) * 1 := (mul_one _).symm
      _ ≤ (2 : ℚ) ^ (63 : Int) * |toRat (ofInt64 s)| :=
        mul_le_mul_of_nonneg_left s5 (le_of_lt h63)
  have hhi : |toRat (ofInt64 s)| / |toRat (ofInt64 r)| ≤ (2 : ℚ) ^ (63 : Int) := by
    rw [div_le_iff₀ hrpos]
    calc |toRat (ofInt64 s)| ≤ (2 : ℚ) ^ (63 : Int) := s6
      _ = (2 : ℚ) ^ (63 : Int) * 1 := (mul_one _).symm
      _ ≤ (2 : ℚ) ^ (63 : Int) * |toRat (ofInt64 r)| :=
        mul_le_mul_of_nonneg_left r5 (le_of_lt h63)
  obtain ⟨d1, d2, d3, d4⟩ := div_normal _ _ hsa hra (-63) 63 hlo hhi
  exact ⟨⟨s1, s2, by omega, by omega⟩, ⟨r1, r2, by omega, by omega⟩,
    ⟨d1, d2, by omega, by omega⟩⟩

/-- The quotient of two values that are not zero has a significand of 24 bits. -/
theorem div_mant_normal (a b : Binary32) (ha : toRat a ≠ 0) (hb : toRat b ≠ 0) :
    8388608 ≤ (div a b).mant.natAbs ∧ (div a b).mant.natAbs < 16777216 := by
  have hx : (0 : ℚ) < |toRat a| / |toRat b| := div_pos (abs_pos.mpr ha) (abs_pos.mpr hb)
  have hlo := Int.zpow_log_le_self (by norm_num : 1 < 2) hx
  have hhi := le_of_lt (Int.lt_zpow_succ_log_self (by norm_num : 1 < 2) (|toRat a| / |toRat b|))
  have h := div_normal a b ha hb _ _ (by exact_mod_cast hlo) (by exact_mod_cast hhi)
  exact ⟨h.1, h.2.1⟩

/-- Sample roundings: 16777217 and 16777219 lie halfway between two `float`
values and go to the one with the even significand (16777216 and 16777220); one
third is rounded up in the last place. -/
theorem rounding_samples :
    ofInt64 16777217 = { mant := 8388608, exp := 1 } ∧
    ofInt64 16777219 = { mant := 8388610, exp := 1 } ∧
    ofInt64 (-16777219) = { mant := -8388610, exp := 1 } ∧
    div (ofInt64 1) (ofInt64 3) = { mant := 11184811, exp := -25 } ∧
    div (ofInt64 1) (ofInt64 (-10)) = { mant := -13421773, exp := -27 } := by
  decide

end Binary32

end cpp

/-! ### Range of the interpolation phase -/

namespace DZSimApplication

open sim

theorem ratio_range (x y : ℚ) (hxy : x < y) (hy : y ≠ 0) :
    ((0 ≤ x / y ∧ x / y < 1) ↔ 0 ≤ x) ∧ (x < 0 → x / y < 0 ∨ 1 < x / y) := by
  have hout : x < 0 → x / y < 0 ∨ 1 < x / y := by
    intro hx
    rcases lt_or_gt_of_ne hy with hneg | hpos
    · right
      rw [one_lt_div_of_neg hneg]
      exact hxy
    · left
      exact div_neg_of_neg_of_pos hx hpos
  refine ⟨⟨?_, ?_⟩, hout⟩
  · rintro ⟨h0, h1⟩
    by_contra hx
    rcases hout (not_le.mp hx) with h | h
    · exact absurd h0 (not_le.mpr h)
    · exact absurd h1 (not_lt.mpr (le_of_lt h))
  · intro hx
    have hpos : 0 < y := lt_of_le_of_lt hx hxy
    exact ⟨div_nonneg hx (le_of_lt hpos), (div_lt_one hpos).mpr hxy⟩

theorem toNanoseconds_of_dvd (ticksPerMicrosecond m d : Int) (hticks : 0 < ticksPerMicrosecond)
    (hm : 1000 = ticksPerMicrosecond * m) :
    Clock.toNanoseconds ticksPerMicrosecond d = d * m := by
  unfold Clock.toNanoseconds
  rw [hm, show d * (ticksPerMicrosecond * m) = ticksPerMicrosecond * (d * m) by ring]
  exact Int.mul_tdiv_cancel_left _ (ne_of_gt hticks)

/-- C14 (amended): the range of the unclamped interpolation phase in `float`
arithmetic, for a clock whose tick is a whole number of nanoseconds. After a
finished prediction the predicted time is after `currentTime`. If it equals the
time of the previous client state, no quotient is evaluated. Otherwise the exact
ratio `(currentTime - previous.time) / (predicted.time - previous.time)` satisfies
`0 <= ratio < 1` if and only if the previous client state's time is not after
`currentTime`, and lies outside `[0, 1]` otherwise. The phase passed to
`Interpolate` is not this ratio but the `float` quotient of the two nanosecond
counts converted to `float`; no clamp is applied. It satisfies `0 <= phase <= 1`
if the previous client state's time is not after `currentTime`, and
`phase < 0` or `1 <= phase` if it is after `currentTime`. Each of the three
`float` values is a nearest one: it differs from the number it rounds by at most
half a unit in the last place of its 24-bit significand. -/
theorem interpolation_phase_range_rounded {D E : Type} (dops : DoubleOps D)
    (ticksPerMicrosecond : Int)
    (DoTimeStep : WorldState E → D → List (PlayerInputState cpp.Binary32) → WorldState E)
    (Interpolate : WorldState E → WorldState E → cpp.Binary32 → WorldState E)
    (serverTickRate serverSimTimeScale : D)
    (currentServerWorldState : WorldState E)
    (prevGameInputs : List (PlayerInputState cpp.Binary32))
    (currentClientWorldState : WorldState E) (currentTime : Int) (fuel : Nat)
    (out : InterpolationOutcome cpp.Binary32 E)
    (hticks : 0 < ticksPerMicrosecond) (hdvd : ticksPerMicrosecond ∣ 1000)
    (hrun : predictAndInterpolate dops binary32Ops ticksPerMicrosecond DoTimeStep Interpolate
      serverTickRate serverSimTimeScale currentServerWorldState prevGameInputs
      currentClientWorldState currentTime fuel = some out) :
    ∃ final : PredictionState D E,
      predict dops ticksPerMicrosecond DoTimeStep serverTickRate serverSimTimeScale
        currentServerWorldState prevGameInputs currentTime fuel = some final ∧
      currentTime < final.predictedWorldState.time ∧
      (final.predictedWorldState.time = currentClientWorldState.time →
        out.quotient = none) ∧
      (final.predictedWorldState.time ≠ currentClientWorldState.time →
        ∃ a b : cpp.Binary32, out.quotient = some (a, b) ∧
          a = cpp.Binary32.ofInt64 (Clock.toNanoseconds ticksPerMicrosecond
            (currentTime - currentClientWorldState.time)) ∧
          b = cpp.Binary32.ofInt64 (Clock.toNanoseconds ticksPerMicrosecond
            (final.predictedWorldState.time - currentClientWorldState.time)) ∧
          out.currentClientWorldState =
            Interpolate currentClientWorldState final.predictedWorldState
              (cpp.Binary32.div a b) ∧
          ((0 ≤ ((currentTime - currentClientWorldState.time : Int) : ℚ) /
                ((final.predictedWorldState.time - currentClientWorldState.time : Int) : ℚ) ∧
              ((currentTime - currentClientWorldState.time : Int) : ℚ) /
                ((final.predictedWorldState.time - currentClientWorldState.time : Int) : ℚ)
                < 1) ↔ currentClientWorldState.time ≤ currentTime) ∧
          (currentTime < currentClientWorldState.time →
            ((currentTime - currentClientWorldState.time : Int) : ℚ) /
                ((final.predictedWorldState.time - currentClientWorldState.time : Int) : ℚ)
                < 0 ∨
              1 < ((currentTime - currentClientWorldState.time : Int) : ℚ) /
                ((final.predictedWorldState.time - currentClientWorldState.time : Int) : ℚ)) ∧
          (currentClientWorldState.time ≤ currentTime →
            0 ≤ (cpp.Binary32.div a b).toRat ∧ (cpp.Binary32.div a b).toRat ≤ 1) ∧
          (currentTime < currentClientWorldState.time →
            (cpp.Binary32.div a b).toRat < 0 ∨ 1 ≤ (cpp.Binary32.div a b).toRat) ∧
          |a.toRat - ((Clock.toNanoseconds ticksPerMicrosecond
              (currentTime - currentClientWorldState.time) : Int) : ℚ)| ≤
            (2 : ℚ) ^ a.exp / 2 ∧
          |b.toRat - ((Clock.toNanoseconds ticksPerMicrosecond
              (final.predictedWorldState.time - currentClientWorldState.time) : Int) : ℚ)| ≤
            (2 : ℚ) ^ b.exp / 2 ∧
          |(cpp.Binary32.div a b).toRat - a.toRat / b.toRat| ≤
            (2 : ℚ) ^ (cpp.Binary32.div a b).exp / 2 ∧
          (8388608 ≤ b.mant.natAbs ∧ b.mant.natAbs < 16777216) ∧
          (currentTime ≠ currentClientWorldState.time →
            (8388608 ≤ a.mant.natAbs ∧ a.mant.natAbs < 16777216) ∧
            (8388608 ≤ (cpp.Binary32.div a b).mant.natAbs ∧
              (cpp.Binary32.div a b).mant.natAbs < 16777216))) := by
  unfold predictAndInterpolate at hrun
  cases hp : predict dops ticksPerMicrosecond DoTimeStep serverTickRate serverSimTimeScale
      currentServerWorldState prevGameInputs currentTime fuel with
  | none => rw [hp] at hrun; cases hrun
  | some final =>
    rw [hp] at hrun
    simp only [Option.some.injEq] at hrun
    have hgt : currentTime < final.predictedWorldState.time :=
      (predictionLoop_timesInv DoTimeStep _ _ prevGameInputs currentTime
        currentServerWorldState fuel final hp).2
    obtain ⟨m, hm⟩ := hdvd
    have hmpos : 0 < m := by
      by_contra hneg
      have : ticksPerMicrosecond * m ≤ 0 :=
        mul_nonpos_of_nonneg_of_nonpos (le_of_lt hticks) (not_lt.mp hneg)
      omega
    refine ⟨final, rfl, hgt, ?_, ?_⟩
    · intro heq
      rw [← hrun]
      simp only [interpolateClientWorldState, heq, sub_self,
        toNanoseconds_of_dvd _ m _ hticks hm, zero_mul, binary32Ops]
      rfl
    · intro hne
      have hd2 : final.predictedWorldState.time - currentClientWorldState.time ≠ 0 :=
        sub_ne_zero.mpr hne
      have hd2q : ((final.predictedWorldState.time - currentClientWorldState.time : Int) : ℚ)
          ≠ 0 := by exact_mod_cast hd2
      have hr0 : (final.predictedWorldState.time - currentClientWorldState.time) * m ≠ 0 :=
        mul_ne_zero hd2 (ne_of_gt hmpos)
      have hsr : (currentTime - currentClientWorldState.time) * m <
          (final.predictedWorldState.time - currentClientWorldState.time) * m :=
        Int.mul_lt_mul_of_pos_right (by omega) hmpos
      have hguard : ¬ (cpp.Binary32.ofInt64
          ((final.predictedWorldState.time - currentClientWorldState.time) * m) =
            cpp.Binary32.zero) :=
        fun h => hr0 ((cpp.Binary32.ofInt64_eq_zero_iff _).mp h)
      have hxy : ((currentTime - currentClientWorldState.time : Int) : ℚ) <
          ((final.predictedWorldState.time - currentClientWorldState.time : Int) : ℚ) := by
        exact_mod_cast (by omega :
          currentTime - currentClientWorldState.time <
            final.predictedWorldState.time - currentClientWorldState.time)
      obtain ⟨hiff, hout⟩ := ratio_range _ _ hxy hd2q
      refine ⟨cpp.Binary32.ofInt64 (Clock.toNanoseconds ticksPerMicrosecond
          (currentTime - currentClientWorldState.time)),
        cpp.Binary32.ofInt64 (Clock.toNanoseconds ticksPerMicrosecond
          (final.predictedWorldState.time - currentClientWorldState.time)),
        ?_, rfl, rfl, ?_, ?_, ?_, ?_, ?_, cpp.Binary32.ofInt64_nearest _,
        cpp.Binary32.ofInt64_nearest _, ?_, ?_, ?_⟩
      · rw [← hrun]
        simp only [interpolateClientWorldState, toNanoseconds_of_dvd _ m _ hticks hm,
          binary32Ops, decide_eq_true_eq, hguard, if_false]
      · rw [← hrun]
        simp only [interpolateClientWorldState, toNanoseconds_of_dvd _ m _ hticks hm,
          binary32Ops, decide_eq_true_eq, hguard, if_false]
      · rw [hiff]
        constructor
        · intro h
          have h' : (0 : Int) ≤ currentTime - currentClientWorldState.time := by
            exact_mod_cast h
          omega
        · intro h
          exact_mod_cast (by omega : (0 : Int) ≤ currentTime - currentClientWorldState.time)
      · intro hlt
        apply hout
        exact_mod_cast (by omega : currentTime - currentClientWorldState.time < (0 : Int))
      · intro hle
        rw [toNanoseconds_of_dvd _ m _ hticks hm, toNanoseconds_of_dvd _ m _ hticks hm]
        have hs0 : 0 ≤ (currentTime - currentClientWorldState.time) * m :=
          Int.mul_nonneg (by omega) (le_of_lt hmpos)
        have hA0 := cpp.Binary32.ofInt64_mono_of_nonneg 0 _ (le_refl 0) hs0
        rw [cpp.Binary32.ofInt64_zero_eq, cpp.Binary32.toRat_zero] at hA0
        have hAB := cpp.Binary32.ofInt64_mono_of_nonneg _ _ hs0 (le_of_lt hsr)
        have hB := cpp.Binary32.one_le_ofInt64 _ (lt_of_le_of_lt hs0 hsr)
        exact (cpp.Binary32.div_range _ _).1 hA0 hAB (by linarith)
      · intro hlt
        rw [toNanoseconds_of_dvd _ m _ hticks hm, toNanoseconds_of_dvd _ m _ hticks hm]
        have hs0 : (currentTime - currentClientWorldState.time) * m < 0 :=
          Int.mul_neg_of_neg_of_pos (by omega) hmpos
        have hA := cpp.Binary32.ofInt64_le_neg_one _ hs0
        rcases lt_or_gt_of_ne hr0 with hrneg | hrpos
        · right
          have hAB := cpp.Binary32.ofInt64_mono_of_neg _ _ hrneg (le_of_lt hsr)
          have hB := cpp.Binary32.ofInt64_le_neg_one _ hrneg
          exact (cpp.Binary32.div_range _ _).2.2 hAB (by linarith)
        · left
          have hB := cpp.Binary32.one_le_ofInt64 _ hrpos
          exact (cpp.Binary32.div_range _ _).2.1 (by linarith) (by linarith)
      · apply cpp.Binary32.div_nearest
        rw [toNanoseconds_of_dvd _ m _ hticks hm]
        exact cpp.Binary32.toRat_ofInt64_ne_zero _ hr0
      · rw [toNanoseconds_of_dvd _ m _ hticks hm]
        rcases cpp.Binary32.round_normal
            ((final.predictedWorldState.time - currentClientWorldState.time) * m) 1
            Nat.one_pos with ⟨hz, _⟩ | ⟨_, h1, h2, _, _⟩
        · exact absurd hz hr0
        · exact ⟨h1, h2⟩
      · intro hnow
        rw [toNanoseconds_of_dvd _ m _ hticks hm, toNanoseconds_of_dvd _ m _ hticks hm]
        have hs0 : (currentTime - currentClientWorldState.time) * m ≠ 0 :=
          mul_ne_zero (sub_ne_zero.mpr hnow) (ne_of_gt hmpos)
        constructor
        · rcases cpp.Binary32.round_normal
              ((currentTime - currentClientWorldState.time) * m) 1
              Nat.one_pos with ⟨hz, _⟩ | ⟨_, h1, h2, _, _⟩
          · exact absurd hz hs0
          · exact ⟨h1, h2⟩
        · exact cpp.Binary32.div_mant_normal _ _
            (cpp.Binary32.toRat_ofInt64_ne_zero _ hs0)
            (cpp.Binary32.toRat_ofInt64_ne_zero _ hr0)

/-- Witness for C14: from the sample client state of time 12000, which is not after
the current time 16000, towards the predicted state of time 20000, a quotient
is evaluated and the phase, the `float` 0.5, lies in `[0, 1]`. -/
theorem interpolation_phase_range_rounded_witness :
    ∃ a b : cpp.Binary32,
      (interpolateClientWorldState binary32Ops 1 Examples.pickNearerFloat
        Examples.clientWorldState Examples.predicted.predictedWorldState 16000).quotient
          = some (a, b) ∧
      cpp.Binary32.div a b = { mant := 8388608, exp := -24 } ∧
      0 ≤ (cpp.Binary32.div a b).toRat ∧ (cpp.Binary32.div a b).toRat ≤ 1 := by
  obtain ⟨final, hfinal, _, _, h⟩ := interpolation_phase_range_rounded
    Examples.fractionDoubleOps 1
    Examples.countFloatInputs Examples.pickNearerFloat (100, 1) (2, 1)
    Examples.serverWorldState Examples.floatInputs Examples.clientWorldState 16000 5
    (interpolateClientWorldState binary32Ops 1 Examples.pickNearerFloat
      Examples.clientWorldState Examples.predicted.predictedWorldState 16000)
    (by decide) (one_dvd _) rfl
  have h2 : predict Examples.fractionDoubleOps 1 Examples.countFloatInputs (100, 1) (2, 1)
      Examples.serverWorldState Examples.floatInputs 16000 5 = some Examples.predicted := rfl
  rw [h2] at hfinal
  have e : final = Examples.predicted := (Option.some.inj hfinal).symm
  subst e
  obtain ⟨a, b, hq, ha, hb, _, _, _, hin, _⟩ := h (by decide)
  refine ⟨a, b, hq, ?_, hin (by decide)⟩
  rw [ha, hb]
  decide

/-- Counterexample to C14 as stated, on a clock that ticks once per nanosecond.
First run: the previous client state (time 1000050000001) is after the current
time 1000000000000 and the predicted state (time 1000000000001) is just after it;
both nanosecond counts, -50000001 and -50000000, convert to the same `float`,
-50000000, so the phase passed to `Interpolate` is `1.0f`, inside `[0, 1]`. Second run: the previous client state (time 0) is before the current
time 20000000 and the predicted time is 20000001; both counts convert to the
`float` 20000000 and the phase passed to `Interpolate` is `1.0f`, not below 1. -/
theorem interpolation_phase_range_counterexample :
    ((1000000000000 : Int) < (Examples.stateAt 1000050000001).time ∧
      (1000000000000 : Int) < (Examples.stateAt 1000000000001).time ∧
      (interpolateClientWorldState binary32Ops 1000 Examples.recordPhase
        (Examples.stateAt 1000050000001) (Examples.stateAt 1000000000001)
        1000000000000).quotient =
          some ({ mant := -12500000, exp := 2 }, { mant := -12500000, exp := 2 }) ∧
      (interpolateClientWorldState binary32Ops 1000 Examples.recordPhase
        (Examples.stateAt 1000050000001) (Examples.stateAt 1000000000001)
        1000000000000).currentClientWorldState.entities = cpp.Binary32.one ∧
      ¬ (cpp.Binary32.one.toRat < 0 ∨ 1 < cpp.Binary32.one.toRat)) ∧
    ((Examples.stateAt 0).time ≤ (20000000 : Int) ∧
      (20000000 : Int) < (Examples.stateAt 20000001).time ∧
      (interpolateClientWorldState binary32Ops 1000 Examples.recordPhase
        (Examples.stateAt 0) (Examples.stateAt 20000001)
        20000000).quotient =
          some ({ mant := 10000000, exp := 1 }, { mant := 10000000, exp := 1 }) ∧
      (interpolateClientWorldState binary32Ops 1000 Examples.recordPhase
        (Examples.stateAt 0) (Examples.stateAt 20000001)
        20000000).currentClientWorldState.entities = cpp.Binary32.one ∧
      ¬ (0 ≤ cpp.Binary32.one.toRat ∧ cpp.Binary32.one.toRat < 1)) := by
  refine ⟨⟨by decide, by decide, by decide, by decide, ?_⟩,
    ⟨by decide, by decide, by decide, by decide, ?_⟩⟩
  · rw [cpp.Binary32.toRat_one]
    norm_num
  · rw [cpp.Binary32.toRat_one]
    norm_num

end DZSimApplication

/-! ### Loading a map -/

namespace DZSimApplication

open sim

/-- C12: `LoadBspMap` returns false exactly when the embedded file is missing or
parsing fails, and then neither world state is changed and `OverrideWorldState`
is not called. When it returns true, the client world state has
`latest_player_input_time` equal to its `time` (the clock reading), the server
is overridden once, with exactly that client state, `_currentServerWorldState`
equals `_currentClientWorldState`, and the client player's position and angles
are the origin and angles of the first player spawn of the parsed map if it
has one and are unchanged otherwise. -/
theorem LoadBspMap_world_states {V R B : Type} (resources : List String)
    (parseEmbedded parseFile : String → csgo_parsing.ParseOutcome V) (now : Int)
    (file_path : String) (load_from_embedded_files : Bool) (st : MapLoadState V R B) :
    (∀ (desc_msg : String) (map : csgo_parsing.BspMap V),
      parseStep resources parseEmbedded parseFile file_path load_from_embedded_files
        = some (.parsed desc_msg map) →
      (LoadBspMap resources parseEmbedded parseFile now file_path load_from_embedded_files
        st).1 = true ∧
      (LoadBspMap resources parseEmbedded parseFile now file_path load_from_embedded_files
        st).2.currentClientWorldState.time = now ∧
      (LoadBspMap resources parseEmbedded parseFile now file_path load_from_embedded_files
        st).2.currentClientWorldState.latest_player_input_time =
      (LoadBspMap resources parseEmbedded parseFile now file_path load_from_embedded_files
        st).2.currentClientWorldState.time ∧
      (LoadBspMap resources parseEmbedded parseFile now file_path load_from_embedded_files
        st).2.overrideWorldStateCalls = st.overrideWorldStateCalls ++
        [(LoadBspMap resources parseEmbedded parseFile now file_path load_from_embedded_files
          st).2.currentClientWorldState] ∧
      (LoadBspMap resources parseEmbedded parseFile now file_path load_from_embedded_files
        st).2.currentServerWorldState =
      (LoadBspMap resources parseEmbedded parseFile now file_path load_from_embedded_files
        st).2.currentClientWorldState ∧
      (∀ (spawn : csgo_parsing.PlayerSpawn V) (rest : List (csgo_parsing.PlayerSpawn V)),
        map.player_spawns = spawn :: rest →
        (LoadBspMap resources parseEmbedded parseFile now file_path load_from_embedded_files
          st).2.currentClientWorldState.entities.player.position = spawn.origin ∧
        (LoadBspMap resources parseEmbedded parseFile now file_path load_from_embedded_files
          st).2.currentClientWorldState.entities.player.angles = spawn.angles) ∧
      (map.player_spawns = [] →
        (LoadBspMap resources parseEmbedded parseFile now file_path load_from_embedded_files
          st).2.currentClientWorldState.entities.player.position =
          st.currentClientWorldState.entities.player.position ∧
        (LoadBspMap resources parseEmbedded parseFile now file_path load_from_embedded_files
          st).2.currentClientWorldState.entities.player.angles =
          st.currentClientWorldState.entities.player.angles)) ∧
    ((parseStep resources parseEmbedded parseFile file_path load_from_embedded_files = none ∨
      ∃ (desc_msg : String) (left : Option (csgo_parsing.BspMap V)),
        parseStep resources parseEmbedded parseFile file_path load_from_embedded_files
          = some (.failed desc_msg left)) →
      (LoadBspMap resources parseEmbedded parseFile now file_path load_from_embedded_files
        st).1 = false ∧
      (LoadBspMap resources parseEmbedded parseFile now file_path load_from_embedded_files
        st).2.currentClientWorldState = st.currentClientWorldState ∧
      (LoadBspMap resources parseEmbedded parseFile now file_path load_from_embedded_files
        st).2.currentServerWorldState = st.currentServerWorldState ∧
      (LoadBspMap resources parseEmbedded parseFile now file_path load_from_embedded_files
        st).2.overrideWorldStateCalls = st.overrideWorldStateCalls) ∧
    (parseStep resources parseEmbedded parseFile file_path load_from_embedded_files = none ↔
      (load_from_embedded_files = true ∧ file_path ∉ resources)) := by
  refine ⟨?_, ?_, ?_⟩
  · intro desc_msg map hparse
    unfold LoadBspMap
    rw [hparse]
    cases hsp : map.player_spawns with
    | nil => simp [hsp]
    | cons spawn rest =>
      simp only [hsp, List.cons.injEq, and_imp, true_and, and_self, and_true]
      refine ⟨?_, ?_⟩
      · intro spawn' _ hs _
        rw [hs]
        exact ⟨rfl, rfl⟩
      · intro hs
        cases hs
  · rintro (hnone | ⟨desc_msg, left, hfail⟩)
    · unfold LoadBspMap
      rw [hnone]
      exact ⟨rfl, rfl, rfl, rfl⟩
    · unfold LoadBspMap
      rw [hfail]
      exact ⟨rfl, rfl, rfl, rfl⟩
  · unfold parseStep
    cases load_from_embedded_files with
    | false => simp
    | true =>
      by_cases hmem : file_path ∈ resources
      · have : resources.any (fun res => res == file_path) = true :=
          List.any_eq_true.mpr ⟨file_path, hmem, by simp⟩
        simp [this, hmem]
      · have : resources.any (fun res => res == file_path) = false := by
          rw [Bool.eq_false_iff]
          intro h
          obtain ⟨x, hx, hxe⟩ := List.any_eq_true.mp h
          have : x = file_path := by simpa using hxe
          exact hmem (this ▸ hx)
        simp [this, hmem]

/-- Witness for C12: loading the sample map at clock reading 500 succeeds, stamps
the client state with 500 and puts the player on the first spawn; asking for an
embedded file when there are no resources returns false and leaves the client
state as it was. -/
theorem LoadBspMap_world_states_witness :
    (LoadBspMap [] Examples.parseSample Examples.parseSample 500 "maps/dz_blacksite.bsp" false
      Examples.mapLoadState).1 = true ∧
    (LoadBspMap [] Examples.parseSample Examples.parseSample 500 "maps/dz_blacksite.bsp" false
      Examples.mapLoadState).2.currentClientWorldState.time = 500 ∧
    (LoadBspMap [] Examples.parseSample Examples.parseSample 500 "maps/dz_blacksite.bsp" false
      Examples.mapLoadState).2.currentClientWorldState.entities.player.position
        = (100, 200, 64) ∧
    (LoadBspMap [] Examples.parseSample Examples.parseSample 500 "maps/dz_blacksite.bsp" true
      Examples.mapLoadState).1 = false ∧
    (LoadBspMap [] Examples.parseSample Examples.parseSample 500 "maps/dz_blacksite.bsp" true
      Examples.mapLoadState).2.currentClientWorldState
        = Examples.mapLoadState.currentClientWorldState :=
  ⟨((LoadBspMap_world_states [] Examples.parseSample Examples.parseSample 500
      "maps/dz_blacksite.bsp" false Examples.mapLoadState).1 "" Examples.spawnMap rfl).1,
    ((LoadBspMap_world_states [] Examples.parseSample Examples.parseSample 500
      "maps/dz_blacksite.bsp" false Examples.mapLoadState).1 "" Examples.spawnMap rfl).2.1,
    (((LoadBspMap_world_states [] Examples.parseSample Examples.parseSample 500
      "maps/dz_blacksite.bsp" false Examples.mapLoadState).1 "" Examples.spawnMap
      rfl).2.2.2.2.2.1 _ _ rfl).1,
    ((LoadBspMap_world_states [] Examples.parseSample Examples.parseSample 500
      "maps/dz_blacksite.bsp" true Examples.mapLoadState).2.1 (Or.inl rfl)).1,
    ((LoadBspMap_world_states [] Examples.parseSample Examples.parseSample 500
      "maps/dz_blacksite.bsp" true Examples.mapLoadState).2.1 (Or.inl rfl)).2.1⟩

end DZSimApplication

/-! ### The loadout editor -/

namespace sim

namespace Entities

theorem WeaponList.get_set (bits : WeaponList) (i j : Nat) (value : Bool) :
    WeaponList.get (WeaponList.set bits i value) j =
      if i = j then value else WeaponList.get bits j := by
  cases value with
  | true =>
    rw [WeaponList.get_set_true]
    by_cases h : i = j <;> simp [h]
  | false =>
    simp only [WeaponList.get, WeaponList.set, Bool.false_eq_true, if_false, Nat.testBit_xor,
      Nat.testBit_and, Nat.one_shiftLeft, Nat.testBit_two_pow]
    by_cases h : i = j <;> simp [h]

end Entities

end sim

namespace gui

open sim.Entities

theorem MenuWindow.foldl_set_get (is_non_active : Nat → Bool) (bits : WeaponList) (j : Nat) :
    WeaponList.get ((List.range Weapon.TOTAL_COUNT.toNat).foldl
      (fun b i => WeaponList.set b i (is_non_active i)) bits) j =
      if j < 5 then is_non_active j else WeaponList.get bits j := by
  have hr : List.range Weapon.TOTAL_COUNT.toNat = [0, 1, 2, 3, 4] := by decide
  rw [hr]
  simp only [List.foldl_cons, List.foldl_nil, WeaponList.get_set]
  by_cases h4 : 4 = j
  · subst h4; simp
  by_cases h3 : 3 = j
  · subst h3; simp
  by_cases h2 : 2 = j
  · subst h2; simp
  by_cases h1 : 1 = j
  · subst h1; simp
  by_cases h0 : 0 = j
  · subst h0; simp
  have : ¬ j < 5 := by omega
  simp [h0, h1, h2, h3, h4, this]

theorem MenuWindow.nonActiveCheckboxes_other (inp : LoadoutEditorInput) (a w : Weapon)
    (bits0 : WeaponList) (hw : w ≠ Weapon.TOTAL_COUNT) (hwa : w ≠ a) :
    MenuWindow.nonActiveCheckboxes inp a (WeaponList.set bits0 a.toNat false) w.toNat =
      (WeaponList.get bits0 w.toNat ^^ inp.checkbox_pressed w) := by
  cases a <;> cases w <;>
    first
    | exact absurd rfl hw
    | exact absurd rfl hwa
    | (simp only [MenuWindow.nonActiveCheckboxes, MenuWindow.nonActiveCheckbox,
        Function.update, Weapon.toNat, ImGui.Checkbox, WeaponList.get_set]
       simp
       cases inp.checkbox_pressed _ <;> simp)

theorem MenuWindow.nonActiveCheckboxes_active (inp : LoadoutEditorInput) (a : Weapon)
    (bits0 : WeaponList) :
    MenuWindow.nonActiveCheckboxes inp a (WeaponList.set bits0 a.toNat false) a.toNat
      = false := by
  cases a <;>
    (simp only [MenuWindow.nonActiveCheckboxes, MenuWindow.nonActiveCheckbox,
      Function.update, Weapon.toNat, ImGui.Checkbox, WeaponList.get_set]
     simp)

theorem Weapon.toNat_lt_of_ne (w : Weapon) (hw : w ≠ Weapon.TOTAL_COUNT) : w.toNat < 5 := by
  cases w <;> first | exact absurd rfl hw | decide

/-- C13: after the loadout section of `DrawGameConfig`, for every prior loadout,
every selection in the combo box and every set of pressed checkboxes, the bit
of the active weapon in `non_active_weapons` is false, and the bit of every
other weapon equals the value of its checkbox, which is the prior bit flipped
if the checkbox was pressed; the checkbox of the active weapon is disabled and
stays unchecked. -/
theorem DrawGameConfig_loadout_invariant (inp : LoadoutEditorInput) (loadout : Loadout) :
    WeaponList.get (MenuWindow.DrawGameConfig_loadout inp loadout).non_active_weapons
      (MenuWindow.DrawGameConfig_loadout inp loadout).active_weapon.toNat = false ∧
    (MenuWindow.DrawGameConfig_loadout inp loadout).active_weapon =
      MenuWindow.activeWeaponCombo inp loadout.active_weapon ∧
    (∀ w : Weapon, w ≠ Weapon.TOTAL_COUNT →
      w ≠ (MenuWindow.DrawGameConfig_loadout inp loadout).active_weapon →
      WeaponList.get (MenuWindow.DrawGameConfig_loadout inp loadout).non_active_weapons w.toNat =
        MenuWindow.nonActiveCheckboxes inp
          (MenuWindow.DrawGameConfig_loadout inp loadout).active_weapon
          (WeaponList.set loadout.non_active_weapons
            (MenuWindow.DrawGameConfig_loadout inp loadout).active_weapon.toNat false) w.toNat ∧
      WeaponList.get (MenuWindow.DrawGameConfig_loadout inp loadout).non_active_weapons w.toNat =
        (WeaponList.get loadout.non_active_weapons w.toNat ^^ inp.checkbox_pressed w)) ∧
    MenuWindow.nonActiveCheckboxes inp
      (MenuWindow.DrawGameConfig_loadout inp loadout).active_weapon
      (WeaponList.set loadout.non_active_weapons
        (MenuWindow.DrawGameConfig_loadout inp loadout).active_weapon.toNat false)
      (MenuWindow.DrawGameConfig_loadout inp loadout).active_weapon.toNat = false := by
  have hbits : ∀ j : Nat,
      WeaponList.get (MenuWindow.DrawGameConfig_loadout inp loadout).non_active_weapons j =
        if j < 5 then
          MenuWindow.nonActiveCheckboxes inp
            (MenuWindow.activeWeaponCombo inp loadout.active_weapon)
            (WeaponList.set loadout.non_active_weapons
              (MenuWindow.activeWeaponCombo inp loadout.active_weapon).toNat false) j
        else WeaponList.get (WeaponList.set loadout.non_active_weapons
              (MenuWindow.activeWeaponCombo inp loadout.active_weapon).toNat false) j := by
    intro j
    exact MenuWindow.foldl_set_get _ _ j
  have hactive : (MenuWindow.DrawGameConfig_loadout inp loadout).active_weapon =
      MenuWindow.activeWeaponCombo inp loadout.active_weapon := rfl
  rw [hactive]
  refine ⟨?_, rfl, ?_, MenuWindow.nonActiveCheckboxes_active _ _ _⟩
  · rw [hbits]
    split
    · exact MenuWindow.nonActiveCheckboxes_active _ _ _
    · rw [WeaponList.get_set]
      simp
  · intro w hw hwa
    rw [hbits, if_pos (Weapon.toNat_lt_of_ne w hw)]
    exact ⟨rfl, MenuWindow.nonActiveCheckboxes_other inp _ w _ hw hwa⟩

/-- Witness for C13: starting from a loadout that carries the XM1014 both as active
and as non-active weapon, selecting the knife and pressing the Bump Mine
checkbox leaves the knife bit cleared and sets the Bump Mine bit. -/
theorem DrawGameConfig_loadout_invariant_witness :
    WeaponList.get (MenuWindow.DrawGameConfig_loadout
      { exojump_pressed := false
        combo_open := true
        selectable_clicked := fun w => decide (w = Weapon.Knife)
        checkbox_pressed := fun w => decide (w = Weapon.BumpMine) }
      { active_weapon := Weapon.XM1014
        non_active_weapons := 18
        has_exojump := false }).non_active_weapons Weapon.BumpMine.toNat =
      (WeaponList.get 18 Weapon.BumpMine.toNat ^^ true) :=
  ((DrawGameConfig_loadout_invariant
      { exojump_pressed := false
        combo_open := true
        selectable_clicked := fun w => decide (w = Weapon.Knife)
        checkbox_pressed := fun w => decide (w = Weapon.BumpMine) }
      { active_weapon := Weapon.XM1014
        non_active_weapons := 18
        has_exojump := false }).2.2.1 Weapon.BumpMine (by decide) (by decide)).2

end gui

/-! ### Game input handling -/

namespace DZSimApplication

open sim

theorem pruneProcessedInputs_eq_drop {F E : Type} (prevGameInputs : List (PlayerInputState F))
    (currentServerWorldState : WorldState E) :
    pruneProcessedInputs prevGameInputs currentServerWorldState =
      prevGameInputs.drop (List.findIdx
        (fun pis => decide (pis.time > currentServerWorldState.latest_player_input_time))
        prevGameInputs) := by
  unfold pruneProcessedInputs cpp.erase
  simp only [cpp.find_if_end, List.drop_zero, Nat.zero_add, List.take_zero, List.nil_append]

theorem tickEventInput_prevGameInputs {F E : Type}
    (AllMinusCommands : List PlayerInputState.Command) (env : TickEnv F E)
    (st : InputState F E) :
    ∃ n : Nat, (tickEventInput AllMinusCommands env st).prevGameInputs =
      (st.prevGameInputs ++ [frameInput AllMinusCommands env st]).drop n :=
  ⟨_, pruneProcessedInputs_eq_drop _ _⟩

theorem bufferInv_tickEventInput {F E : Type}
    (AllMinusCommands : List PlayerInputState.Command) (env : TickEnv F E)
    (st : InputState F E) (h : BufferInv env.current_time st.prevGameInputs) :
    BufferInv env.current_time (tickEventInput AllMinusCommands env st).prevGameInputs := by
  obtain ⟨n, hn⟩ := tickEventInput_prevGameInputs AllMinusCommands env st
  rw [hn]
  obtain ⟨hs, hb⟩ := h
  have hall : BufferInv env.current_time
      (st.prevGameInputs ++ [frameInput AllMinusCommands env st]) := by
    constructor
    · rw [List.pairwise_append]
      refine ⟨hs, List.pairwise_singleton _ _, ?_⟩
      intro a ha b hb'
      rw [List.mem_singleton] at hb'
      subst hb'
      exact hb a ha
    · intro x hx
      rcases List.mem_append.mp hx with hx | hx
      · exact hb x hx
      · rw [List.mem_singleton] at hx
        subst hx
        exact le_refl _
  exact ⟨hall.1.sublist (List.drop_sublist _ _), fun x hx => hall.2 x (List.mem_of_mem_drop hx)⟩

theorem bufferInv_runFrames {F E : Type} (AllMinusCommands : List PlayerInputState.Command) :
    ∀ (frames : List (List PlayerInputState.Command × TickEnv F E)) (st : InputState F E),
      List.Pairwise (fun a b => a.2.current_time ≤ b.2.current_time) frames →
      List.Pairwise (fun a b => a.time ≤ b.time) st.prevGameInputs →
      (∀ x, x ∈ st.prevGameInputs → ∀ f, f ∈ frames → x.time ≤ f.2.current_time) →
      List.Pairwise (fun a b => a.time ≤ b.time)
        (runFrames AllMinusCommands frames st).prevGameInputs := by
  intro frames
  induction frames with
  | nil => intro st _ hs _; exact hs
  | cons f rest ih =>
    intro st hclock hs hpast
    obtain ⟨commands, env⟩ := f
    rw [List.pairwise_cons] at hclock
    have hinv : BufferInv env.current_time
        (collectCommands commands st).prevGameInputs :=
      ⟨hs, fun x hx => hpast x hx _ (List.mem_cons_self _ _)⟩
    have hnext := bufferInv_tickEventInput AllMinusCommands env _ hinv
    apply ih _ hclock.2 hnext.1
    intro x hx g hg
    exact le_trans (hnext.2 x hx) (hclock.1 g hg)

/-- C16: if the clock readings taken at the start of the ticks are non-decreasing
(and the buffer starts in time order with no input stamped after the first
reading, as the empty buffer does), then after every sequence of ticks
`_prevGameInputs` is in non-decreasing time order. In every tick the input
appended to the buffer is the value sent to the server, stamped with the
reading taken at the start of the tick, and the buffer after the tick is the
buffer with that input appended, less a prefix. -/
theorem prevGameInputs_stays_sorted {F E : Type}
    (AllMinusCommands : List PlayerInputState.Command)
    (frames : List (List PlayerInputState.Command × TickEnv F E)) (st : InputState F E)
    (hclock : List.Pairwise (fun a b => a.2.current_time ≤ b.2.current_time) frames)
    (hsorted : List.Pairwise (fun a b => a.time ≤ b.time) st.prevGameInputs)
    (hpast : ∀ x, x ∈ st.prevGameInputs → ∀ f, f ∈ frames → x.time ≤ f.2.current_time) :
    List.Pairwise (fun a b => a.time ≤ b.time)
      (runFrames AllMinusCommands frames st).prevGameInputs ∧
    (∀ (env : TickEnv F E) (s : InputState F E),
      (tickEventInput AllMinusCommands env s).sentPlayerInputs =
        s.sentPlayerInputs ++ [frameInput AllMinusCommands env s] ∧
      (frameInput AllMinusCommands env s).time = env.current_time ∧
      ∃ n : Nat, (tickEventInput AllMinusCommands env s).prevGameInputs =
        (s.prevGameInputs ++ [frameInput AllMinusCommands env s]).drop n) :=
  ⟨bufferInv_runFrames AllMinusCommands frames st hclock hsorted hpast,
    fun env s => ⟨rfl, rfl, tickEventInput_prevGameInputs AllMinusCommands env s⟩⟩

/-- Witness for C16: two quiet ticks at the clock readings 100 and 200, the second
after a release of the jump key, leave the buffer in time order, with the two
frame inputs stamped 100 and 200. -/
theorem prevGameInputs_stays_sorted_witness :
    List.Pairwise (fun a b => a.time ≤ b.time)
      (runFrames Examples.allMinusCommands
        [([], Examples.quietTick 100 false), ([.MINUS_JUMP], Examples.quietTick 200 false)]
        Examples.firstPersonState).prevGameInputs ∧
    (runFrames Examples.allMinusCommands
        [([], Examples.quietTick 100 false), ([.MINUS_JUMP], Examples.quietTick 200 false)]
        Examples.firstPersonState).prevGameInputs.map (fun pis => pis.time) = [100, 200] :=
  ⟨(prevGameInputs_stays_sorted Examples.allMinusCommands
      [([], Examples.quietTick 100 false), ([.MINUS_JUMP], Examples.quietTick 200 false)]
      Examples.firstPersonState (by decide) List.Pairwise.nil
      (fun x hx => absurd hx (List.not_mem_nil x))).1,
    rfl⟩

/-- C17: in a tick in which the input mode changes from `FIRST_PERSON` to `MENU`
(which happens exactly when a popup is visible or Escape was pressed), the
command list of the frame input sent to the server is the list returned by
`AllMinusCommands()`, whatever was collected before; in a tick that ends in
`MENU` mode and did not start in first-person mode, the command list sent is
empty. -/
theorem tickEvent_commands_on_leaving_first_person {F E : Type}
    (AllMinusCommands : List PlayerInputState.Command) (env : TickEnv F E)
    (st : InputState F E) :
    (tickEventInput AllMinusCommands env st).sentPlayerInputs =
      st.sentPlayerInputs ++ [frameInput AllMinusCommands env st] ∧
    (st.user_input_mode = UserInputMode.FIRST_PERSON →
      ((tickEventInput AllMinusCommands env st).user_input_mode = UserInputMode.MENU ↔
        (env.popup_visible = true ∨ env.esc_pressed = true))) ∧
    (st.user_input_mode = UserInputMode.FIRST_PERSON →
      (tickEventInput AllMinusCommands env st).user_input_mode = UserInputMode.MENU →
      (frameInput AllMinusCommands env st).inputCommands = AllMinusCommands) ∧
    (st.user_input_mode ≠ UserInputMode.FIRST_PERSON →
      (tickEventInput AllMinusCommands env st).user_input_mode = UserInputMode.MENU →
      (frameInput AllMinusCommands env st).inputCommands = []) := by
  refine ⟨rfl, ?_, ?_, ?_⟩
  · intro hfp
    show (updateUserInputMode env.popup_visible env.esc_pressed st.user_input_mode).1
      = UserInputMode.MENU ↔ _
    rw [hfp]
    cases env.popup_visible <;> cases env.esc_pressed <;> simp [updateUserInputMode]
  · intro hfp
    show (updateUserInputMode env.popup_visible env.esc_pressed st.user_input_mode).1
      = UserInputMode.MENU → _
    unfold frameInput
    rw [hfp]
    cases env.popup_visible <;> cases env.esc_pressed <;> simp [updateUserInputMode]
  · intro hnfp
    show (updateUserInputMode env.popup_visible env.esc_pressed st.user_input_mode).1
      = UserInputMode.MENU → _
    unfold frameInput
    have hmenu : st.user_input_mode = UserInputMode.MENU := by
      cases hm : st.user_input_mode with
      | MENU => rfl
      | FIRST_PERSON => exact absurd hm hnfp
    rw [hmenu]
    cases env.popup_visible <;> cases env.esc_pressed <;> simp [updateUserInputMode]

/-- Witness for C17: a tick with Escape pressed takes the sample first-person state
to `MENU` mode, and the frame input sent holds the release commands instead of
the collected press of the jump key. -/
theorem tickEvent_commands_on_leaving_first_person_witness :
    (tickEventInput Examples.allMinusCommands (Examples.quietTick 100 true)
      Examples.firstPersonState).user_input_mode = UserInputMode.MENU ∧
    (frameInput Examples.allMinusCommands (Examples.quietTick 100 true)
      Examples.firstPersonState).inputCommands = Examples.allMinusCommands :=
  ⟨((tickEvent_commands_on_leaving_first_person Examples.allMinusCommands
      (Examples.quietTick 100 true) Examples.firstPersonState).2.1 rfl).mpr (Or.inr rfl),
    (tickEvent_commands_on_leaving_first_person Examples.allMinusCommands
      (Examples.quietTick 100 true) Examples.firstPersonState).2.2.1 rfl rfl⟩

end DZSimApplication

/-! ### Refreshing the list of displays -/

namespace DZSimApplication

open gui

theorem sameBounds_eq (prev_selected : AvailableDisplay) (disp_bounds : SDL_Rect)
    (h : sameBounds prev_selected disp_bounds = true) :
    displayOfBounds disp_bounds = prev_selected := by
  simp only [sameBounds, Bool.and_eq_true, beq_iff_eq] at h
  obtain ⟨⟨⟨hx, hy⟩, hw⟩, hh⟩ := h
  cases prev_selected
  simp only [displayOfBounds] at *
  simp [hx, hy, hw, hh]

theorem refreshDisplay_displays (SDL_GetDisplayBounds : Nat → Option SDL_Rect)
    (have_prev_selected : Bool) (prev_selected : AvailableDisplay) (is : List Nat) :
    ∀ vid : VideoSettings,
      (is.foldl (refreshDisplay SDL_GetDisplayBounds have_prev_selected prev_selected)
        vid).OUT_available_displays =
      vid.OUT_available_displays ++
        (is.filterMap SDL_GetDisplayBounds).map displayOfBounds := by
  induction is with
  | nil => intro vid; simp
  | cons i rest ih =>
    intro vid
    rw [List.foldl_cons, ih]
    unfold refreshDisplay
    cases hb : SDL_GetDisplayBounds i with
    | none => simp [hb]
    | some disp_bounds => simp [hb]

theorem refreshDisplay_selectionInv (SDL_GetDisplayBounds : Nat → Option SDL_Rect)
    (have_prev_selected : Bool) (prev_selected : AvailableDisplay)
    (vid : VideoSettings) (i : Nat)
    (h : SelectionInv have_prev_selected prev_selected vid) :
    SelectionInv have_prev_selected prev_selected
      (refreshDisplay SDL_GetDisplayBounds have_prev_selected prev_selected vid i) := by
  unfold refreshDisplay
  cases hb : SDL_GetDisplayBounds i with
  | none => exact h
  | some disp_bounds =>
    by_cases hm : (have_prev_selected && sameBounds prev_selected disp_bounds) = true
    · right
      have hm2 := Bool.and_eq_true _ _ ▸ hm
      have hd := sameBounds_eq prev_selected disp_bounds hm2.2
      show have_prev_selected = true ∧
        0 ≤ (if (have_prev_selected && sameBounds prev_selected disp_bounds) = true then
          (vid.OUT_available_displays.length : Int) else vid.IN_selected_display_idx) ∧
        (vid.OUT_available_displays ++ [displayOfBounds disp_bounds])[
          (if (have_prev_selected && sameBounds prev_selected disp_bounds) = true then
            (vid.OUT_available_displays.length : Int)
            else vid.IN_selected_display_idx).toNat]? = some prev_selected
      rw [if_pos hm]
      refine ⟨hm2.1, Int.ofNat_nonneg _, ?_⟩
      rw [Int.toNat_ofNat, List.getElem?_append_right (le_refl _), Nat.sub_self]
      simp only [List.getElem?_cons_zero, Option.some.injEq]
      exact hd
    · show SelectionInv have_prev_selected prev_selected
        { IN_selected_display_idx :=
            if (have_prev_selected && sameBounds prev_selected disp_bounds) = true then
              (vid.OUT_available_displays.length : Int) else vid.IN_selected_display_idx
          OUT_available_displays := vid.OUT_available_displays ++ [displayOfBounds disp_bounds] }
      rw [if_neg hm]
      rcases h with h | ⟨h1, h2, h3⟩
      · left
        exact h
      · right
        refine ⟨h1, h2, ?_⟩
        show (vid.OUT_available_displays ++ [displayOfBounds disp_bounds])[
          vid.IN_selected_display_idx.toNat]? = some prev_selected
        rw [List.getElem?_append_left (List.getElem?_eq_some.mp h3).1]
        exact h3

theorem foldl_refreshDisplay_selectionInv (SDL_GetDisplayBounds : Nat → Option SDL_Rect)
    (have_prev_selected : Bool) (prev_selected : AvailableDisplay) (is : List Nat) :
    ∀ vid : VideoSettings, SelectionInv have_prev_selected prev_selected vid →
      SelectionInv have_prev_selected prev_selected
        (is.foldl (refreshDisplay SDL_GetDisplayBounds have_prev_selected prev_selected) vid) := by
  induction is with
  | nil => intro vid h; exact h
  | cons i rest ih =>
    intro vid h
    rw [List.foldl_cons]
    exact ih _ (refreshDisplay_selectionInv _ _ _ vid i h)

theorem refreshLoop_displays (num_displays : Int)
    (SDL_GetDisplayBounds : Nat → Option SDL_Rect) (vid : VideoSettings) :
    (refreshLoop num_displays SDL_GetDisplayBounds vid).OUT_available_displays =
      ((List.range num_displays.toNat).filterMap SDL_GetDisplayBounds).map displayOfBounds := by
  unfold refreshLoop
  simp only [refreshDisplay_displays, List.nil_append]

theorem refreshLoop_selectionInv (num_displays : Int)
    (SDL_GetDisplayBounds : Nat → Option SDL_Rect) (vid : VideoSettings) :
    SelectionInv (havePrevSelected vid) (prevSelected vid)
      (refreshLoop num_displays SDL_GetDisplayBounds vid) :=
  foldl_refreshDisplay_selectionInv _ _ _ _ _ (Or.inl rfl)

theorem selectPreviousIndex_displays (prev_selected_idx : Int) (vid : VideoSettings) :
    (selectPreviousIndex prev_selected_idx vid).OUT_available_displays =
      vid.OUT_available_displays := by
  unfold selectPreviousIndex
  split
  · split <;> rfl
  · rfl

theorem RefreshAvailableDisplays_displays (num_displays : Int)
    (SDL_GetDisplayBounds : Nat → Option SDL_Rect) (vid : VideoSettings) :
    (RefreshAvailableDisplays num_displays SDL_GetDisplayBounds vid).2.OUT_available_displays =
      if num_displays < 1 then []
      else ((List.range num_displays.toNat).filterMap SDL_GetDisplayBounds).map
        displayOfBounds := by
  unfold RefreshAvailableDisplays
  by_cases hn : num_displays < 1
  · simp only [hn, if_true]
  · simp only [hn, if_false]
    split
    · exact (selectPreviousIndex_displays _ _).trans (refreshLoop_displays _ _ _)
    · exact (selectPreviousIndex_displays _ _).trans (refreshLoop_displays _ _ _)

theorem RefreshAvailableDisplays_result (num_displays : Int)
    (SDL_GetDisplayBounds : Nat → Option SDL_Rect) (vid : VideoSettings) :
    (RefreshAvailableDisplays num_displays SDL_GetDisplayBounds vid).1 =
      !(RefreshAvailableDisplays num_displays SDL_GetDisplayBounds
        vid).2.OUT_available_displays.isEmpty := by
  unfold RefreshAvailableDisplays
  by_cases hn : num_displays < 1
  · simp only [hn, if_true]
    rfl
  · simp only [hn, if_false]
    split
    · rename_i h
      simp only [h, Bool.not_true]
    · rename_i h
      simp only [h, Bool.not_false]

theorem RefreshAvailableDisplays_idx (num_displays : Int)
    (SDL_GetDisplayBounds : Nat → Option SDL_Rect) (vid : VideoSettings) :
    (RefreshAvailableDisplays num_displays SDL_GetDisplayBounds vid).2.IN_selected_display_idx =
      if num_displays < 1 then -1
      else (selectPreviousIndex vid.IN_selected_display_idx
        (refreshLoop num_displays SDL_GetDisplayBounds vid)).IN_selected_display_idx := by
  unfold RefreshAvailableDisplays
  by_cases hn : num_displays < 1
  · simp only [hn, if_true]
  · simp only [hn, if_false]
    split <;> rfl

/-- C18: `RefreshAvailableDisplays` returns true if and only if
`OUT_available_displays` is non-empty when it returns; it returns false exactly
when SDL reports fewer than one display or the bounds of none of the displays
could be retrieved, and then the list is empty. -/
theorem RefreshAvailableDisplays_returns (num_displays : Int)
    (SDL_GetDisplayBounds : Nat → Option SDL_Rect) (vid : VideoSettings) :
    ((RefreshAvailableDisplays num_displays SDL_GetDisplayBounds vid).1 = true ↔
      (RefreshAvailableDisplays num_displays SDL_GetDisplayBounds
        vid).2.OUT_available_displays ≠ []) ∧
    ((RefreshAvailableDisplays num_displays SDL_GetDisplayBounds vid).1 = false ↔
      (num_displays < 1 ∨
        ∀ i : Nat, (i : Int) < num_displays → SDL_GetDisplayBounds i = none)) ∧
    ((RefreshAvailableDisplays num_displays SDL_GetDisplayBounds vid).1 = false →
      (RefreshAvailableDisplays num_displays SDL_GetDisplayBounds
        vid).2.OUT_available_displays = []) := by
  have hres := RefreshAvailableDisplays_result num_displays SDL_GetDisplayBounds vid
  have hlist := RefreshAvailableDisplays_displays num_displays SDL_GetDisplayBounds vid
  have hempty : (RefreshAvailableDisplays num_displays SDL_GetDisplayBounds
      vid).2.OUT_available_displays = [] ↔
      (num_displays < 1 ∨
        ∀ i : Nat, (i : Int) < num_displays → SDL_GetDisplayBounds i = none) := by
    rw [hlist]
    by_cases hn : num_displays < 1
    · simp [hn]
    · simp only [hn, if_false, false_or, List.map_eq_nil_iff, List.filterMap_eq_nil_iff,
        List.mem_range]
      constructor
      · intro h i hi
        exact h i (by omega)
      · intro h i hi
        exact h i (by omega)
  refine ⟨?_, ?_, ?_⟩
  · rw [hres]
    cases hl : (RefreshAvailableDisplays num_displays SDL_GetDisplayBounds
      vid).2.OUT_available_displays <;> simp
  · rw [← hempty, hres]
    cases hl : (RefreshAvailableDisplays num_displays SDL_GetDisplayBounds
      vid).2.OUT_available_displays <;> simp
  · rw [hres]
    cases hl : (RefreshAvailableDisplays num_displays SDL_GetDisplayBounds
      vid).2.OUT_available_displays <;> simp

/-- Witness for C18: with two displays of which SDL reports the bounds of the
second only, the call returns true and the list holds that display; with the
bounds of neither, it returns false. -/
theorem RefreshAvailableDisplays_returns_witness :
    (RefreshAvailableDisplays 2
      (fun i => if i = 1 then some { x := 1920, y := 0, w := 1280, h := 1024 } else none)
      { IN_selected_display_idx := -1, OUT_available_displays := [] }).2.OUT_available_displays
      ≠ [] ∧
    (RefreshAvailableDisplays 2 (fun _ => none)
      { IN_selected_display_idx := -1, OUT_available_displays := [] }).1 = false :=
  ⟨(RefreshAvailableDisplays_returns 2
      (fun i => if i = 1 then some { x := 1920, y := 0, w := 1280, h := 1024 } else none)
      { IN_selected_display_idx := -1, OUT_available_displays := [] }).1.mp (by decide),
    (RefreshAvailableDisplays_returns 2 (fun _ => none)
      { IN_selected_display_idx := -1, OUT_available_displays := [] }).2.1.mpr
      (Or.inr (fun _ _ => rfl))⟩

/-- C19 fails on the code: a display with the bounds 1920x1080 at (0, 0) is
selected (index 0) before the call, SDL then reports one display with the
bounds 2560x1440, so no display of the refreshed list has the bounds of the
previous one and the loop leaves the index at -1; the special case after the
loop nevertheless selects index 0 again, and the index is 0 after the call,
not -1. -/
theorem RefreshAvailableDisplays_reselects_stale_index :
    havePrevSelected
      { IN_selected_display_idx := 0
        OUT_available_displays := [{ x := 0, y := 0, w := 1920, h := 1080 }] } = true ∧
    (RefreshAvailableDisplays 1 (fun _ => some { x := 0, y := 0, w := 2560, h := 1440 })
      { IN_selected_display_idx := 0
        OUT_available_displays := [{ x := 0, y := 0, w := 1920, h := 1080 }] }).2
      = { IN_selected_display_idx := 0
          OUT_available_displays := [{ x := 0, y := 0, w := 2560, h := 1440 }] } ∧
    (refreshLoop 1 (fun _ => some { x := 0, y := 0, w := 2560, h := 1440 })
      { IN_selected_display_idx := 0
        OUT_available_displays := [{ x := 0, y := 0, w := 1920, h := 1080 }]
      }).IN_selected_display_idx = -1 ∧
    (RefreshAvailableDisplays 1 (fun _ => some { x := 0, y := 0, w := 2560, h := 1440 })
      { IN_selected_display_idx := 0
        OUT_available_displays := [{ x := 0, y := 0, w := 1920, h := 1080 }]
      }).2.IN_selected_display_idx ≠ -1 := by
  decide

theorem selectPreviousIndex_valid (prev_selected_idx : Int) (vid : VideoSettings)
    (h : vid.IN_selected_display_idx = -1 ∨
      (0 ≤ vid.IN_selected_display_idx ∧
        vid.IN_selected_display_idx < (vid.OUT_available_displays.length : Int))) :
    (selectPreviousIndex prev_selected_idx vid).IN_selected_display_idx = -1 ∨
      (0 ≤ (selectPreviousIndex prev_selected_idx vid).IN_selected_display_idx ∧
        (selectPreviousIndex prev_selected_idx vid).IN_selected_display_idx <
          ((selectPreviousIndex prev_selected_idx vid).OUT_available_displays.length : Int)) := by
  unfold selectPreviousIndex
  split
  · split
    · rename_i hr
      exact Or.inr hr
    · exact h
  · exact h

theorem selectionInv_valid (have_prev_selected : Bool) (prev_selected : AvailableDisplay)
    (vid : VideoSettings) (h : SelectionInv have_prev_selected prev_selected vid) :
    vid.IN_selected_display_idx = -1 ∨
      (0 ≤ vid.IN_selected_display_idx ∧
        vid.IN_selected_display_idx < (vid.OUT_available_displays.length : Int)) := by
  rcases h with h | ⟨_, h2, h3⟩
  · exact Or.inl h
  · right
    have := (List.getElem?_eq_some.mp h3).1
    exact ⟨h2, by omega⟩

/-- C20: for every prior selected index and every outcome of the SDL queries,
`IN_selected_display_idx` is -1 or an index of `OUT_available_displays` when
`RefreshAvailableDisplays` returns; when the loop has set it by a bounds match,
it keeps that value, a display was selected before the call, and the display
at that index of the new list equals (has the bounds of) the display
previously selected. -/
theorem RefreshAvailableDisplays_index_valid (num_displays : Int)
    (SDL_GetDisplayBounds : Nat → Option SDL_Rect) (vid : VideoSettings) :
    ((RefreshAvailableDisplays num_displays SDL_GetDisplayBounds
        vid).2.IN_selected_display_idx = -1 ∨
      (0 ≤ (RefreshAvailableDisplays num_displays SDL_GetDisplayBounds
          vid).2.IN_selected_display_idx ∧
        (RefreshAvailableDisplays num_displays SDL_GetDisplayBounds
          vid).2.IN_selected_display_idx <
        ((RefreshAvailableDisplays num_displays SDL_GetDisplayBounds
          vid).2.OUT_available_displays.length : Int))) ∧
    (1 ≤ num_displays →
      (refreshLoop num_displays SDL_GetDisplayBounds vid).IN_selected_display_idx ≠ -1 →
      (RefreshAvailableDisplays num_displays SDL_GetDisplayBounds
          vid).2.IN_selected_display_idx =
        (refreshLoop num_displays SDL_GetDisplayBounds vid).IN_selected_display_idx ∧
      (0 ≤ vid.IN_selected_display_idx ∧
        vid.IN_selected_display_idx < (vid.OUT_available_displays.length : Int)) ∧
      ∃ prev : AvailableDisplay,
        vid.OUT_available_displays[vid.IN_selected_display_idx.toNat]? = some prev ∧
        (RefreshAvailableDisplays num_displays SDL_GetDisplayBounds
          vid).2.OUT_available_displays[(RefreshAvailableDisplays num_displays
            SDL_GetDisplayBounds vid).2.IN_selected_display_idx.toNat]? = some prev) := by
  have hinv := refreshLoop_selectionInv num_displays SDL_GetDisplayBounds vid
  have hidx := RefreshAvailableDisplays_idx num_displays SDL_GetDisplayBounds vid
  have hlist := RefreshAvailableDisplays_displays num_displays SDL_GetDisplayBounds vid
  constructor
  · by_cases hn : num_displays < 1
    · left
      rw [hidx, if_pos hn]
    · have hv := selectPreviousIndex_valid vid.IN_selected_display_idx _
        (selectionInv_valid _ _ _ hinv)
      rw [hidx, hlist, if_neg hn, if_neg hn,
        ← refreshLoop_displays num_displays SDL_GetDisplayBounds vid,
        ← selectPreviousIndex_displays vid.IN_selected_display_idx]
      exact hv
  · intro hn hset
    have hn' : ¬ num_displays < 1 := by omega
    have hfinal : (RefreshAvailableDisplays num_displays SDL_GetDisplayBounds
        vid).2.IN_selected_display_idx =
        (refreshLoop num_displays SDL_GetDisplayBounds vid).IN_selected_display_idx := by
      rw [hidx, if_neg hn']
      unfold selectPreviousIndex
      rw [if_neg hset]
    rcases hinv with h | ⟨h1, _, h3⟩
    · exact absurd h hset
    · have hhave : 0 ≤ vid.IN_selected_display_idx ∧
          vid.IN_selected_display_idx < (vid.OUT_available_displays.length : Int) := by
        simpa [havePrevSelected] using h1
      refine ⟨hfinal, hhave, prevSelected vid, ?_, ?_⟩
      · have hlt : vid.IN_selected_display_idx.toNat < vid.OUT_available_displays.length := by
          omega
        unfold prevSelected
        rw [if_pos h1, List.getD_eq_getElem _ _ hlt]
        exact List.getElem?_eq_getElem hlt
      · rw [hfinal, hlist, if_neg hn',
          ← refreshLoop_displays num_displays SDL_GetDisplayBounds vid]
        exact h3

/-- Witness for C20: the second of two displays is selected before the call, SDL
then reports the same two displays in the opposite order, and the index after
the call is 0, where the previously selected display now is. -/
theorem RefreshAvailableDisplays_index_valid_witness :
    (RefreshAvailableDisplays 2
      (fun i => if i = 0 then some { x := 1920, y := 0, w := 1280, h := 1024 }
        else some { x := 0, y := 0, w := 1920, h := 1080 })
      { IN_selected_display_idx := 1
        OUT_available_displays :=
          [{ x := 0, y := 0, w := 1920, h := 1080 },
           { x := 1920, y := 0, w := 1280, h := 1024 }] }).2.IN_selected_display_idx =
    (refreshLoop 2
      (fun i => if i = 0 then some { x := 1920, y := 0, w := 1280, h := 1024 }
        else some { x := 0, y := 0, w := 1920, h := 1080 })
      { IN_selected_display_idx := 1
        OUT_available_displays :=
          [{ x := 0, y := 0, w := 1920, h := 1080 },
           { x := 1920, y := 0, w := 1280, h := 1024 }] }).IN_selected_display_idx ∧
    (RefreshAvailableDisplays 2
      (fun i => if i = 0 then some { x := 1920, y := 0, w := 1280, h := 1024 }
        else some { x := 0, y := 0, w := 1920, h := 1080 })
      { IN_selected_display_idx := 1
        OUT_available_displays :=
          [{ x := 0, y := 0, w := 1920, h := 1080 },
           { x := 1920, y := 0, w := 1280, h := 1024 }] }).2.IN_selected_display_idx = 0 :=
  ⟨((RefreshAvailableDisplays_index_valid 2
      (fun i => if i = 0 then some { x := 1920, y := 0, w := 1280, h := 1024 }
        else some { x := 0, y := 0, w := 1920, h := 1080 })
      { IN_selected_display_idx := 1
        OUT_available_displays :=
          [{ x := 0, y := 0, w := 1920, h := 1080 },
           { x := 1920, y := 0, w := 1280, h := 1024 }] }).2 (by decide) (by decide)).1,
    by decide⟩

end DZSimApplication

/-! ### The fullscreen display check -/

namespace DZSimApplication

open gui

/-- The guard of the fullscreen display check passes for every index that is not
negative, whatever the list of displays. -/
theorem displaySelectedGuard_of_nonneg (selected_display_idx : Int)
    (available_displays : List AvailableDisplay) (h : 0 ≤ selected_display_idx) :
    displaySelectedGuard selected_display_idx available_displays = true := by
  simp [displaySelectedGuard, h]

/-- C21 (evaluation of the code at a failing input): in "Fullscreen Windowed"
mode with two displays and `selected_display_idx = 2`, the guard before the read
of `available_displays[selected_display_idx]` passes although the index is not
below the size of the list, and the element is read out of bounds. -/
theorem fullscreenDisplayCheck_reads_out_of_bounds :
    displaySelectedGuard 2 Examples.twoDisplays = true ∧
    ¬ ((0 : Int) ≤ 2 ∧ (2 : Int) < (Examples.twoDisplays.length : Int)) ∧
    fullscreenDisplayCheck WindowMode.FULLSCREEN_WINDOWED
      { x := 0, y := 0, w := 1920, h := 1080 }
      { IN_selected_display_idx := 2, OUT_available_displays := Examples.twoDisplays } =
      FullscreenDisplayCheck.outOfBounds := by
  decide

end DZSimApplication

/-! ### The list of loadable maps -/

namespace cpp

/-- The model of `contains` decides whether the characters of the substring occur
consecutively in the string. -/
theorem contains_iff_infix (s substring : String) :
    contains s substring = true ↔ substring.toList <:+: s.toList := by
  unfold contains
  rw [List.any_eq_true]
  constructor
  · rintro ⟨t, ht, hp⟩
    exact List.infix_iff_prefix_suffix.mpr
      ⟨t, List.isPrefixOf_iff_prefix.mp hp, (List.mem_tails _ _).mp ht⟩
  · intro h
    obtain ⟨t, hp, hs⟩ := List.infix_iff_prefix_suffix.mp h
    exact ⟨t, (List.mem_tails _ _).mpr hs, List.isPrefixOf_iff_prefix.mpr hp⟩

end cpp


namespace DZSimApplication

open gui

/-- The separation loop over a list of indices appends to each index vector the
indices of its group, in their order. -/
theorem separateMapIndex_foldl (fileName : String → String) (l : List String)
    (indices : List Nat) (acc : MapIndices) :
    indices.foldl (separateMapIndex fileName l) acc =
      { dz_map_indices := acc.dz_map_indices ++
          indices.filter (fun i => isDzFileName (fileName (l.getD i "")))
        bump_map_indices := acc.bump_map_indices ++
          indices.filter (fun i => !isDzFileName (fileName (l.getD i "")) &&
            isBumpFileName (fileName (l.getD i "")))
        other_map_indices := acc.other_map_indices ++
          indices.filter (fun i => !isDzFileName (fileName (l.getD i "")) &&
            !isBumpFileName (fileName (l.getD i ""))) } := by
  induction indices generalizing acc with
  | nil => simp
  | cons i indices ih =>
    rw [List.foldl_cons, ih]
    by_cases hd : isDzFileName (fileName (l.getD i "")) = true
    · simp only [separateMapIndex, List.filter_cons, hd, if_true, Bool.not_true,
        Bool.false_and, Bool.false_eq_true, if_false, List.append_assoc,
        List.singleton_append]
    · by_cases hb : isBumpFileName (fileName (l.getD i "")) = true
      · simp only [separateMapIndex, List.filter_cons, hd, hb, if_true, if_false,
          Bool.not_false, Bool.not_true, Bool.true_and, Bool.and_false,
          Bool.false_eq_true, List.append_assoc, List.singleton_append]
      · simp only [separateMapIndex, List.filter_cons, hd, hb, if_true, if_false,
          Bool.not_false, Bool.true_and, Bool.and_self, Bool.false_eq_true,
          List.append_assoc, List.singleton_append]

/-- A copy loop appends the paths at the indices, in the order of the indices. -/
theorem pushMapPaths_eq (l : List String) (indices : List Nat)
    (gui_path_list : List String) :
    pushMapPaths l gui_path_list indices =
      gui_path_list ++ indices.map (fun i => l.getD i "") := by
  induction indices generalizing gui_path_list with
  | nil => simp [pushMapPaths]
  | cons i indices ih =>
    have h := ih (gui_path_list ++ [l.getD i ""])
    simp only [pushMapPaths, List.foldl_cons] at h ⊢
    rw [h]
    simp

/-- Reading a list at all its indices gives the list back. -/
theorem map_getD_range (l : List String) :
    (List.range l.length).map (fun i => l.getD i "") = l := by
  apply List.ext_getElem
  · simp
  · intro n h1 h2
    simp [List.getD_eq_getElem?_getD, List.getElem?_eq_getElem h2]

/-- The paths at the indices selected by a condition on the path are the paths
of the list that satisfy the condition, in their order. -/
theorem map_getD_filter_range (l : List String) (p : String → Bool) :
    ((List.range l.length).filter (fun i => p (l.getD i ""))).map
        (fun i => l.getD i "") = l.filter p := by
  have h := @List.filter_map _ _ p (fun i => l.getD i "") (List.range l.length)
  rw [map_getD_range] at h
  rw [h]
  rfl

/-- The list of maps shown by the menu is the concatenation of the three groups,
each in the order of the list of map files. -/
theorem UpdateGuiCsgoMapPaths_loadable_maps (fileName : String → String)
    (l : List String) (csgoPath : String) :
    (UpdateGuiCsgoMapPaths fileName l csgoPath).OUT_loadable_maps =
      l.filter (fun p => isDzFileName (fileName p)) ++
      l.filter (fun p => !isDzFileName (fileName p) && isBumpFileName (fileName p)) ++
      l.filter (fun p => !isDzFileName (fileName p) && !isBumpFileName (fileName p)) := by
  simp only [UpdateGuiCsgoMapPaths, separateMapIndex_foldl, pushMapPaths_eq,
    List.nil_append]
  rw [map_getD_filter_range l (fun p => isDzFileName (fileName p)),
    map_getD_filter_range l
      (fun p => !isDzFileName (fileName p) && isBumpFileName (fileName p)),
    map_getD_filter_range l
      (fun p => !isDzFileName (fileName p) && !isBumpFileName (fileName p))]

/-- The number of highlighted maps is the number of maps of the first group. -/
theorem UpdateGuiCsgoMapPaths_num_highlighted (fileName : String → String)
    (l : List String) (csgoPath : String) :
    (UpdateGuiCsgoMapPaths fileName l csgoPath).OUT_num_highlighted_maps =
      (l.filter (fun p => isDzFileName (fileName p))).length := by
  simp only [UpdateGuiCsgoMapPaths, separateMapIndex_foldl, List.nil_append]
  rw [← map_getD_filter_range l (fun p => isDzFileName (fileName p)), List.length_map]

/-- Splitting a list by two conditions into three groups rearranges the list. -/
theorem three_groups_perm {α : Type} (p q : α → Bool) (l : List α) :
    (l.filter p ++ l.filter (fun a => !p a && q a) ++
      l.filter (fun a => !p a && !q a)).Perm l := by
  have h1 : l.filter (fun a => !p a && q a) =
      (l.filter (fun a => !p a)).filter q := by
    rw [List.filter_filter]
    congr 1
    funext a
    exact Bool.and_comm _ _
  have h2 : l.filter (fun a => !p a && !q a) =
      (l.filter (fun a => !p a)).filter (fun a => !q a) := by
    rw [List.filter_filter]
    congr 1
    funext a
    exact Bool.and_comm _ _
  rw [h1, h2, List.append_assoc]
  exact ((List.filter_append_perm q (l.filter (fun a => !p a))).append_left _).trans
    (List.filter_append_perm p l)

/-- C22: `UpdateGuiCsgoMapPaths` produces a stable three-way partition. The list
`OUT_loadable_maps` consists of the maps whose file name starts with `d` or `D`
followed by `z` or `Z`, then the remaining maps whose file name contains "bump",
"Bump" or "BUMP", then all other maps, each group in the order of the list of map
files (it is the list filtered by the condition of the group); it is a
permutation of the list of map files; and `OUT_num_highlighted_maps` is the size
of the first group. The two conditions are spelled out: a file name satisfies
the first if and only if its first two characters are `d` or `D` and `z` or `Z`,
and the second if and only if the characters of "bump", "Bump" or "BUMP" occur
consecutively in it. -/
theorem UpdateGuiCsgoMapPaths_stable_partition (fileName : String → String)
    (mapFileList : List String) (csgoPath : String) :
    (UpdateGuiCsgoMapPaths fileName mapFileList csgoPath).OUT_loadable_maps =
      mapFileList.filter (fun p => isDzFileName (fileName p)) ++
      mapFileList.filter
        (fun p => !isDzFileName (fileName p) && isBumpFileName (fileName p)) ++
      mapFileList.filter
        (fun p => !isDzFileName (fileName p) && !isBumpFileName (fileName p)) ∧
    (UpdateGuiCsgoMapPaths fileName mapFileList csgoPath).OUT_loadable_maps.Perm
      mapFileList ∧
    (UpdateGuiCsgoMapPaths fileName mapFileList csgoPath).OUT_num_highlighted_maps =
      (mapFileList.filter (fun p => isDzFileName (fileName p))).length ∧
    (∀ file_name, isDzFileName file_name = true ↔
      ∃ c0 c1 rest, file_name.toList = c0 :: c1 :: rest ∧
        (c0 = 'd' ∨ c0 = 'D') ∧ (c1 = 'z' ∨ c1 = 'Z')) ∧
    (∀ file_name, isBumpFileName file_name = true ↔
      (['b', 'u', 'm', 'p'] <:+: file_name.toList ∨
        ['B', 'u', 'm', 'p'] <:+: file_name.toList ∨
        ['B', 'U', 'M', 'P'] <:+: file_name.toList)) := by
  refine ⟨UpdateGuiCsgoMapPaths_loadable_maps fileName mapFileList csgoPath, ?_,
    UpdateGuiCsgoMapPaths_num_highlighted fileName mapFileList csgoPath, ?_, ?_⟩
  · rw [UpdateGuiCsgoMapPaths_loadable_maps]
    exact three_groups_perm _ _ _
  · intro file_name
    unfold isDzFileName
    constructor
    · intro h
      split at h
      · rename_i c0 c1 rest heq
        refine ⟨c0, c1, rest, heq, ?_⟩
        simpa using h
      · exact absurd h (by simp)
    · rintro ⟨c0, c1, rest, heq, h0, h1⟩
      rw [heq]
      simpa using ⟨h0, h1⟩
  · intro file_name
    unfold isBumpFileName
    rw [Bool.or_eq_true, Bool.or_eq_true, cpp.contains_iff_infix, cpp.contains_iff_infix,
      cpp.contains_iff_infix, or_assoc]
    exact Iff.rfl

/-- Witness of C22 for the five sample maps: the menu list holds the two `dz`
maps, then the two maps with "bump" in their file name (`xbump.bsp` among them),
then the remaining map; it is a permutation of the list of map files, and its
first two entries are highlighted. -/
theorem UpdateGuiCsgoMapPaths_stable_partition_witness :
    (UpdateGuiCsgoMapPaths id Examples.mapFiles "csgo").OUT_loadable_maps =
      ["dz_blacksite.bsp", "DZ_sirocco.bsp", "de_bumpy.bsp", "xbump.bsp",
        "de_dust2.bsp"] ∧
    (UpdateGuiCsgoMapPaths id Examples.mapFiles "csgo").OUT_loadable_maps.Perm
      Examples.mapFiles ∧
    (UpdateGuiCsgoMapPaths id Examples.mapFiles "csgo").OUT_num_highlighted_maps = 2 ∧
    isBumpFileName "xbump.bsp" = true :=
  ⟨(UpdateGuiCsgoMapPaths_stable_partition id Examples.mapFiles "csgo").1.trans
      (by decide),
    (UpdateGuiCsgoMapPaths_stable_partition id Examples.mapFiles "csgo").2.1,
    (UpdateGuiCsgoMapPaths_stable_partition id Examples.mapFiles "csgo").2.2.1.trans
      (by decide),
    ((UpdateGuiCsgoMapPaths_stable_partition id Examples.mapFiles "csgo").2.2.2.2
      "xbump.bsp").mpr (Or.inl (by decide))⟩

end DZSimApplication

namespace DZSimApplication

/-- The menu list for the five sample maps: the two `dz` maps first, then the two
maps with "bump" in their name, then the remaining map. -/
theorem UpdateGuiCsgoMapPaths_mapFiles :
    UpdateGuiCsgoMapPaths id Examples.mapFiles "csgo" =
      { OUT_csgo_path := "csgo"
        OUT_loadable_maps :=
          ["dz_blacksite.bsp", "DZ_sirocco.bsp", "de_bumpy.bsp", "xbump.bsp",
            "de_dust2.bsp"]
        OUT_num_highlighted_maps := 2 } := by
  decide

end DZSimApplication

/-! ### The draw order of the brush categories -/

namespace rendering

namespace WorldRenderer

open csgo_parsing.BrushSeparation gui

/-- The loop over the entries of `brush_category_meshes` appends the categories
that are not drawn last to the first vector and the others to the second. -/
theorem sortBrushCategory_foldl {Mesh : Type} (meshes : List (Category × Mesh))
    (acc : DrawOrderLists) :
    meshes.foldl sortBrushCategory acc =
      { brush_cat_draw_order := acc.brush_cat_draw_order ++
          (meshes.map Prod.fst).filter (fun c => !isLastDrawn c)
        last_drawn_brush_cats := acc.last_drawn_brush_cats ++
          (meshes.map Prod.fst).filter isLastDrawn } := by
  induction meshes generalizing acc with
  | nil => simp
  | cons kv meshes ih =>
    rw [List.foldl_cons, ih]
    by_cases h : isLastDrawn kv.1 = true
    · simp [sortBrushCategory, h, List.filter_cons]
    · simp [sortBrushCategory, h, List.filter_cons]

/-- Appending the elements of a vector one by one appends the vector. -/
theorem foldl_push_back {α : Type} (l init : List α) :
    l.foldl (fun order b_cat => order ++ [b_cat]) init = init ++ l := by
  induction l generalizing init with
  | nil => simp
  | cons a l ih => simp [ih]

/-- The draw order is the list of the categories that are not drawn last followed
by the list of those that are, both in the order of the map. -/
theorem brushCatDrawOrder_eq {Mesh : Type} (meshes : List (Category × Mesh)) :
    brushCatDrawOrder meshes =
      (meshes.map Prod.fst).filter (fun c => !isLastDrawn c) ++
        (meshes.map Prod.fst).filter isLastDrawn := by
  simp only [brushCatDrawOrder, sortBrushCategory_foldl, foldl_push_back,
    List.nil_append]

/-- The draw order is a rearrangement of the keys of the map. -/
theorem brushCatDrawOrder_perm {Mesh : Type} (meshes : List (Category × Mesh)) :
    (brushCatDrawOrder meshes).Perm (meshes.map Prod.fst) := by
  rw [brushCatDrawOrder_eq]
  exact List.perm_append_comm.trans (List.filter_append_perm isLastDrawn _)

/-- C23: transparent brushes are drawn last. For a map `brush_category_meshes`
(its keys are pairwise different), the draw order computed in
`WorldRenderer::Draw` contains every category of the map exactly once and no
other category; it is the list of the non-transparent categories of the map
followed by the list of the transparent ones (`WATER`, `GRENADECLIP`,
`PLAYERCLIP`), both in the order of the map; so every transparent category comes
after every non-transparent category. -/
theorem brushCatDrawOrder_transparent_last {Mesh : Type}
    (brush_category_meshes : List (Category × Mesh))
    (hkeys : (brush_category_meshes.map Prod.fst).Nodup) :
    (∀ c, c ∈ brush_category_meshes.map Prod.fst →
      (brushCatDrawOrder brush_category_meshes).count c = 1) ∧
    (∀ c, c ∉ brush_category_meshes.map Prod.fst →
      (brushCatDrawOrder brush_category_meshes).count c = 0) ∧
    brushCatDrawOrder brush_category_meshes =
      (brush_category_meshes.map Prod.fst).filter (fun c => !isLastDrawn c) ++
        (brush_category_meshes.map Prod.fst).filter isLastDrawn ∧
    (∀ c, isLastDrawn c = true ↔
      c = Category.WATER ∨ c = Category.GRENADECLIP ∨ c = Category.PLAYERCLIP) ∧
    (∀ (i j : Nat) (ci cj : Category), (brushCatDrawOrder brush_category_meshes)[i]? = some ci →
      (brushCatDrawOrder brush_category_meshes)[j]? = some cj →
      isLastDrawn ci = true → isLastDrawn cj = false → j < i) := by
  refine ⟨?_, ?_, brushCatDrawOrder_eq brush_category_meshes, ?_, ?_⟩
  · intro c hc
    rw [(brushCatDrawOrder_perm brush_category_meshes).count_eq]
    exact List.count_eq_one_of_mem hkeys hc
  · intro c hc
    rw [(brushCatDrawOrder_perm brush_category_meshes).count_eq]
    exact List.count_eq_zero_of_not_mem hc
  · intro c
    cases c <;> simp [isLastDrawn]
  · intro i j ci cj hi hj hci hcj
    rw [brushCatDrawOrder_eq] at hi hj
    by_contra hlt
    have hij : i ≤ j := Nat.le_of_not_lt hlt
    by_cases hjn : j <
        ((brush_category_meshes.map Prod.fst).filter (fun c => !isLastDrawn c)).length
    · have hin : i <
          ((brush_category_meshes.map Prod.fst).filter (fun c => !isLastDrawn c)).length :=
        Nat.lt_of_le_of_lt hij hjn
      rw [List.getElem?_append_left hin] at hi
      have hmem := List.mem_iff_getElem?.mpr ⟨_, hi⟩
      rw [List.mem_filter] at hmem
      simp [hci] at hmem
    · rw [List.getElem?_append_right (Nat.le_of_not_lt hjn)] at hj
      have hmem := List.mem_iff_getElem?.mpr ⟨_, hj⟩
      rw [List.mem_filter] at hmem
      simp [hcj] at hmem

/-- Witness of C23 for a map with all seven categories: `OTHER`, `SOLID`,
`LADDER` and `SKY` are drawn first, then `PLAYERCLIP`, `GRENADECLIP` and `WATER`. -/
theorem brushCatDrawOrder_transparent_last_witness :
    (Examples.allCategoryMeshes.map Prod.fst).Nodup ∧
    brushCatDrawOrder Examples.allCategoryMeshes =
      [Category.OTHER, Category.SOLID, Category.LADDER, Category.SKY,
        Category.PLAYERCLIP, Category.GRENADECLIP, Category.WATER] ∧
    (brushCatDrawOrder Examples.allCategoryMeshes).count Category.WATER = 1 :=
  ⟨by decide, by decide,
    (brushCatDrawOrder_transparent_last Examples.allCategoryMeshes (by decide)).1
      Category.WATER (by decide)⟩

/-! ### Glidability colouring per visualization mode -/

/-- In the modes `GLID_AT_SPECIFIC_SPEED` and `GLID_OF_CSGO_SESSION` the brush
categories `SOLID` and `PLAYERCLIP` are drawn with the colour override disabled,
and every other category with the colour override enabled. -/
theorem drawBrushCategory_glidability_modes {Col : Type} (lighting : Bool)
    (cols : BrushColors Col) (unknown_col : Col) (b_cat : Category) :
    ((drawBrushCategory GeoVisMode.GLID_AT_SPECIFIC_SPEED lighting cols unknown_col
        b_cat).color_override_enabled = false ↔
      b_cat = Category.SOLID ∨ b_cat = Category.PLAYERCLIP) ∧
    ((drawBrushCategory GeoVisMode.GLID_OF_CSGO_SESSION lighting cols unknown_col
        b_cat).color_override_enabled = false ↔
      b_cat = Category.SOLID ∨ b_cat = Category.PLAYERCLIP) := by
  cases b_cat <;> simp [drawBrushCategory, glidabilityVisGloballyDisabled]

/-- In the mode `GEO_TYPE` every brush category is drawn with the colour override
enabled and the override colour of the category. -/
theorem drawBrushCategory_geo_type {Col : Type} (lighting : Bool)
    (cols : BrushColors Col) (unknown_col : Col) (b_cat : Category) :
    (drawBrushCategory GeoVisMode.GEO_TYPE lighting cols unknown_col
        b_cat).color_override_enabled = true ∧
    (drawBrushCategory GeoVisMode.GEO_TYPE lighting cols unknown_col
        b_cat).override_color = overrideColor cols unknown_col b_cat := by
  cases b_cat <;> simp [drawBrushCategory, glidabilityVisGloballyDisabled]

/-- In the mode `GLID_OF_SIMULATION` every brush category is drawn with the
colour override enabled, as in the mode `GEO_TYPE`. -/
theorem drawBrushCategory_simulation_eq_geo_type {Col : Type} (lighting : Bool)
    (cols : BrushColors Col) (unknown_col : Col) (b_cat : Category) :
    (drawBrushCategory GeoVisMode.GLID_OF_SIMULATION lighting cols unknown_col
        b_cat).color_override_enabled = true := by
  cases b_cat <;> simp [drawBrushCategory, glidabilityVisGloballyDisabled]

end WorldRenderer

end rendering

/-! ### The FPS limit slider -/

namespace gui

namespace MenuWindow

/-- The loop period for a limit of 10 to 500 FPS is 2 to 100 milliseconds, and the
limit that belongs to the period is not below the selected one. -/
theorem period_bounds (f : Int) (h10 : 10 ≤ f) (h500 : f ≤ 500) :
    2 ≤ 1000 / f ∧ 1000 / f ≤ 100 ∧ f ≤ 1000 / (1000 / f) := by
  have hf : 0 < f := by omega
  have h2 : 2 ≤ 1000 / f := (Int.le_ediv_iff_mul_le hf).mpr (by omega)
  have h100 : 1000 / f ≤ 100 :=
    Int.le_of_lt_add_one ((Int.ediv_lt_iff_lt_mul hf).mpr (by omega))
  refine ⟨h2, h100, ?_⟩
  have hp : 0 < 1000 / f := by omega
  rw [Int.le_ediv_iff_mul_le hp]
  exact Int.mul_ediv_self_le (Int.ne_of_gt hf)

/-- C25: the mapping of the FPS limit slider. For every slider position `s` in
0..490 the setting `IN_min_loop_period` becomes `1000 / (s + 10)` (rounded down)
milliseconds, which lies in 2..100 and is not 0, the branch for a period of 0 is
not taken, and the displayed limit `1000 / period` (rounded down) is at least
`s + 10`; for every other value of the `int` variable `slider_val`, among them
the rightmost position 491, `IN_min_loop_period` becomes 0. -/
theorem fpsLimitSetting_mapping (slider_val : Int)
    (hint : -2147483648 ≤ slider_val ∧ slider_val ≤ 2147483647) :
    (0 ≤ slider_val ∧ slider_val ≤ 490 →
      (fpsLimitSetting slider_val).IN_min_loop_period = 1000 / (slider_val + 10) ∧
      2 ≤ (fpsLimitSetting slider_val).IN_min_loop_period ∧
      (fpsLimitSetting slider_val).IN_min_loop_period ≤ 100 ∧
      (fpsLimitSetting slider_val).IN_min_loop_period ≠ 0 ∧
      (fpsLimitSetting slider_val).zero_period_branch = false ∧
      (fpsLimitSetting slider_val).fps_unlimited = false ∧
      (fpsLimitSetting slider_val).real_max_fps =
        some (1000 / (fpsLimitSetting slider_val).IN_min_loop_period) ∧
      slider_val + 10 ≤ 1000 / (fpsLimitSetting slider_val).IN_min_loop_period) ∧
    (¬ (0 ≤ slider_val ∧ slider_val ≤ 490) →
      (fpsLimitSetting slider_val).IN_min_loop_period = 0 ∧
      (fpsLimitSetting slider_val).fps_unlimited = true ∧
      (fpsLimitSetting slider_val).zero_period_branch = false) := by
  constructor
  · rintro ⟨h0, h490⟩
    obtain ⟨h2, h100, hreal⟩ := period_bounds (slider_val + 10) (by omega) (by omega)
    have hguard : slider_val ≥ 0 ∧
        cpp.toSizeT slider_val < cpp.toSizeT (SLIDER_VAL_COUNT - 1) := by
      refine ⟨h0, ?_⟩
      simp only [cpp.toSizeT, SLIDER_VAL_COUNT, MAX_FPS_LIMIT, MIN_FPS_LIMIT]
      omega
    have hfps : sim.u32 (slider_val + MIN_FPS_LIMIT) = slider_val + 10 := by
      simp only [sim.u32, MIN_FPS_LIMIT]
      omega
    have hms : sim.u32 (1000 / (slider_val + 10)) = 1000 / (slider_val + 10) := by
      simp only [sim.u32]
      omega
    have hne : ¬ (1000 / (slider_val + 10) = 0) := by omega
    have hreal2 : sim.u32 (1000 / (1000 / (slider_val + 10))) =
        1000 / (1000 / (slider_val + 10)) := by
      have hle : 1000 / (1000 / (slider_val + 10)) ≤ 500 :=
        Int.le_of_lt_add_one ((Int.ediv_lt_iff_lt_mul (by omega)).mpr (by omega))
      simp only [sim.u32]
      omega
    have hval : fpsLimitSetting slider_val =
        { IN_min_loop_period := 1000 / (slider_val + 10), fps_unlimited := false,
          zero_period_branch := false,
          real_max_fps := some (1000 / (1000 / (slider_val + 10))) } := by
      simp only [fpsLimitSetting, if_pos hguard, hfps, hms, if_neg hne, hreal2]
    rw [hval]
    exact ⟨rfl, h2, h100, hne, rfl, rfl, rfl, hreal⟩
  · intro h
    have hguard : ¬ (slider_val ≥ 0 ∧
        cpp.toSizeT slider_val < cpp.toSizeT (SLIDER_VAL_COUNT - 1)) := by
      simp only [cpp.toSizeT, SLIDER_VAL_COUNT, MAX_FPS_LIMIT, MIN_FPS_LIMIT]
      omega
    have hval : fpsLimitSetting slider_val =
        { IN_min_loop_period := 0, fps_unlimited := true, zero_period_branch := false,
          real_max_fps := none } := by
      simp only [fpsLimitSetting, if_neg hguard]
    rw [hval]
    exact ⟨rfl, rfl, rfl⟩

/-- Witness of C25: the slider position 50 selects 60 FPS and gives a period of
16 milliseconds, and the rightmost position 491 gives the period 0. -/
theorem fpsLimitSetting_mapping_witness :
    ((-2147483648 : Int) ≤ 50 ∧ (50 : Int) ≤ 2147483647) ∧
    ((0 : Int) ≤ 50 ∧ (50 : Int) ≤ 490) ∧
    (fpsLimitSetting 50).IN_min_loop_period = 16 ∧
    ((-2147483648 : Int) ≤ 491 ∧ (491 : Int) ≤ 2147483647) ∧
    ¬ ((0 : Int) ≤ 491 ∧ (491 : Int) ≤ 490) ∧
    (fpsLimitSetting 491).IN_min_loop_period = 0 :=
  ⟨by decide, by decide,
    ((fpsLimitSetting_mapping 50 (by decide)).1 (by decide)).1.trans (by decide),
    by decide, by decide,
    ((fpsLimitSetting_mapping 491 (by decide)).2 (by decide)).1⟩

end MenuWindow

end gui
